import Mathlib

/-!
# ROL adjoint-based sensitivity engine: `example_01.hpp`

A shallow embedding of `packages/rol/example/intrepid/example_01.hpp` (the tracking objective
`TrackingObjective` and the boundary-value-problem constraint `BVPConstraint`) and of
`Step::initialize` of `packages/rol/src/step/ROL_Step.hpp`, followed by the properties proved
about them.

* Scalars are an arbitrary commutative ring / field `K` (exact arithmetic); the theorems that speak
  of derivatives take `K = ℝ`, the concrete evaluations take `K = ℚ`.
* A `std::vector<Real>` of length `nDoF` is a function `Fin nDoF → K`, a field container
  `FC<ScalarT>(numCells, numFields)` a function `Fin numCells → Fin numFields → ScalarT`, a
  `Teuchos::SerialDenseMatrix` a `Matrix`.
* Mutable objects are threaded through explicitly; a `for` loop that accumulates with `+=` is a
  left fold over its index range (`forLoop`).
* The dense matrices an inverse solve shares with the solver through `RCP` handles live in a
  `MatrixHeap`; the operations on vectors of arbitrary length (`...Raw`) work on lists and have
  an `Outcome`.
-/

set_option synthInstance.maxHeartbeats 400000

namespace ROL

/-! ## Definitions -/

/-- A counted loop `for (int i = 0; i < n; ++i) body`, threading the mutated state. -/
def forLoop {σ : Type} (n : Nat) (body : Fin n → σ → σ) (init : σ) : σ :=
  (List.finRange n).foldl (fun s i => body i s) init

/-- Modelled from the spec: the discretization provider of `discretization.hpp` (not under
`src/`), which exposes cell count, cubature-point count, field count, spatial dimension, the
physical cubature points, the transformed and weighted-transformed basis values and gradients and
the per-cell mass matrices. Purely data. -/
structure Discretization (K : Type) where
  /-- Number of cells (elements). -/
  numCells : Nat
  /-- Number of cubature points per cell. -/
  numCubPts : Nat
  /-- Number of basis functions per cell. -/
  numFields : Nat
  /-- Number of spatial dimensions. -/
  spaceDim : Nat
  /-- Physical cubature points `x_cub_(cell, point, dim)`. -/
  physCubPts : Fin numCells → Fin numCubPts → Fin spaceDim → K
  /-- Transformed values of the basis functions `tranVals_(cell, field, point)`. -/
  transformedVals : Fin numCells → Fin numFields → Fin numCubPts → K
  /-- Transformed gradients of the basis functions `tranGrad_(cell, field, point, dim)`. -/
  transformedGrad : Fin numCells → Fin numFields → Fin numCubPts → Fin spaceDim → K
  /-- Weighted transformed values `wtdTranVals_(cell, field, point)`. -/
  weightedTransformedVals : Fin numCells → Fin numFields → Fin numCubPts → K
  /-- Weighted transformed gradients `wtdTranGrad_(cell, field, point, dim)`. -/
  weightedTransformedGrad : Fin numCells → Fin numFields → Fin numCubPts → Fin spaceDim → K
  /-- Per-cell mass matrices `massMatrices_(cell, rfield, cfield)`. -/
  massMatrices : Fin numCells → Fin numFields → Fin numFields → K

/-- The member `nDoF_(numCells_*(numFields_-1)+1)`, computed in `int` arithmetic; a negative
value (no fields, several cells) leaves every `i < nDoF_` loop empty, as length `0` does. -/
def Discretization.nDoF {K : Type} (D : Discretization K) : Nat :=
  ((D.numCells : Int) * ((D.numFields : Int) - 1) + 1).toNat

/-- The gather/scatter index `int i = cell*(numFields_-1) + field`. It is only ever formed inside
the loops `cell < numCells_`, `field < numFields_`, where it is below `nDoF_`. -/
def Discretization.dof {K : Type} (D : Discretization K) (cell : Fin D.numCells)
    (field : Fin D.numFields) : Fin D.nDoF :=
  ⟨cell.val * (D.numFields - 1) + field.val, by
    unfold Discretization.nDoF
    have h1 := cell.isLt
    have h2 := field.isLt
    have h3 : cell.val * (D.numFields - 1) ≤ (D.numCells - 1) * (D.numFields - 1) :=
      Nat.mul_le_mul_right _ (by omega)
    have h4 : ((D.numCells : Int) * ((D.numFields : Int) - 1) + 1)
        = (((D.numCells - 1) * (D.numFields - 1) + (D.numFields - 1) + 1 : Nat) : Int) := by
      have e1 : D.numCells = (D.numCells - 1) + 1 := by omega
      have e2 : D.numFields = (D.numFields - 1) + 1 := by omega
      generalize D.numCells - 1 = a at e1
      generalize D.numFields - 1 = b at e2
      rw [e1, e2]
      push_cast
      ring
    rw [h4, Int.toNat_ofNat]
    omega⟩

/-- A ROL vector of this problem: the `std::vector<Real>` of length `nDoF_` behind an `SV`. -/
abbrev Vec {K : Type} (D : Discretization K) : Type := Fin D.nDoF → K

/-- An Intrepid field container `FC<ScalarT>(numCells_, numFields_)`. -/
abbrev FC {K : Type} (D : Discretization K) (S : Type) : Type :=
  Fin D.numCells → Fin D.numFields → S

/-- Modelled from the spec: the inner product `dot` of the vector abstraction (`ROL_StdVector.hpp`
is not under `src/`), the sum of the products of the entries. -/
def dot {K : Type} [CommRing K] {n : Nat} (x y : Fin n → K) : K := ∑ i, x i * y i

/-! ### Forward-mode numbers -/

/-- Modelled from the spec: the Sacado number `DFad<T>` (Sacado is not under `src/`), a value
together with `n` derivative components, propagated through arithmetic by the product rule;
this is the trivial square-zero extension of `T` by `Tⁿ`. -/
abbrev DFad (T : Type) (n : Nat) : Type := TrivSqZeroExt T (Fin n → T)

/-- The constructor `DFad<T>(sz, i, x)`: value `x`, derivative array the `i`-th unit vector. -/
def DFad.indep {T : Type} [CommRing T] (sz : Nat) (i : Fin sz) (x : T) : DFad T sz :=
  TrivSqZeroExt.inl x + TrivSqZeroExt.inr (Pi.single i 1)

/-- The accessor `.dx(i)`: the `i`-th derivative component. -/
def DFad.dx {T : Type} {n : Nat} (a : DFad T n) (i : Fin n) : T := TrivSqZeroExt.snd a i

/-- Modelled from the spec: `Sacado::Fad::SFad<Real,1>` (Sacado is not under `src/`), a value
together with one derivative component: the dual numbers over `T`. -/
abbrev SFad (T : Type) : Type := TrivSqZeroExt T T

/-- The two statements `SFad temp(1, x); temp.fastAccessDx(0) = d;`. -/
def SFad.withDx {T : Type} [CommRing T] (x d : T) : SFad T :=
  TrivSqZeroExt.inl x + TrivSqZeroExt.inr d

/-- The accessor `.dx(0)` of an `SFad<Real,1>`: its only derivative component. -/
def SFad.dx {T : Type} (a : SFad T) (_i : Fin 1) : T := TrivSqZeroExt.snd a

/-- The nested type `DSFad = DFad<SFad<Real,1>>` of `applyAdjointHessian`. -/
abbrev DSFad (T : Type) (n : Nat) : Type := DFad (SFad T) n

section homs
open TrivSqZeroExt

/-- Either the independent variable `DFad<T>(n, field, y)` or, when `b` is false, the constant
`y` without derivative array (used in the proofs only). -/
def DFad.tagged {T : Type} [CommRing T] (n : Nat) (b : Bool) (field : Fin n) (y : T) : DFad T n :=
  if b then DFad.indep n field y else inl y

/-- The ring homomorphism `DFad R n → DFad R' n` that applies `φ : R → R'` to the value and to
every derivative component (used in the proofs only). -/
def DFad.mapHom {R R' : Type} [CommRing R] [CommRing R'] (φ : R →+* R') (n : Nat) :
    DFad R n →+* DFad R' n where
  toFun a := inl (φ (fst a)) + inr (fun i => φ (snd a i))
  map_one' := by ext <;> simp
  map_mul' a b := by
    ext i
    · simp
    · simp
  map_zero' := by
    ext i
    · simp
    · simp
  map_add' a b := by
    ext i
    · simp
    · simp

/-- The ring homomorphism `DFad R n → SFad R` that keeps the value and contracts the derivative
array with `g`: `(a, m) ↦ (a, Σ_f g f · m f)` (used in the proofs only). -/
def DFad.contract {R : Type} [CommRing R] {n : Nat} (g : Fin n → R) : DFad R n →+* SFad R :=
  (TrivSqZeroExt.map (∑ f, g f • (LinearMap.proj f : (Fin n → R) →ₗ[R] R))).toRingHom

/-- The ring automorphism of the doubly dual numbers that exchanges the two infinitesimals:
`a + b·ε₁ + c·ε₂ + d·ε₁ε₂ ↦ a + c·ε₁ + b·ε₂ + d·ε₁ε₂` (used in the proofs only). -/
def SFad.swap {R : Type} [CommRing R] : SFad (SFad R) →+* SFad (SFad R) where
  toFun a := inl (inl (fst (fst a)) + inr (fst (snd a)))
    + inr (inl (snd (fst a)) + inr (snd (snd a)))
  map_one' := by ext <;> simp
  map_mul' a b := by
    ext
    · simp
    · simp
    · simp
    · simp
      ring
  map_zero' := by ext <;> simp
  map_add' a b := by
    ext <;> simp

end homs

/-! ### Coefficient provider -/

/-- Modelled from the spec: the body of a coefficient routine of `coefficient.hpp` (not under
`src/`), "mapping (position, state-value, control-value, parameters) to cubature-point values,
generic over the numeric type": an arithmetic expression in the position coordinates, the state
value and the control value, which can be evaluated at every scalar type. -/
inductive CoefExpr (K : Type) (spaceDim : Nat) : Type where
  /-- A `Real` literal (or an entry of the parameter vector). -/
  | const (a : K) : CoefExpr K spaceDim
  /-- The coordinate `x(c,p,d)` of the cubature point. -/
  | coord (d : Fin spaceDim) : CoefExpr K spaceDim
  /-- The state value `u(c,p)` at the cubature point. -/
  | state : CoefExpr K spaceDim
  /-- The control value `z(c,p)` at the cubature point. -/
  | control : CoefExpr K spaceDim
  /-- Sum. -/
  | add (e₁ e₂ : CoefExpr K spaceDim) : CoefExpr K spaceDim
  /-- Difference. -/
  | sub (e₁ e₂ : CoefExpr K spaceDim) : CoefExpr K spaceDim
  /-- Product. -/
  | mul (e₁ e₂ : CoefExpr K spaceDim) : CoefExpr K spaceDim

/-- Evaluation of a coefficient expression at the scalar type `S`. -/
def CoefExpr.eval {K : Type} [CommRing K] {spaceDim : Nat} {S : Type} [CommRing S] [Algebra K S]
    (x : Fin spaceDim → K) (u z : S) : CoefExpr K spaceDim → S
  | .const a => algebraMap K S a
  | .coord d => algebraMap K S (x d)
  | .state => u
  | .control => z
  | .add e₁ e₂ => e₁.eval x u z + e₂.eval x u z
  | .sub e₁ e₂ => e₁.eval x u z - e₂.eval x u z
  | .mul e₁ e₂ => e₁.eval x u z * e₂.eval x u z

/-- Modelled from the spec: the coefficient provider `Coefficient<Real,ScalarT>` of
`coefficient.hpp` (not under `src/`) with its three routines diffusion, advection, reaction. -/
structure Coefficient (K : Type) (spaceDim : Nat) where
  /-- The reaction term `reaction(result, x, u, z, param)`, one value per cubature point. -/
  reaction : CoefExpr K spaceDim
  /-- The advection velocity `advection(result, x, u, z, param)`, one vector per point. -/
  advection : Fin spaceDim → CoefExpr K spaceDim
  /-- The diffusivity `diffusion(result, x, u, z, param)`, one value per cubature point. -/
  diffusion : CoefExpr K spaceDim

/-! ### Intrepid function-space tools -/

namespace FST

variable {K : Type} [CommRing K] {S : Type} [CommRing S] [Algebra K S] {C F P Dm : Nat}

/-- Modelled from the spec: `FST::evaluate` on values (Intrepid is not under `src/`),
"interpolation at cubature points from nodal values and basis functions":
`out(c,p) = Σ_f coeffs(c,f)·fields(c,f,p)`. -/
def evaluate (inCoeffs : Fin C → Fin F → S) (inFields : Fin C → Fin F → Fin P → K) :
    Fin C → Fin P → S :=
  fun c p => ∑ f, inCoeffs c f * algebraMap K S (inFields c f p)

/-- Modelled from the spec: `FST::evaluate` on gradients (Intrepid is not under `src/`):
`out(c,p,d) = Σ_f coeffs(c,f)·fields(c,f,p,d)`. -/
def evaluateGrad (inCoeffs : Fin C → Fin F → S)
    (inFields : Fin C → Fin F → Fin P → Fin Dm → K) : Fin C → Fin P → Fin Dm → S :=
  fun c p d => ∑ f, inCoeffs c f * algebraMap K S (inFields c f p d)

/-- Modelled from the spec: `FST::scalarMultiplyDataData` (Intrepid is not under `src/`), the
diffusion flux `out(c,p,d) = left(c,p)·right(c,p,d)`. -/
def scalarMultiplyDataData (inLeft : Fin C → Fin P → S) (inRight : Fin C → Fin P → Fin Dm → S) :
    Fin C → Fin P → Fin Dm → S :=
  fun c p d => inLeft c p * inRight c p d

/-- Modelled from the spec: `FST::dotMultiplyDataData` (Intrepid is not under `src/`), the
advection term `out(c,p) = Σ_d left(c,p,d)·right(c,p,d)`. -/
def dotMultiplyDataData (inLeft inRight : Fin C → Fin P → Fin Dm → S) : Fin C → Fin P → S :=
  fun c p => ∑ d, inLeft c p d * inRight c p d

/-- Modelled from the spec: `FST::integrate` of vector data against weighted gradients (Intrepid
is not under `src/`): `out(c,f) = Σ_p Σ_d data(c,p,d)·fields(c,f,p,d)`, added to the previous
content of `out` when `sumInto` is set and replacing it otherwise. -/
def integrateGrad (out : Fin C → Fin F → S) (data : Fin C → Fin P → Fin Dm → S)
    (fields : Fin C → Fin F → Fin P → Fin Dm → K) (sumInto : Bool) : Fin C → Fin F → S :=
  fun c f => (if sumInto then out c f else 0)
    + ∑ p, ∑ d, data c p d * algebraMap K S (fields c f p d)

/-- Modelled from the spec: `FST::integrate` of scalar data against weighted values (Intrepid is
not under `src/`): `out(c,f) = Σ_p data(c,p)·fields(c,f,p)`, added to the previous content of
`out` when `sumInto` is set and replacing it otherwise. -/
def integrate (out : Fin C → Fin F → S) (data : Fin C → Fin P → S)
    (fields : Fin C → Fin F → Fin P → K) (sumInto : Bool) : Fin C → Fin F → S :=
  fun c f => (if sumInto then out c f else 0) + ∑ p, data c p * algebraMap K S (fields c f p)

end FST

/-! ### Teuchos dense linear algebra -/

/-- The index type `enum var { sim, opt }` for the simulation and optimization variable. -/
inductive var : Type where
  | sim : var
  | opt : var
  deriving DecidableEq

/-- The statement `(*J)(row,col) += x` on a `Teuchos::SerialDenseMatrix`. -/
def addEntry {K : Type} [CommRing K] {n : Nat} (J : Matrix (Fin n) (Fin n) K)
    (row col : Fin n) (x : K) : Matrix (Fin n) (Fin n) K :=
  Function.update J row (Function.update (J row) col (J row col + x))

/-- Modelled from the spec: the arrays of numbers behind the `RCP<Matrix>` handles of a call
(`Teuchos::SerialDenseMatrix` and `Teuchos::RCP` are not under `src/`). A handle is a position in
the list: two handles to one position share the array, and `new Matrix(A)` makes a new
position. -/
abbrev MatrixHeap (n : Nat) (K : Type) : Type := List (Matrix (Fin n) (Fin n) K)

namespace MatrixHeap

variable {n : Nat} {K : Type}

/-- The expression `Teuchos::rcp(new Matrix(A))`: a new array holding a copy of the entries `A`,
together with the handle to it. -/
def alloc (h : MatrixHeap n K) (A : Matrix (Fin n) (Fin n) K) : MatrixHeap n K × Nat :=
  (h ++ [A], h.length)

/-- The entries of the array behind the handle `r`. -/
def read [Zero K] (h : MatrixHeap n K) (r : Nat) : Matrix (Fin n) (Fin n) K := h.getD r 0

/-- Overwrite the array behind the handle `r`. -/
def write (h : MatrixHeap n K) (r : Nat) (A : Matrix (Fin n) (Fin n) K) : MatrixHeap n K :=
  h.set r A

end MatrixHeap

/-- Modelled from the spec: `Teuchos::SerialDenseSolver<int,Real>` (Teuchos is not under `src/`),
the "direct dense factorization (equilibrated, to control conditioning)" that solves with the
matrix or, "in transposed mode", with its transpose, and reports a singular matrix. The object
holds the handle given to `setMatrix`, so it shares the array of the caller's matrix and works in
it, the two vectors given to `setVectors`, and its flags. `factor` overwrites the array with the
factored form of the matrix ("LAPACK overwrites the original with factors") and `solve` reads
the solution off the factored form. In exact arithmetic the factored form is represented by the
one matrix from which both solves are read off, `(det A)⁻¹ · adj A`, which is zero for a singular
`A`; the packed triangular factors that LAPACK leaves depend on row exchanges and scalings chosen
by magnitude and are not modelled. -/
structure SerialDenseSolver (n : Nat) (K : Type) where
  /-- The handle given to `setMatrix`; null until then. -/
  Matrix_ : Option Nat
  /-- The solution vector given to `setVectors`. -/
  LHS_ : Matrix (Fin n) (Fin 1) K
  /-- The right-hand side given to `setVectors`. -/
  RHS_ : Matrix (Fin n) (Fin 1) K
  /-- Set by `factorWithEquilibration`. -/
  equilibrate_ : Bool
  /-- Set by `solveWithTranspose`. -/
  transpose_ : Bool
  /-- Set once `factor` has run. -/
  factored_ : Bool

namespace SerialDenseSolver

variable {n : Nat} {K : Type} [Field K] [DecidableEq K]

/-- The default constructor `Teuchos::SerialDenseSolver<int,Real> solver;`. -/
def new : SerialDenseSolver n K :=
  { Matrix_ := none, LHS_ := 0, RHS_ := 0, equilibrate_ := false, transpose_ := false,
    factored_ := false }

/-- The method `setMatrix(A)`: the solver keeps the handle `A`. -/
def setMatrix (s : SerialDenseSolver n K) (A : Nat) : SerialDenseSolver n K :=
  { s with Matrix_ := some A, factored_ := false }

/-- The method `factorWithEquilibration(flag)`. -/
def factorWithEquilibration (s : SerialDenseSolver n K) (flag : Bool) : SerialDenseSolver n K :=
  { s with equilibrate_ := flag }

/-- The method `solveWithTranspose(flag)`. -/
def solveWithTranspose (s : SerialDenseSolver n K) (flag : Bool) : SerialDenseSolver n K :=
  { s with transpose_ := flag }

/-- The method `setVectors(X, B)`. -/
def setVectors (s : SerialDenseSolver n K) (X B : Matrix (Fin n) (Fin 1) K) :
    SerialDenseSolver n K :=
  { s with LHS_ := X, RHS_ := B }

/-- The method `factor()`: the array behind the solver's handle is overwritten with the factored
form of the matrix it held; the returned status is `0` when the factorization succeeds and
positive when the matrix is singular (negative when no matrix has been set). -/
def factor (s : SerialDenseSolver n K) (heap : MatrixHeap n K) :
    SerialDenseSolver n K × MatrixHeap n K × Int :=
  match s.Matrix_ with
  | none => (s, heap, -1)
  | some r =>
    let A := heap.read r
    ({ s with factored_ := true }, heap.write r ((A.det)⁻¹ • A.adjugate),
      if A.det = 0 then 1 else 0)

/-- The method `solve()`, which factors first when `factor()` has not run: from the factored form
of a nonsingular matrix `A` it stores in the solution vector the solution `X` of `A·X = B`, or of
`Aᵀ·X = B` when the transpose flag is set, and returns `0`; with a singular matrix it returns a
positive status and leaves the solution vector as it was. -/
def solve (s : SerialDenseSolver n K) (heap : MatrixHeap n K) :
    SerialDenseSolver n K × MatrixHeap n K × Int :=
  let f := if s.factored_ then (s, heap) else ((s.factor heap).1, (s.factor heap).2.1)
  let s := f.1
  let heap := f.2
  match s.Matrix_ with
  | none => (s, heap, -1)
  | some r =>
    let F := if s.transpose_ then (heap.read r).transpose else heap.read r
    if F.det = 0 then (s, heap, 1)
    else ({ s with LHS_ := F * s.RHS_ }, heap, 0)

end SerialDenseSolver

/-! ### The constraint `BVPConstraint` -/

/-- The mutable members of `class BVPConstraint`: the cached Jacobian blocks `Ju_` and `Jz_`.
The discretization data and the coefficient are fixed at construction. -/
structure BVPConstraint {K : Type} (D : Discretization K) where
  /-- Constraint Jacobian w.r.t. `u`. -/
  Ju_ : Matrix (Fin D.nDoF) (Fin D.nDoF) K
  /-- Constraint Jacobian w.r.t. `z`. -/
  Jz_ : Matrix (Fin D.nDoF) (Fin D.nDoF) K

namespace BVPConstraint

variable {K : Type} [CommRing K] {D : Discretization K}

/-- The constructor `BVPConstraint(disc)`: both blocks are `Matrix(nDoF_, nDoF_, true)`,
zero-initialized. -/
def new (D : Discretization K) : BVPConstraint D := { Ju_ := 0, Jz_ := 0 }

/-- Write a ROL vector into a one-column matrix: `(*m)(i,0) = (*vp)[i]` for `i < nDoF_`. -/
def vec2mat (_m : Matrix (Fin D.nDoF) (Fin 1) K) (v : Vec D) : Matrix (Fin D.nDoF) (Fin 1) K :=
  fun i _ => v i

/-- Write a one-column matrix into a ROL vector: `(*vp)[i] = (*m)(i,0)` for `i < nDoF_`. -/
def mat2vec (_v : Vec D) (m : Matrix (Fin D.nDoF) (Fin 1) K) : Vec D :=
  fun i => m i 0

/-- Gather a ROL vector into a field container: `fc(cell,field) = (*vp)[i]` with
`i = cell*(numFields_-1) + field`. -/
def gather {S : Type} [CommRing S] [Algebra K S] (_fc : FC D S) (v : Vec D) : FC D S :=
  fun cell field => algebraMap K S (v (D.dof cell field))

/-- Compute the residual given `u` and `z`, at the scalar type `S`. -/
def evaluate_res (coeff : Coefficient K D.spaceDim) {S : Type} [CommRing S] [Algebra K S]
    (_c_fc u_fc z_fc : FC D S) : FC D S :=
  -- Evaluate on the cubature points
  let u_vals_cub := FST.evaluate u_fc D.transformedVals
  let z_vals_cub := FST.evaluate z_fc D.transformedVals
  let u_grad_cub := FST.evaluateGrad u_fc D.transformedGrad
  -- Evaluate terms on the cubature points
  let react_cub : Fin D.numCells → Fin D.numCubPts → S := fun c p =>
    coeff.reaction.eval (D.physCubPts c p) (u_vals_cub c p) (z_vals_cub c p)
  let advec_cub : Fin D.numCells → Fin D.numCubPts → Fin D.spaceDim → S := fun c p d =>
    (coeff.advection d).eval (D.physCubPts c p) (u_vals_cub c p) (z_vals_cub c p)
  let diff_cub : Fin D.numCells → Fin D.numCubPts → S := fun c p =>
    coeff.diffusion.eval (D.physCubPts c p) (u_vals_cub c p) (z_vals_cub c p)
  let diff_term := FST.scalarMultiplyDataData diff_cub u_grad_cub
  let advec_term := FST.dotMultiplyDataData advec_cub u_grad_cub
  -- Add terms to residual
  let c_fc : FC D S := fun _ _ => 0 -- c_fc.initialize()
  let c_fc := FST.integrateGrad c_fc diff_term D.weightedTransformedGrad false
  let c_fc := FST.integrate c_fc advec_term D.weightedTransformedVals true
  FST.integrate c_fc react_cub D.weightedTransformedVals true

/-- The private helper `applyJac(jv, v, comp, transpose)`. -/
def applyJac (s : BVPConstraint D) (_jv v : Vec D) (comp : var) (transpose : Bool := false) :
    Vec D :=
  let J := if comp = var.sim then s.Ju_ else s.Jz_
  -- std::fill(jvp->begin(), jvp->end(), 0.0)
  let jv : Vec D := fun _ => 0
  forLoop D.nDoF (fun row jv =>
    forLoop D.nDoF (fun col jv =>
      if transpose then Function.update jv row (jv row + J col row * v col)
      else Function.update jv row (jv row + J row col * v col)) jv) jv

/-- The private helper `applyAdjointHessian(ahwv, w, v, u, z, one, two)`. -/
def applyAdjointHessian (coeff : Coefficient K D.spaceDim) (_ahwv w v u z : Vec D)
    (one two : var) : Vec D :=
  -- std::fill(ahwvp->begin(), ahwvp->end(), 0.0)
  let ahwv : Vec D := fun _ => 0
  let fc : FC D (DSFad K D.numFields) × FC D (DSFad K D.numFields) :=
    match one, two with
    | var.sim, var.sim => -- H11 block
      (fun cell field =>
          DFad.indep D.numFields field
            (SFad.withDx (u (D.dof cell field)) (v (D.dof cell field))),
        fun cell field => algebraMap K (DSFad K D.numFields) (z (D.dof cell field)))
    | var.sim, var.opt => -- H12 block
      (fun cell field =>
          TrivSqZeroExt.inl (SFad.withDx (u (D.dof cell field)) (v (D.dof cell field))),
        fun cell field =>
          DFad.indep D.numFields field (algebraMap K (SFad K) (z (D.dof cell field))))
    | var.opt, var.sim => -- H21 block
      (fun cell field =>
          DFad.indep D.numFields field (algebraMap K (SFad K) (u (D.dof cell field))),
        fun cell field =>
          TrivSqZeroExt.inl (SFad.withDx (z (D.dof cell field)) (v (D.dof cell field))))
    | var.opt, var.opt => -- H22 block
      (fun cell field => algebraMap K (DSFad K D.numFields) (u (D.dof cell field)),
        fun cell field =>
          DFad.indep D.numFields field
            (SFad.withDx (z (D.dof cell field)) (v (D.dof cell field))))
  let u_fc := fc.1
  let z_fc := fc.2
  let c_fc := evaluate_res coeff (fun _ _ => 0) u_fc z_fc
  -- Compute the cellwise dot product of the constraint value and the Lagrange multiplier
  forLoop D.numCells (fun cell ahwv =>
    let wdotc : DSFad K D.numFields :=
      forLoop D.numFields (fun field wdotc =>
        wdotc + c_fc cell field * algebraMap K (DSFad K D.numFields) (w (D.dof cell field)))
        (TrivSqZeroExt.inl (algebraMap K (SFad K) 0))
    forLoop D.numFields (fun field ahwv =>
      Function.update ahwv (D.dof cell field)
        (ahwv (D.dof cell field) + SFad.dx (DFad.dx wdotc field) 0)) ahwv) ahwv

/-- The method `update(u, z, flag, iter)`: assemble both Jacobian blocks. -/
def update (coeff : Coefficient K D.spaceDim) (_s : BVPConstraint D) (u z : Vec D)
    (_flag : Bool) (_iter : Int := -1) : BVPConstraint D :=
  let z_fc1 : FC D (DFad K D.numFields) := gather (fun _ _ => 0) z
  let u_fc2 : FC D (DFad K D.numFields) := gather (fun _ _ => 0) u
  -- Fill in field containers from vectors (gather)
  let u_fc1 : FC D (DFad K D.numFields) := fun cell field =>
    DFad.indep D.numFields field (u (D.dof cell field))
  let z_fc2 : FC D (DFad K D.numFields) := fun cell field =>
    DFad.indep D.numFields field (z (D.dof cell field))
  let c_fc1 := evaluate_res coeff (fun _ _ => 0) u_fc1 z_fc1
  let c_fc2 := evaluate_res coeff (fun _ _ => 0) u_fc2 z_fc2
  -- Ju_->putScalar(0.0); Jz_->putScalar(0.0): zero out the matrices
  let s : BVPConstraint D := { Ju_ := fun _ _ => 0, Jz_ := fun _ _ => 0 }
  forLoop D.numCells (fun cell s =>
    forLoop D.numFields (fun rfield s =>
      forLoop D.numFields (fun cfield s =>
        { Ju_ := addEntry s.Ju_ (D.dof cell rfield) (D.dof cell cfield)
                   (DFad.dx (c_fc1 cell rfield) cfield),
          Jz_ := addEntry s.Jz_ (D.dof cell rfield) (D.dof cell cfield)
                   (DFad.dx (c_fc2 cell rfield) cfield) }) s) s) s

/-- The method `value(c, u, z, tol)`: the residual at plain values, scattered into `c`. -/
def value (manual_update : Bool) (coeff : Coefficient K D.spaceDim) (s : BVPConstraint D)
    (_c u z : Vec D) : BVPConstraint D × Vec D :=
  let s := if manual_update then update coeff s u z true else s
  -- std::fill(cp->begin(), cp->end(), 0.0)
  let c : Vec D := fun _ => 0
  let u_fc : FC D K := gather (fun _ _ => 0) u
  let z_fc : FC D K := gather (fun _ _ => 0) z
  let c_fc := evaluate_res coeff (fun _ _ => 0) u_fc z_fc
  -- Scatter residual back into ROL vector
  (s, forLoop D.numCells (fun cell c =>
        forLoop D.numFields (fun field c =>
          Function.update c (D.dof cell field) (c (D.dof cell field) + c_fc cell field)) c) c)

/-- The method `applyJacobian_1(jv, v, u, z, tol)`. -/
def applyJacobian_1 (manual_update : Bool) (coeff : Coefficient K D.spaceDim)
    (s : BVPConstraint D) (jv v u z : Vec D) : BVPConstraint D × Vec D :=
  let s := if manual_update then update coeff s u z true else s
  (s, applyJac s jv v var.sim false)

/-- The method `applyJacobian_2(jv, v, u, z, tol)`. -/
def applyJacobian_2 (manual_update : Bool) (coeff : Coefficient K D.spaceDim)
    (s : BVPConstraint D) (jv v u z : Vec D) : BVPConstraint D × Vec D :=
  let s := if manual_update then update coeff s u z true else s
  (s, applyJac s jv v var.opt false)

/-- The method `applyAdjointJacobian_1(jv, v, u, z, tol)`. -/
def applyAdjointJacobian_1 (manual_update : Bool) (coeff : Coefficient K D.spaceDim)
    (s : BVPConstraint D) (jv v u z : Vec D) : BVPConstraint D × Vec D :=
  let s := if manual_update then update coeff s u z true else s
  (s, applyJac s jv v var.sim true)

/-- The method `applyAdjointJacobian_2(jv, v, u, z, tol)`. -/
def applyAdjointJacobian_2 (manual_update : Bool) (coeff : Coefficient K D.spaceDim)
    (s : BVPConstraint D) (jv v u z : Vec D) : BVPConstraint D × Vec D :=
  let s := if manual_update then update coeff s u z true else s
  (s, applyJac s jv v var.opt true)

/-- The method `applyAdjointHessian_11(ahwv, w, v, u, z, tol)`. -/
def applyAdjointHessian_11 (manual_update : Bool) (coeff : Coefficient K D.spaceDim)
    (s : BVPConstraint D) (ahwv w v u z : Vec D) : BVPConstraint D × Vec D :=
  let s := if manual_update then update coeff s u z true else s
  (s, applyAdjointHessian coeff ahwv w v u z var.sim var.sim)

/-- The method `applyAdjointHessian_12(ahwv, w, v, u, z, tol)`. -/
def applyAdjointHessian_12 (manual_update : Bool) (coeff : Coefficient K D.spaceDim)
    (s : BVPConstraint D) (ahwv w v u z : Vec D) : BVPConstraint D × Vec D :=
  let s := if manual_update then update coeff s u z true else s
  (s, applyAdjointHessian coeff ahwv w v u z var.sim var.opt)

/-- The method `applyAdjointHessian_21(ahwv, w, v, u, z, tol)`. -/
def applyAdjointHessian_21 (manual_update : Bool) (coeff : Coefficient K D.spaceDim)
    (s : BVPConstraint D) (ahwv w v u z : Vec D) : BVPConstraint D × Vec D :=
  let s := if manual_update then update coeff s u z true else s
  (s, applyAdjointHessian coeff ahwv w v u z var.opt var.sim)

/-- The method `applyAdjointHessian_22(ahwv, w, v, u, z, tol)`. -/
def applyAdjointHessian_22 (manual_update : Bool) (coeff : Coefficient K D.spaceDim)
    (s : BVPConstraint D) (ahwv w v u z : Vec D) : BVPConstraint D × Vec D :=
  let s := if manual_update then update coeff s u z true else s
  (s, applyAdjointHessian coeff ahwv w v u z var.opt var.opt)

end BVPConstraint

namespace BVPConstraint

variable {K : Type} [Field K] [DecidableEq K] {D : Discretization K}

/-- The method `applyInverseJacobian_1(ijv, v, u, z, tol)`. A call that returns normally is
`Except.ok` with the constraint and the output vector after the call; `Except.error` stands for a
failure reported to the caller. The statuses returned by `factor()` and `solve()` are dropped, as
in the source, where both calls are expression statements. The constraint after the call holds
what the arrays behind its two handles hold then. -/
def applyInverseJacobian_1 (manual_update : Bool) (coeff : Coefficient K D.spaceDim)
    (s : BVPConstraint D) (ijv v u z : Vec D) : Except Int (BVPConstraint D × Vec D) :=
  let s := if manual_update then update coeff s u z true else s
  -- the arrays behind the members `Ju_` and `Jz_`, and the handles to them
  let heap : MatrixHeap D.nDoF K := [s.Ju_, s.Jz_]
  let Ju_ : Nat := 0
  let Jz_ : Nat := 1
  let solver : SerialDenseSolver D.nDoF K := SerialDenseSolver.new
  -- Must use a temporary matrix because LAPACK overwrites the original with factors.
  let a := heap.alloc (heap.read Ju_)
  let heap := a.1
  let Ju_temp := a.2
  let solver := solver.setMatrix Ju_temp
  let solver := solver.factorWithEquilibration true
  let f := solver.factor heap
  let solver := f.1
  let heap := f.2.1
  let rhs : Matrix (Fin D.nDoF) (Fin 1) K := 0
  let sol : Matrix (Fin D.nDoF) (Fin 1) K := 0
  let rhs := vec2mat rhs v -- Write the ROL vector into the rhs
  let solver := solver.setVectors sol rhs
  let solver := solver.solveWithTranspose true
  let r := solver.solve heap -- Solve the system
  let solver := r.1
  let heap := r.2.1
  let solver := solver.solveWithTranspose false
  let sol := solver.LHS_
  -- Write the solution into the ROL vector
  .ok ({ Ju_ := heap.read Ju_, Jz_ := heap.read Jz_ }, mat2vec ijv sol)

/-- The method `applyInverseAdjointJacobian_1(iajv, v, u, z, tol)`, with the same conventions as
`applyInverseJacobian_1`. -/
def applyInverseAdjointJacobian_1 (manual_update : Bool) (coeff : Coefficient K D.spaceDim)
    (s : BVPConstraint D) (iajv v u z : Vec D) : Except Int (BVPConstraint D × Vec D) :=
  let s := if manual_update then update coeff s u z true else s
  -- the arrays behind the members `Ju_` and `Jz_`, and the handles to them
  let heap : MatrixHeap D.nDoF K := [s.Ju_, s.Jz_]
  let Ju_ : Nat := 0
  let Jz_ : Nat := 1
  let solver : SerialDenseSolver D.nDoF K := SerialDenseSolver.new
  -- Must use a temporary matrix because LAPACK overwrites the original with factors.
  let a := heap.alloc (heap.read Ju_)
  let heap := a.1
  let Ju_temp := a.2
  let solver := solver.setMatrix Ju_temp
  let solver := solver.factorWithEquilibration true
  let f := solver.factor heap
  let solver := f.1
  let heap := f.2.1
  let rhs : Matrix (Fin D.nDoF) (Fin 1) K := 0
  let sol : Matrix (Fin D.nDoF) (Fin 1) K := 0
  let rhs := vec2mat rhs v -- Write the ROL vector into the rhs
  let solver := solver.setVectors sol rhs
  let solver := solver.solveWithTranspose true
  let r := solver.solve heap -- Solve the system
  let solver := r.1
  let heap := r.2.1
  let solver := solver.solveWithTranspose false
  let sol := solver.LHS_
  -- Write the solution into the ROL vector
  .ok ({ Ju_ := heap.read Ju_, Jz_ := heap.read Jz_ }, mat2vec iajv sol)

end BVPConstraint

/-! ### The vector abstraction behind `StdVector` -/

namespace StdVector

variable {K : Type} [CommRing K] {n : Nat}

/-- Modelled from the spec: `clone` of the vector abstraction (`ROL_StdVector.hpp` is not under
`src/`): a new vector of the same length, allocated as `std::vector<Real>(size)` and therefore
holding zeros. -/
def clone (_x : Fin n → K) : Fin n → K := fun _ => 0

/-- Modelled from the spec: assignment `y.set(x)` of the vector abstraction. -/
def set (_y x : Fin n → K) : Fin n → K := x

/-- Modelled from the spec: scaled accumulation `y.axpy(alpha, x)`, that is `y += alpha·x`. -/
def axpy (y : Fin n → K) (alpha : K) (x : Fin n → K) : Fin n → K := fun i => y i + alpha * x i

/-- Modelled from the spec: in-place scale `y.scale(alpha)`. -/
def scale (y : Fin n → K) (alpha : K) : Fin n → K := fun i => alpha * y i

/-- Modelled from the spec: zeroing `y.zero()`. -/
def zero (_y : Fin n → K) : Fin n → K := fun _ => 0

end StdVector

/-! ### The objective `TrackingObjective` -/

/-- The members of `class TrackingObjective` beside the discretization data: the regularization
weight `gamma_` and the target state `target_`. -/
structure TrackingObjective {K : Type} (D : Discretization K) where
  /-- The weight `gamma_` of the control term. -/
  gamma_ : K
  /-- The target state `target_`. -/
  target_ : Vec D

/-- The mass operator `M` in the words of the spec: "the (block-diagonal, per-cell) mass operator
applied through a scatter/apply routine that sums, for each dof, contributions from every cell
sharing it": entry `(i, j)` is the sum of `massMatrices(cell, rfield, cfield)` over the cells and
fields whose row dof is `i` and whose column dof is `j`. -/
def massOperator {K : Type} [CommRing K] (D : Discretization K) :
    Matrix (Fin D.nDoF) (Fin D.nDoF) K :=
  fun i j => ∑ cell, ∑ rfield, ∑ cfield,
    if D.dof cell rfield = i ∧ D.dof cell cfield = j then D.massMatrices cell rfield cfield
    else 0

namespace TrackingObjective

variable {K : Type} [CommRing K] {D : Discretization K}

/-- The private helper `applyMass(Mv, v)`: `(*Mvp)[i] += massMatrices(cell,rfield,cfield)*(*vp)[j]`
over all cells and field pairs; `Mv` is not zeroed. -/
def applyMass (_T : TrackingObjective D) (Mv v : Vec D) : Vec D :=
  forLoop D.numCells (fun cell Mv =>
    forLoop D.numFields (fun rfield Mv =>
      forLoop D.numFields (fun cfield Mv =>
        Function.update Mv (D.dof cell rfield)
          (Mv (D.dof cell rfield)
            + D.massMatrices cell rfield cfield * v (D.dof cell cfield))) Mv) Mv) Mv

/-- The method `gradient_1(g, u, z, tol)`. -/
def gradient_1 (T : TrackingObjective D) (g u _z : Vec D) : Vec D :=
  let err := StdVector.clone u
  let err := StdVector.set err u
  let err := StdVector.axpy err (-1) T.target_
  T.applyMass g err

/-- The method `gradient_2(g, u, z, tol)`. -/
def gradient_2 (T : TrackingObjective D) (g _u z : Vec D) : Vec D :=
  let y := StdVector.clone z
  let y := StdVector.set y z
  let g := T.applyMass g y
  StdVector.scale g T.gamma_

/-- The method `hessVec_11(hv, v, u, z, tol)`. -/
def hessVec_11 (T : TrackingObjective D) (hv v _u _z : Vec D) : Vec D :=
  let y := StdVector.clone v
  let y := StdVector.set y v
  T.applyMass hv y

/-- The method `hessVec_12(hv, v, u, z, tol)`. -/
def hessVec_12 (_T : TrackingObjective D) (hv _v _u _z : Vec D) : Vec D :=
  StdVector.zero hv

/-- The method `hessVec_21(hv, v, u, z, tol)`. -/
def hessVec_21 (_T : TrackingObjective D) (hv _v _u _z : Vec D) : Vec D :=
  StdVector.zero hv

/-- The method `hessVec_22(hv, v, u, z, tol)`. -/
def hessVec_22 (T : TrackingObjective D) (hv v _u _z : Vec D) : Vec D :=
  let y := StdVector.clone v
  let y := StdVector.set y v
  let hv := T.applyMass hv y
  StdVector.scale hv T.gamma_

end TrackingObjective

namespace TrackingObjective

variable {K : Type} [Field K] {D : Discretization K}

/-- The method `value(u, z, tol)`; the literal `0.5` is `1/2`. -/
def value (T : TrackingObjective D) (u z : Vec D) : K :=
  let err := StdVector.clone u
  let err := StdVector.set err u
  let err := StdVector.axpy err (-1) T.target_
  let Merr := StdVector.clone u
  let Merr := T.applyMass Merr err
  let y := StdVector.clone z
  let y := StdVector.set y z
  let My := StdVector.clone z
  let My := T.applyMass My y
  let J := (1 / 2) * (dot Merr err + T.gamma_ * dot My y)
  J

end TrackingObjective

/-! ### The step lifecycle of `ROL_Step.hpp` -/

/-- Modelled from the spec: the operations of the abstract `ROL::Vector` that `Step::initialize`
uses (`ROL_Vector.hpp` is not under `src/`): `clone` and `norm`. -/
structure VectorOps (K V : Type) where
  /-- The method `clone()`: a new vector of the same shape. -/
  clone : V → V
  /-- The method `norm()`. -/
  norm : V → K

/-- Modelled from the spec: the abstract `ROL::Objective` (`ROL_Objective.hpp` is not under
`src/`) with its state `σ` threaded through: `update(x, flag, iter)`, `gradient(g, x, tol)`
writing `g`, and `value(x, tol)`. -/
structure Objective (K V σ : Type) where
  /-- The method `update(x, flag, iter)`. -/
  update : σ → V → Bool → Int → σ
  /-- The method `gradient(g, x, tol)`; returns the objective and `g` after the call. -/
  gradient : σ → V → V → K → σ × V
  /-- The method `value(x, tol)`; returns the objective after the call and the value. -/
  value : σ → V → K → σ × K

/-- The struct `AlgorithmState`; a `Teuchos::RCP` that may be null is an `Option`. -/
structure AlgorithmState (K V : Type) where
  /-- Iteration counter. -/
  iter : Int
  /-- Number of function evaluations. -/
  nfval : Int
  /-- Number of gradient evaluations. -/
  ngrad : Int
  /-- Objective value. -/
  value : K
  /-- Gradient norm. -/
  gnorm : K
  /-- Step norm. -/
  snorm : K
  /-- The iterate. -/
  iterateVec : Option V

/-- The struct `StepState`. -/
structure StepState (V : Type) where
  /-- The gradient. -/
  gradientVec : Option V
  /-- The descent direction. -/
  descentVec : Option V

namespace Step

variable {K V σ : Type} [CommRing K]

/-- The constructor `Step()`: `state_` is a fresh `StepState` with null vectors. -/
def new : StepState V := { gradientVec := none, descentVec := none }

/-- The method `Step::initialize(x, obj, algo_state)` (spelt `initialise` here, the source's
name being a reserved word). The tolerance `std::sqrt(ROL_EPSILON)` is the parameter `tol`
(`ROL_EPSILON` is not under `src/`). Returns the step state, the objective and the algorithm
state after the call. -/
def initialise (vec : VectorOps K V) (obj : Objective K V σ) (tol : K) (state_ : StepState V)
    (x : V) (o : σ) (algo_state : AlgorithmState K V) :
    StepState V × σ × AlgorithmState K V :=
  let state_ := { state_ with descentVec := some (vec.clone x) }
  let gradientVec := vec.clone x
  let o := obj.update o x true algo_state.iter
  let og := obj.gradient o gradientVec x tol
  let o := og.1
  let gradientVec := og.2
  let state_ := { state_ with gradientVec := some gradientVec }
  let algo_state := { algo_state with ngrad := 1 }
  let algo_state := { algo_state with gnorm := vec.norm gradientVec }
  let algo_state := { algo_state with snorm := 10 ^ 10 }
  let ov := obj.value o x tol
  let o := ov.1
  let algo_state := { algo_state with value := ov.2 }
  let algo_state := { algo_state with nfval := 1 }
  (state_, o, algo_state)

end Step

/-! ### The calls an objective receives -/

/-- A call received by an objective: `update(x, flag, iter)`, `gradient(g, x, tol)` or
`value(x, tol)`, with the iterate it was given. -/
inductive ObjectiveCall (V : Type) : Type where
  /-- A call `update(x, flag, iter)`. -/
  | update (x : V) (flag : Bool) (iter : Int) : ObjectiveCall V
  /-- A call `gradient(g, x, tol)`. -/
  | gradient (x : V) : ObjectiveCall V
  /-- A call `value(x, tol)`. -/
  | value (x : V) : ObjectiveCall V
  deriving DecidableEq

/-- The objective `obj` together with the list of the calls made to it, in order (a recording
wrapper: the calls are passed to `obj` unchanged). -/
def Objective.logged {K V σ : Type} (obj : Objective K V σ) :
    Objective K V (σ × List (ObjectiveCall V)) where
  update := fun st x flag iter =>
    (obj.update st.1 x flag iter, st.2 ++ [ObjectiveCall.update x flag iter])
  gradient := fun st g x tol =>
    (((obj.gradient st.1 g x tol).1, st.2 ++ [ObjectiveCall.gradient x]),
      (obj.gradient st.1 g x tol).2)
  value := fun st x tol =>
    (((obj.value st.1 x tol).1, st.2 ++ [ObjectiveCall.value x]), (obj.value st.1 x tol).2)

/-! ### Vectors of arbitrary length -/

/-- What a call working on `std::vector` storage of arbitrary length can do: return, report an
error to the caller, or index a vector past its end (undefined behaviour in C++). -/
inductive Outcome (α : Type) : Type where
  /-- The call returns normally. -/
  | returned (a : α) : Outcome α
  /-- The call reports an error to the caller. -/
  | reported (what : String) : Outcome α
  /-- The call accesses an element past the end of a vector. -/
  | undefined : Outcome α
  deriving DecidableEq

/-- Sequencing: the next statement runs only after a normal return. -/
def Outcome.bind {α β : Type} (x : Outcome α) (f : α → Outcome β) : Outcome β :=
  match x with
  | Outcome.returned a => f a
  | Outcome.reported what => Outcome.reported what
  | Outcome.undefined => Outcome.undefined

/-- The unchecked read `(*vp)[i]` of a `std::vector<Real>`. -/
def readAt {K : Type} (v : List K) (i : Nat) : Outcome K :=
  match v[i]? with
  | some x => Outcome.returned x
  | none => Outcome.undefined

/-- The unchecked write `(*vp)[i] = x` of a `std::vector<Real>`. -/
def writeAt {K : Type} (v : List K) (i : Nat) (x : K) : Outcome (List K) :=
  if i < v.length then Outcome.returned (v.set i x) else Outcome.undefined

namespace BVPConstraint

variable {K : Type} [CommRing K] {D : Discretization K}

/-- The helper `vec2mat(m, v)` on a vector of arbitrary length: `(*m)(i,0) = (*vp)[i]` for
`i < nDoF_`, with no check of the length of `v`. -/
def vec2matRaw (m : Matrix (Fin D.nDoF) (Fin 1) K) (v : List K) :
    Outcome (Matrix (Fin D.nDoF) (Fin 1) K) :=
  forLoop D.nDoF (fun i st =>
    st.bind fun m => (readAt v i.val).bind fun x =>
      Outcome.returned (Function.update m i (Function.update (m i) 0 x))) (Outcome.returned m)

/-- The helper `mat2vec(v, m)` on a vector of arbitrary length: `(*vp)[i] = (*m)(i,0)` for
`i < nDoF_`, with no check of the length of `v`. -/
def mat2vecRaw (v : List K) (m : Matrix (Fin D.nDoF) (Fin 1) K) : Outcome (List K) :=
  forLoop D.nDoF (fun i st => st.bind fun v => writeAt v i.val (m i 0)) (Outcome.returned v)

/-- The helper `gather(fc, v)` on a vector of arbitrary length: `fc(cell,field) = (*vp)[i]` with
`i = cell*(numFields_-1) + field`, with no check of the length of `v`. -/
def gatherRaw {S : Type} [CommRing S] [Algebra K S] (fc : FC D S) (v : List K) :
    Outcome (FC D S) :=
  forLoop D.numCells (fun cell st =>
    forLoop D.numFields (fun field st =>
      st.bind fun fc => (readAt v (D.dof cell field).val).bind fun x =>
        Outcome.returned
          (Function.update fc cell (Function.update (fc cell) field (algebraMap K S x)))) st)
    (Outcome.returned fc)

/-- The helper `applyJac(jv, v, comp, transpose)` on vectors of arbitrary length: `std::fill`
zeroes the whole of `jv`, and the double loop over `row, col < nDoF_` indexes `jv` and `v`
without a check of their lengths. -/
def applyJacRaw (s : BVPConstraint D) (jv v : List K) (comp : var) (transpose : Bool := false) :
    Outcome (List K) :=
  let J := if comp = var.sim then s.Ju_ else s.Jz_
  -- std::fill(jvp->begin(), jvp->end(), 0.0)
  let jv : List K := List.replicate jv.length 0
  forLoop D.nDoF (fun row st =>
    forLoop D.nDoF (fun col st =>
      st.bind fun jv => (readAt jv row.val).bind fun a => (readAt v col.val).bind fun b =>
        if transpose then writeAt jv row.val (a + J col row * b)
        else writeAt jv row.val (a + J row col * b)) st) (Outcome.returned jv)

/-- The method `update(u, z, flag, iter)` on vectors of arbitrary length: `u` and `z` are read
through `gather` and directly, at the indices `cell*(numFields_-1) + field`, with no check of
their lengths. -/
def updateRaw (coeff : Coefficient K D.spaceDim) (_s : BVPConstraint D) (u z : List K)
    (_flag : Bool) (_iter : Int) : Outcome (BVPConstraint D) :=
  (gatherRaw (fun _ _ => (0 : DFad K D.numFields)) z).bind fun z_fc1 =>
  (gatherRaw (fun _ _ => (0 : DFad K D.numFields)) u).bind fun u_fc2 =>
  -- Fill in field containers from vectors (gather)
  (forLoop D.numCells (fun cell st =>
    forLoop D.numFields (fun field st =>
      st.bind fun fc =>
        (readAt u (D.dof cell field).val).bind fun a =>
        (readAt z (D.dof cell field).val).bind fun b =>
          Outcome.returned
            (Function.update fc.1 cell
                (Function.update (fc.1 cell) field (DFad.indep D.numFields field a)),
              Function.update fc.2 cell
                (Function.update (fc.2 cell) field (DFad.indep D.numFields field b)))) st)
    (Outcome.returned ((fun _ _ => 0, fun _ _ => 0) :
      FC D (DFad K D.numFields) × FC D (DFad K D.numFields)))).bind fun fc =>
  let u_fc1 := fc.1
  let z_fc2 := fc.2
  let c_fc1 := evaluate_res coeff (fun _ _ => 0) u_fc1 z_fc1
  let c_fc2 := evaluate_res coeff (fun _ _ => 0) u_fc2 z_fc2
  -- Ju_->putScalar(0.0); Jz_->putScalar(0.0): zero out the matrices
  let s : BVPConstraint D := { Ju_ := fun _ _ => 0, Jz_ := fun _ _ => 0 }
  Outcome.returned
    (forLoop D.numCells (fun cell s =>
      forLoop D.numFields (fun rfield s =>
        forLoop D.numFields (fun cfield s =>
          { Ju_ := addEntry s.Ju_ (D.dof cell rfield) (D.dof cell cfield)
                     (DFad.dx (c_fc1 cell rfield) cfield),
            Jz_ := addEntry s.Jz_ (D.dof cell rfield) (D.dof cell cfield)
                     (DFad.dx (c_fc2 cell rfield) cfield) }) s) s) s)

/-- The method `value(c, u, z, tol)` on vectors of arbitrary length: `std::fill` zeroes the whole
of `c`, `u` and `z` are gathered, and the scatter loop does `(*cp)[i] += c_fc(cell,field)` at
`i = cell*(numFields_-1) + field`, with no check of the length of `c`. -/
def valueRaw (manual_update : Bool) (coeff : Coefficient K D.spaceDim) (s : BVPConstraint D)
    (c u z : List K) : Outcome (BVPConstraint D × List K) :=
  (if manual_update then updateRaw coeff s u z true (-1) else Outcome.returned s).bind fun s =>
  -- std::fill(cp->begin(), cp->end(), 0.0)
  let c : List K := List.replicate c.length 0
  (gatherRaw (fun _ _ => (0 : K)) u).bind fun u_fc =>
  (gatherRaw (fun _ _ => (0 : K)) z).bind fun z_fc =>
  let c_fc := evaluate_res coeff (fun _ _ => 0) u_fc z_fc
  -- Scatter residual back into ROL vector
  (forLoop D.numCells (fun cell st =>
    forLoop D.numFields (fun field st =>
      st.bind fun c => (readAt c (D.dof cell field).val).bind fun a =>
        writeAt c (D.dof cell field).val (a + c_fc cell field)) st)
    (Outcome.returned c)).bind fun c =>
  Outcome.returned (s, c)

/-- The method `applyJacobian_1(jv, v, u, z, tol)` on vectors of arbitrary length. -/
def applyJacobian_1Raw (manual_update : Bool) (coeff : Coefficient K D.spaceDim)
    (s : BVPConstraint D) (jv v u z : List K) : Outcome (BVPConstraint D × List K) :=
  (if manual_update then updateRaw coeff s u z true (-1) else Outcome.returned s).bind fun s =>
  (applyJacRaw s jv v var.sim false).bind fun jv => Outcome.returned (s, jv)

/-- The method `applyJacobian_2(jv, v, u, z, tol)` on vectors of arbitrary length. -/
def applyJacobian_2Raw (manual_update : Bool) (coeff : Coefficient K D.spaceDim)
    (s : BVPConstraint D) (jv v u z : List K) : Outcome (BVPConstraint D × List K) :=
  (if manual_update then updateRaw coeff s u z true (-1) else Outcome.returned s).bind fun s =>
  (applyJacRaw s jv v var.opt false).bind fun jv => Outcome.returned (s, jv)

/-- The method `applyAdjointJacobian_1(jv, v, u, z, tol)` on vectors of arbitrary length. -/
def applyAdjointJacobian_1Raw (manual_update : Bool) (coeff : Coefficient K D.spaceDim)
    (s : BVPConstraint D) (jv v u z : List K) : Outcome (BVPConstraint D × List K) :=
  (if manual_update then updateRaw coeff s u z true (-1) else Outcome.returned s).bind fun s =>
  (applyJacRaw s jv v var.sim true).bind fun jv => Outcome.returned (s, jv)

/-- The method `applyAdjointJacobian_2(jv, v, u, z, tol)` on vectors of arbitrary length. -/
def applyAdjointJacobian_2Raw (manual_update : Bool) (coeff : Coefficient K D.spaceDim)
    (s : BVPConstraint D) (jv v u z : List K) : Outcome (BVPConstraint D × List K) :=
  (if manual_update then updateRaw coeff s u z true (-1) else Outcome.returned s).bind fun s =>
  (applyJacRaw s jv v var.opt true).bind fun jv => Outcome.returned (s, jv)

/-- The private helper `applyAdjointHessian(ahwv, w, v, u, z, one, two)` on vectors of arbitrary
length: `std::fill` zeroes the whole of `ahwv`; `u`, `v`, `z`, `w` are read and `ahwv` is
updated at the indices `cell*(numFields_-1) + field`, with no check of their lengths. -/
def applyAdjointHessianRaw (coeff : Coefficient K D.spaceDim) (ahwv w v u z : List K)
    (one two : var) : Outcome (List K) :=
  -- std::fill(ahwvp->begin(), ahwvp->end(), 0.0)
  let ahwv : List K := List.replicate ahwv.length 0
  let fc0 : FC D (DSFad K D.numFields) × FC D (DSFad K D.numFields) :=
    (fun _ _ => 0, fun _ _ => 0)
  let fc : Outcome (FC D (DSFad K D.numFields) × FC D (DSFad K D.numFields)) :=
    match one, two with
    | var.sim, var.sim => -- H11 block
      forLoop D.numCells (fun cell st =>
        forLoop D.numFields (fun field st =>
          st.bind fun fc =>
            (readAt u (D.dof cell field).val).bind fun ui =>
            (readAt v (D.dof cell field).val).bind fun vi =>
            (readAt z (D.dof cell field).val).bind fun zi =>
              Outcome.returned
                (Function.update fc.1 cell (Function.update (fc.1 cell) field
                    (DFad.indep D.numFields field (SFad.withDx ui vi))),
                  Function.update fc.2 cell (Function.update (fc.2 cell) field
                    (algebraMap K (DSFad K D.numFields) zi)))) st) (Outcome.returned fc0)
    | var.sim, var.opt => -- H12 block
      forLoop D.numCells (fun cell st =>
        forLoop D.numFields (fun field st =>
          st.bind fun fc =>
            (readAt u (D.dof cell field).val).bind fun ui =>
            (readAt v (D.dof cell field).val).bind fun vi =>
            (readAt z (D.dof cell field).val).bind fun zi =>
              Outcome.returned
                (Function.update fc.1 cell (Function.update (fc.1 cell) field
                    (TrivSqZeroExt.inl (SFad.withDx ui vi))),
                  Function.update fc.2 cell (Function.update (fc.2 cell) field
                    (DFad.indep D.numFields field (algebraMap K (SFad K) zi))))) st)
        (Outcome.returned fc0)
    | var.opt, var.sim => -- H21 block
      forLoop D.numCells (fun cell st =>
        forLoop D.numFields (fun field st =>
          st.bind fun fc =>
            (readAt z (D.dof cell field).val).bind fun zi =>
            (readAt v (D.dof cell field).val).bind fun vi =>
            (readAt u (D.dof cell field).val).bind fun ui =>
              Outcome.returned
                (Function.update fc.1 cell (Function.update (fc.1 cell) field
                    (DFad.indep D.numFields field (algebraMap K (SFad K) ui))),
                  Function.update fc.2 cell (Function.update (fc.2 cell) field
                    (TrivSqZeroExt.inl (SFad.withDx zi vi)))) ) st) (Outcome.returned fc0)
    | var.opt, var.opt => -- H22 block
      forLoop D.numCells (fun cell st =>
        forLoop D.numFields (fun field st =>
          st.bind fun fc =>
            (readAt z (D.dof cell field).val).bind fun zi =>
            (readAt v (D.dof cell field).val).bind fun vi =>
            (readAt u (D.dof cell field).val).bind fun ui =>
              Outcome.returned
                (Function.update fc.1 cell (Function.update (fc.1 cell) field
                    (algebraMap K (DSFad K D.numFields) ui)),
                  Function.update fc.2 cell (Function.update (fc.2 cell) field
                    (DFad.indep D.numFields field (SFad.withDx zi vi)))) ) st)
        (Outcome.returned fc0)
  fc.bind fun fc =>
  let u_fc := fc.1
  let z_fc := fc.2
  let c_fc := evaluate_res coeff (fun _ _ => 0) u_fc z_fc
  -- Compute the cellwise dot product of the constraint value and the Lagrange multiplier
  forLoop D.numCells (fun cell st =>
    st.bind fun ahwv =>
      (forLoop D.numFields (fun field st =>
        st.bind fun wdotc => (readAt w (D.dof cell field).val).bind fun wi =>
          Outcome.returned (wdotc + c_fc cell field * algebraMap K (DSFad K D.numFields) wi))
        (Outcome.returned
          (TrivSqZeroExt.inl (algebraMap K (SFad K) 0) : DSFad K D.numFields))).bind fun wdotc =>
      forLoop D.numFields (fun field st =>
        st.bind fun ahwv => (readAt ahwv (D.dof cell field).val).bind fun a =>
          writeAt ahwv (D.dof cell field).val (a + SFad.dx (DFad.dx wdotc field) 0))
        (Outcome.returned ahwv)) (Outcome.returned ahwv)

/-- The method `applyAdjointHessian_11(ahwv, w, v, u, z, tol)` on vectors of arbitrary length. -/
def applyAdjointHessian_11Raw (manual_update : Bool) (coeff : Coefficient K D.spaceDim)
    (s : BVPConstraint D) (ahwv w v u z : List K) : Outcome (BVPConstraint D × List K) :=
  (if manual_update then updateRaw coeff s u z true (-1) else Outcome.returned s).bind fun s =>
  (applyAdjointHessianRaw coeff ahwv w v u z var.sim var.sim).bind fun ahwv =>
    Outcome.returned (s, ahwv)

/-- The method `applyAdjointHessian_12(ahwv, w, v, u, z, tol)` on vectors of arbitrary length. -/
def applyAdjointHessian_12Raw (manual_update : Bool) (coeff : Coefficient K D.spaceDim)
    (s : BVPConstraint D) (ahwv w v u z : List K) : Outcome (BVPConstraint D × List K) :=
  (if manual_update then updateRaw coeff s u z true (-1) else Outcome.returned s).bind fun s =>
  (applyAdjointHessianRaw coeff ahwv w v u z var.sim var.opt).bind fun ahwv =>
    Outcome.returned (s, ahwv)

/-- The method `applyAdjointHessian_21(ahwv, w, v, u, z, tol)` on vectors of arbitrary length. -/
def applyAdjointHessian_21Raw (manual_update : Bool) (coeff : Coefficient K D.spaceDim)
    (s : BVPConstraint D) (ahwv w v u z : List K) : Outcome (BVPConstraint D × List K) :=
  (if manual_update then updateRaw coeff s u z true (-1) else Outcome.returned s).bind fun s =>
  (applyAdjointHessianRaw coeff ahwv w v u z var.opt var.sim).bind fun ahwv =>
    Outcome.returned (s, ahwv)

/-- The method `applyAdjointHessian_22(ahwv, w, v, u, z, tol)` on vectors of arbitrary length. -/
def applyAdjointHessian_22Raw (manual_update : Bool) (coeff : Coefficient K D.spaceDim)
    (s : BVPConstraint D) (ahwv w v u z : List K) : Outcome (BVPConstraint D × List K) :=
  (if manual_update then updateRaw coeff s u z true (-1) else Outcome.returned s).bind fun s =>
  (applyAdjointHessianRaw coeff ahwv w v u z var.opt var.opt).bind fun ahwv =>
    Outcome.returned (s, ahwv)

end BVPConstraint

namespace BVPConstraint

variable {K : Type} [Field K] [DecidableEq K] {D : Discretization K}

/-- The method `applyInverseJacobian_1(ijv, v, u, z, tol)` on vectors of arbitrary length: `v` is
read by `vec2mat` and `ijv` written by `mat2vec`, with no check of their lengths. -/
def applyInverseJacobian_1Raw (manual_update : Bool) (coeff : Coefficient K D.spaceDim)
    (s : BVPConstraint D) (ijv v u z : List K) : Outcome (BVPConstraint D × List K) :=
  (if manual_update then updateRaw coeff s u z true (-1) else Outcome.returned s).bind fun s =>
  -- the arrays behind the members `Ju_` and `Jz_`, and the handles to them
  let heap : MatrixHeap D.nDoF K := [s.Ju_, s.Jz_]
  let Ju_ : Nat := 0
  let Jz_ : Nat := 1
  let solver : SerialDenseSolver D.nDoF K := SerialDenseSolver.new
  -- Must use a temporary matrix because LAPACK overwrites the original with factors.
  let a := heap.alloc (heap.read Ju_)
  let heap := a.1
  let Ju_temp := a.2
  let solver := solver.setMatrix Ju_temp
  let solver := solver.factorWithEquilibration true
  let f := solver.factor heap
  let solver := f.1
  let heap := f.2.1
  let rhs : Matrix (Fin D.nDoF) (Fin 1) K := 0
  let sol : Matrix (Fin D.nDoF) (Fin 1) K := 0
  -- Write the ROL vector into the rhs
  (vec2matRaw rhs v).bind fun rhs =>
  let solver := solver.setVectors sol rhs
  let solver := solver.solveWithTranspose true
  let r := solver.solve heap -- Solve the system
  let solver := r.1
  let heap := r.2.1
  let solver := solver.solveWithTranspose false
  let sol := solver.LHS_
  -- Write the solution into the ROL vector
  (mat2vecRaw ijv sol).bind fun ijv =>
  Outcome.returned ({ Ju_ := heap.read Ju_, Jz_ := heap.read Jz_ }, ijv)

/-- The method `applyInverseAdjointJacobian_1(iajv, v, u, z, tol)` on vectors of arbitrary
length, as `applyInverseJacobian_1Raw`. -/
def applyInverseAdjointJacobian_1Raw (manual_update : Bool) (coeff : Coefficient K D.spaceDim)
    (s : BVPConstraint D) (iajv v u z : List K) : Outcome (BVPConstraint D × List K) :=
  (if manual_update then updateRaw coeff s u z true (-1) else Outcome.returned s).bind fun s =>
  -- the arrays behind the members `Ju_` and `Jz_`, and the handles to them
  let heap : MatrixHeap D.nDoF K := [s.Ju_, s.Jz_]
  let Ju_ : Nat := 0
  let Jz_ : Nat := 1
  let solver : SerialDenseSolver D.nDoF K := SerialDenseSolver.new
  -- Must use a temporary matrix because LAPACK overwrites the original with factors.
  let a := heap.alloc (heap.read Ju_)
  let heap := a.1
  let Ju_temp := a.2
  let solver := solver.setMatrix Ju_temp
  let solver := solver.factorWithEquilibration true
  let f := solver.factor heap
  let solver := f.1
  let heap := f.2.1
  let rhs : Matrix (Fin D.nDoF) (Fin 1) K := 0
  let sol : Matrix (Fin D.nDoF) (Fin 1) K := 0
  -- Write the ROL vector into the rhs
  (vec2matRaw rhs v).bind fun rhs =>
  let solver := solver.setVectors sol rhs
  let solver := solver.solveWithTranspose true
  let r := solver.solve heap -- Solve the system
  let solver := r.1
  let heap := r.2.1
  let solver := solver.solveWithTranspose false
  let sol := solver.LHS_
  -- Write the solution into the ROL vector
  (mat2vecRaw iajv sol).bind fun iajv =>
  Outcome.returned ({ Ju_ := heap.read Ju_, Jz_ := heap.read Jz_ }, iajv)

end BVPConstraint

/-! ### A concrete problem -/

/-- One linear element on `[0,1]` with the midpoint rule: two basis functions with value `1/2`
and slopes `-1`, `1` at the cubature point `1/2`, weight `1`. -/
def oneCellP1 : Discretization ℚ where
  numCells := 1
  numCubPts := 1
  numFields := 2
  spaceDim := 1
  physCubPts := fun _ _ _ => 1 / 2
  transformedVals := fun _ _ _ => 1 / 2
  transformedGrad := fun _ f _ _ => if f.val = 0 then -1 else 1
  weightedTransformedVals := fun _ _ _ => 1 / 2
  weightedTransformedGrad := fun _ f _ _ => if f.val = 0 then -1 else 1
  massMatrices := fun _ r c => if r.val = c.val then 1 / 3 else 1 / 6

/-- An advection-diffusion-reaction coefficient: diffusivity `1`, velocity `1`, reaction
`u² - z`. -/
def advDiffReact : Coefficient ℚ 1 where
  reaction := .sub (.mul .state .state) .control
  advection := fun _ => .const 1
  diffusion := .const 1

/-- The constraint on `oneCellP1` after `update` at `u = (1,1)`, `z = (0,0)`; its state block is
`[[1, 0], [-1, 2]]`. -/
def atOnes : BVPConstraint oneCellP1 :=
  BVPConstraint.update advDiffReact (BVPConstraint.new oneCellP1) ![1, 1] ![0, 0] true

/-- The constraint on `oneCellP1` after `update` at `u = (0,0)`, `z = (0,0)`; its state block
`[[1/2, -1/2], [-3/2, 3/2]]` is singular and has no zero row or column. -/
def atZeros : BVPConstraint oneCellP1 :=
  BVPConstraint.update advDiffReact (BVPConstraint.new oneCellP1) ![0, 0] ![0, 0] true

/-- The tracking objective on `oneCellP1` with target `(0,0)` and weight `γ`; the mass matrix
of the cell is `[[1/3, 1/6], [1/6, 1/3]]`. -/
def trackZero (γ : ℚ) : TrackingObjective oneCellP1 := { gamma_ := γ, target_ := ![0, 0] }

/-- A concrete objective on the rationals, `f(x) = x²`, without internal state: `gradient` writes
`2x` and `value` returns `x²`. -/
def squareObjective : Objective ℚ ℚ Unit where
  update := fun st _ _ _ => st
  gradient := fun st _ x _ => (st, 2 * x)
  value := fun st x _ => (st, x * x)

/-- The vector operations of the rationals as a one-dimensional vector space: `clone` gives `0`,
`norm` is the absolute value. -/
def ratVector : VectorOps ℚ ℚ where
  clone := fun _ => 0
  norm := fun x => |x|

/-- An algorithm state whose iteration counter is `5`. -/
def stateAtFive : AlgorithmState ℚ ℚ :=
  { iter := 5, nfval := 0, ngrad := 0, value := 0, gnorm := 0, snorm := 0, iterateVec := none }

/-! ## Theorems

### Loops -/

theorem foldl_proj_add {σ ι A : Type} [AddCommMonoid A] (l : List ι) (body : ι → σ → σ)
    (proj : σ → A) (h : ι → A) (hb : ∀ i s, proj (body i s) = proj s + h i) (init : σ) :
    proj (l.foldl (fun s i => body i s) init) = proj init + (l.map h).sum := by
  induction l generalizing init with
  | nil => simp
  | cons a l ih =>
    simp only [List.foldl_cons, List.map_cons, List.sum_cons]
    rw [ih, hb, add_assoc]

theorem forLoop_proj_add {σ A : Type} [AddCommMonoid A] (n : Nat) (body : Fin n → σ → σ)
    (proj : σ → A) (h : Fin n → A) (hb : ∀ i s, proj (body i s) = proj s + h i) (init : σ) :
    proj (forLoop n body init) = proj init + ∑ i, h i := by
  unfold forLoop
  rw [foldl_proj_add _ body proj h hb, Fin.sum_univ_def]

namespace BVPConstraint

variable {K : Type} [CommRing K] {D : Discretization K}

theorem applyJac_apply (s : BVPConstraint D) (jv v : Vec D) (comp : var) (transpose : Bool)
    (k : Fin D.nDoF) :
    applyJac s jv v comp transpose k
      = ∑ col, (if transpose then (if comp = var.sim then s.Ju_ else s.Jz_) col k
                else (if comp = var.sim then s.Ju_ else s.Jz_) k col) * v col := by
  unfold applyJac
  generalize (if comp = var.sim then s.Ju_ else s.Jz_) = J
  rw [forLoop_proj_add D.nDoF _ (fun jv : Vec D => jv k)
    (fun row => if k = row then ∑ col, (if transpose then J col row else J row col) * v col else 0)]
  · simp
  · intro row jv
    rw [forLoop_proj_add D.nDoF _ (fun jv : Vec D => jv k)
      (fun col => if k = row then (if transpose then J col row else J row col) * v col else 0)]
    · by_cases hk : k = row <;> simp [hk]
    · intro col jv
      by_cases hk : k = row <;> cases transpose <;> simp [hk, Function.update]

end BVPConstraint
end ROL

namespace ROL
namespace BVPConstraint

section ring
variable {K : Type} [CommRing K] {D : Discretization K}

/-- C6: for every cached `J_u`, `J_z` and every `v`, `applyJacobian_1` writes `J_u·v`,
`applyJacobian_2` writes `J_z·v`, `applyAdjointJacobian_1` writes `J_uᵀ·v` and
`applyAdjointJacobian_2` writes `J_zᵀ·v`, whatever the output vector `jv` held before. -/
theorem applyJacobian_eq_mulVec (coeff : Coefficient K D.spaceDim) (s : BVPConstraint D)
    (jv v u z : Vec D) :
    (applyJacobian_1 false coeff s jv v u z).2 = s.Ju_.mulVec v
    ∧ (applyJacobian_2 false coeff s jv v u z).2 = s.Jz_.mulVec v
    ∧ (applyAdjointJacobian_1 false coeff s jv v u z).2 = s.Ju_.transpose.mulVec v
    ∧ (applyAdjointJacobian_2 false coeff s jv v u z).2 = s.Jz_.transpose.mulVec v := by
  refine ⟨?_, ?_, ?_, ?_⟩ <;> funext k <;>
    simp [applyJacobian_1, applyJacobian_2, applyAdjointJacobian_1, applyAdjointJacobian_2,
      applyJac_apply, Matrix.mulVec, Matrix.dotProduct]

/-- C5: Jacobian/adjoint consistency: `⟨applyJacobian_1(v), w⟩ = ⟨v, applyAdjointJacobian_1(w)⟩`
and likewise for `applyJacobian_2` / `applyAdjointJacobian_2`, for every cached block and all
`v`, `w`. -/
theorem applyJacobian_dot_adjoint (coeff : Coefficient K D.spaceDim) (s : BVPConstraint D)
    (jv₁ jv₂ v w u z : Vec D) :
    dot (applyJacobian_1 false coeff s jv₁ v u z).2 w
        = dot v (applyAdjointJacobian_1 false coeff s jv₂ w u z).2
    ∧ dot (applyJacobian_2 false coeff s jv₁ v u z).2 w
        = dot v (applyAdjointJacobian_2 false coeff s jv₂ w u z).2 := by
  constructor <;>
  · simp only [dot, applyJacobian_1, applyJacobian_2, applyAdjointJacobian_1,
      applyAdjointJacobian_2, applyJac_apply, if_true, if_false, Bool.false_eq_true, reduceIte,
      Finset.sum_mul, Finset.mul_sum]
    rw [Finset.sum_comm]
    refine Finset.sum_congr rfl fun i _ => Finset.sum_congr rfl fun j _ => ?_
    ring

/-- C8: `update` zeroes both blocks before accumulating: the blocks after `update(u,z)` do not
depend on the previous blocks (nor on the flag and iteration arguments), and calling `update(u,z)`
twice in a row leaves the same blocks as calling it once. -/
theorem update_idempotent (coeff : Coefficient K D.spaceDim) (s s' : BVPConstraint D)
    (u z : Vec D) (flag flag' : Bool) (iter iter' : Int) :
    update coeff s u z flag iter = update coeff s' u z flag' iter'
    ∧ update coeff (update coeff s u z flag iter) u z flag iter = update coeff s u z flag iter :=
  ⟨rfl, rfl⟩

end ring
end BVPConstraint
end ROL

namespace ROL

theorem mul_inv_adjugate_mul {n : Nat} {K : Type} [Field K] (A : Matrix (Fin n) (Fin n) K)
    (B : Matrix (Fin n) (Fin 1) K) (h : A.det ≠ 0) :
    A * ((A.det)⁻¹ • (A.adjugate * B)) = B := by
  rw [Matrix.mul_smul, ← Matrix.mul_assoc, Matrix.mul_adjugate, Matrix.smul_mul,
    Matrix.one_mul, smul_smul, inv_mul_cancel₀ h, one_smul]

theorem mulVec_column {n : Nat} {K : Type} [CommRing K] (A : Matrix (Fin n) (Fin n) K)
    (X : Matrix (Fin n) (Fin 1) K) : A.mulVec (fun i => X i 0) = fun i => (A * X) i 0 := by
  funext i
  simp [Matrix.mulVec, Matrix.dotProduct, Matrix.mul_apply]

theorem det_ne_one_of_det_eq_zero {n : Nat} {K : Type} [Field K]
    (A : Matrix (Fin n) (Fin n) K) (h : A.det = 0) : ¬n = 0 := by
  intro h0
  have he : IsEmpty (Fin n) := by
    rw [h0]
    infer_instance
  rw [Matrix.det_isEmpty] at h
  exact one_ne_zero h

namespace SerialDenseSolver

variable {n : Nat} {K : Type} [Field K] [DecidableEq K]

theorem factor_overwrites (s : SerialDenseSolver n K) (heap : MatrixHeap n K) (r : Nat)
    (hr : r < heap.length) :
    ((s.setMatrix r).factor heap).2.1.read r
      = ((heap.read r).det)⁻¹ • (heap.read r).adjugate := by
  simp [factor, setMatrix, MatrixHeap.read, MatrixHeap.write, hr]

theorem factor_frame (s : SerialDenseSolver n K) (heap : MatrixHeap n K) (r q : Nat)
    (hq : q ≠ r) : ((s.setMatrix r).factor heap).2.1.read q = heap.read q := by
  simp [factor, setMatrix, MatrixHeap.read, MatrixHeap.write, List.getD_eq_getElem?_getD,
    List.getElem?_set_ne hq.symm]

end SerialDenseSolver

namespace BVPConstraint

section field
variable {K : Type} [Field K] [DecidableEq K] {D : Discretization K}

theorem applyInverseJacobian_1_of_det_ne_zero (coeff : Coefficient K D.spaceDim)
    (s : BVPConstraint D) (out v u z : Vec D) (h : s.Ju_.det ≠ 0) :
    applyInverseJacobian_1 false coeff s out v u z
      = Except.ok (s, fun i => ((s.Ju_.transpose.det)⁻¹ •
          (s.Ju_.transpose.adjugate * vec2mat 0 v)) i 0) := by
  have hadj : s.Ju_.adjugate.det ≠ 0 := by
    rw [Matrix.det_adjugate]
    exact pow_ne_zero _ h
  simp [applyInverseJacobian_1, SerialDenseSolver.solve, SerialDenseSolver.setVectors,
    SerialDenseSolver.solveWithTranspose, SerialDenseSolver.factor,
    SerialDenseSolver.factorWithEquilibration, SerialDenseSolver.setMatrix,
    SerialDenseSolver.new, MatrixHeap.alloc, MatrixHeap.read, MatrixHeap.write, h, hadj]
  funext i
  simp [mat2vec, Matrix.adjugate_transpose]

theorem applyInverseJacobian_1_of_det_eq_zero (coeff : Coefficient K D.spaceDim)
    (s : BVPConstraint D) (out v u z : Vec D) (h : s.Ju_.det = 0) :
    applyInverseJacobian_1 false coeff s out v u z = Except.ok (s, fun _ => 0) := by
  have hn : ¬D.nDoF = 0 := det_ne_one_of_det_eq_zero s.Ju_ h
  have h0 : (0 : Matrix (Fin D.nDoF) (Fin D.nDoF) K).det = 0 :=
    Matrix.det_zero ⟨⟨0, Nat.pos_of_ne_zero hn⟩⟩
  simp [applyInverseJacobian_1, SerialDenseSolver.solve, SerialDenseSolver.setVectors,
    SerialDenseSolver.solveWithTranspose, SerialDenseSolver.factor,
    SerialDenseSolver.factorWithEquilibration, SerialDenseSolver.setMatrix,
    SerialDenseSolver.new, MatrixHeap.alloc, MatrixHeap.read, MatrixHeap.write, h, hn, h0]
  funext i
  simp [mat2vec]

theorem applyInverseJacobian_1_state (coeff : Coefficient K D.spaceDim)
    (s : BVPConstraint D) (out v u z : Vec D) :
    ∃ x, applyInverseJacobian_1 false coeff s out v u z = Except.ok (s, x) := by
  by_cases h : s.Ju_.det = 0
  · exact ⟨_, applyInverseJacobian_1_of_det_eq_zero coeff s out v u z h⟩
  · exact ⟨_, applyInverseJacobian_1_of_det_ne_zero coeff s out v u z h⟩

/-- C2: with a nonsingular cached block `J_u`, `applyInverseAdjointJacobian_1` returns the
solution `x` of the transposed system `J_uᵀ·x = v`, and `applyAdjointJacobian_1` applied to it
gives back `v`. -/
theorem applyInverseAdjointJacobian_1_solves (coeff : Coefficient K D.spaceDim)
    (s : BVPConstraint D) (iajv jv v u z : Vec D) (h : s.Ju_.det ≠ 0) :
    ∃ x : Vec D, applyInverseAdjointJacobian_1 false coeff s iajv v u z = Except.ok (s, x)
      ∧ s.Ju_.transpose.mulVec x = v
      ∧ (applyAdjointJacobian_1 false coeff s jv x u z).2 = v := by
  have h' : s.Ju_.transpose.det ≠ 0 := by rwa [Matrix.det_transpose]
  have hx : s.Ju_.transpose.mulVec (fun i => ((s.Ju_.transpose.det)⁻¹ •
      (s.Ju_.transpose.adjugate * vec2mat 0 v)) i 0) = v := by
    rw [mulVec_column, mul_inv_adjugate_mul _ _ h']
    rfl
  refine ⟨_, ?_, hx, ?_⟩
  · exact applyInverseJacobian_1_of_det_ne_zero coeff s iajv v u z h
  · rw [(applyJacobian_eq_mulVec coeff s jv _ u z).2.2.1]
    exact hx

end field
end BVPConstraint
end ROL

namespace ROL
namespace BVPConstraint

section field
variable {K : Type} [Field K] [DecidableEq K] {D : Discretization K}

/-- Witness of C2 on the one-cell problem. -/
theorem applyInverseAdjointJacobian_1_solves_witness :
    atOnes.Ju_.det ≠ 0 ∧
    ∃ x : Vec oneCellP1,
      applyInverseAdjointJacobian_1 false advDiffReact atOnes ![0, 0] ![1, 0] ![1, 1] ![0, 0]
        = Except.ok (atOnes, x)
      ∧ atOnes.Ju_.transpose.mulVec x = ![1, 0]
      ∧ (applyAdjointJacobian_1 false advDiffReact atOnes ![0, 0] x ![1, 1] ![0, 0]).2 = ![1, 0] :=
  ⟨by with_unfolding_all decide,
    @applyInverseAdjointJacobian_1_solves ℚ _ _ oneCellP1 advDiffReact atOnes ![0, 0] ![0, 0]
      ![1, 0] ![1, 1] ![0, 0] (by with_unfolding_all decide)⟩

/-- C1, the code at the failing input: on the one-cell problem, with the nonsingular block
`J_u = [[1, 0], [-1, 2]]` assembled by `update` and `v = (1, 0)`, `applyInverseJacobian_1` returns
`x = (1, 0)`, the solution of the transposed system `J_uᵀ·x = v`; `applyJacobian_1` applied to it
gives `(1, -1)`, not `v`. -/
theorem applyInverseJacobian_1_transposed_at_atOnes :
    atOnes.Ju_ = !![1, 0; -1, 2] ∧ atOnes.Ju_.det ≠ 0
    ∧ applyInverseJacobian_1 false advDiffReact atOnes ![0, 0] ![1, 0] ![1, 1] ![0, 0]
        = Except.ok (atOnes, ![1, 0])
    ∧ (applyJacobian_1 false advDiffReact atOnes ![0, 0] ![1, 0] ![1, 1] ![0, 0]).2 = ![1, -1]
    ∧ (![1, -1] : Vec oneCellP1) ≠ ![1, 0] := by
  have h : atOnes.Ju_.det ≠ 0 := by with_unfolding_all decide
  refine ⟨by with_unfolding_all decide, h, ?_, by with_unfolding_all decide,
    by with_unfolding_all decide⟩
  rw [@applyInverseJacobian_1_of_det_ne_zero ℚ _ _ oneCellP1 advDiffReact atOnes ![0, 0]
    ![1, 0] ![1, 1] ![0, 0] h]
  have e : (fun i => (((atOnes.Ju_.transpose.det)⁻¹ •
      (atOnes.Ju_.transpose.adjugate * vec2mat 0 (show Vec oneCellP1 from ![1, 0])) :
        Matrix (Fin oneCellP1.nDoF) (Fin 1) ℚ)) i 0)
      = (show Vec oneCellP1 from ![1, 0]) := by with_unfolding_all decide
  rw [e]

/-- C3: `applyInverseJacobian_1` and `applyInverseAdjointJacobian_1` return with the cached
blocks `J_u` and `J_z` equal to the blocks before the call (shipped configuration, first two
parts); in either configuration the constraint after the call is the one the factorization
started from. The factorization runs on a copy: of the arrays `[J_u, J_z, copy of J_u]` of the
call, `factor()` on the handle of the copy overwrites the copy with the factored form and leaves
the arrays of `J_u` and `J_z` as they were (last part). -/
theorem applyInverse_blocks_unchanged (coeff : Coefficient K D.spaceDim) (s : BVPConstraint D)
    (out v u z : Vec D) :
    (∃ s' x, applyInverseJacobian_1 false coeff s out v u z = Except.ok (s', x)
        ∧ s'.Ju_ = s.Ju_ ∧ s'.Jz_ = s.Jz_)
    ∧ (∃ s' x, applyInverseAdjointJacobian_1 false coeff s out v u z = Except.ok (s', x)
        ∧ s'.Ju_ = s.Ju_ ∧ s'.Jz_ = s.Jz_)
    ∧ (∀ m : Bool, ∃ x, applyInverseJacobian_1 m coeff s out v u z
        = Except.ok (if m then update coeff s u z true else s, x))
    ∧ (∀ m : Bool, ∃ x, applyInverseAdjointJacobian_1 m coeff s out v u z
        = Except.ok (if m then update coeff s u z true else s, x))
    ∧ ((((SerialDenseSolver.new : SerialDenseSolver D.nDoF K).setMatrix 2).factor
          [s.Ju_, s.Jz_, s.Ju_]).2.1
        = [s.Ju_, s.Jz_, (s.Ju_.det)⁻¹ • s.Ju_.adjugate]) := by
  obtain ⟨x, hx⟩ := applyInverseJacobian_1_state coeff s out v u z
  obtain ⟨y, hy⟩ := applyInverseJacobian_1_state coeff (update coeff s u z true) out v u z
  refine ⟨⟨s, x, hx, rfl, rfl⟩, ⟨s, x, hx, rfl, rfl⟩, ?_, ?_, ?_⟩
  · intro m
    cases m
    · exact ⟨x, hx⟩
    · exact ⟨y, hy⟩
  · intro m
    cases m
    · exact ⟨x, hx⟩
    · exact ⟨y, hy⟩
  · simp [SerialDenseSolver.factor, SerialDenseSolver.setMatrix, SerialDenseSolver.new,
      MatrixHeap.read, MatrixHeap.write]

/-- C4 as stated fails: on the one-cell problem `update` at `u = (0,0)` assembles the singular
block `J_u = [[1/2, -1/2], [-3/2, 3/2]]`, and neither solve reports a failure. -/
theorem singular_block_not_reported :
    atZeros.Ju_ = !![1 / 2, -1 / 2; -3 / 2, 3 / 2] ∧ atZeros.Ju_.det = 0
    ∧ (∀ e : Int,
        applyInverseJacobian_1 false advDiffReact atZeros ![0, 0] ![1, 0] ![0, 0] ![0, 0]
          ≠ Except.error e)
    ∧ (∀ e : Int,
        applyInverseAdjointJacobian_1 false advDiffReact atZeros ![0, 0] ![1, 0] ![0, 0] ![0, 0]
          ≠ Except.error e) := by
  refine ⟨by with_unfolding_all decide, by with_unfolding_all decide, ?_, ?_⟩ <;>
    intro e h <;> cases h

/-- C4 as amended: when the cached block `J_u` is singular the solver, working on the copy of
`J_u` (the array behind handle `2` of the arrays `[J_u, J_z, copy of J_u]` of the call), returns
a nonzero status from `factor()` and from `solve()`, and both inverse operations drop it: each
call returns normally with an output vector, the cached blocks unchanged. -/
theorem singular_block_status_dropped (coeff : Coefficient K D.spaceDim) (s : BVPConstraint D)
    (out v u z : Vec D) (h : s.Ju_.det = 0) :
    (((SerialDenseSolver.new : SerialDenseSolver D.nDoF K).setMatrix 2).factor
        [s.Ju_, s.Jz_, s.Ju_]).2.2 ≠ 0
    ∧ ((((((SerialDenseSolver.new : SerialDenseSolver D.nDoF K).setMatrix 2).factor
          [s.Ju_, s.Jz_, s.Ju_]).1.setVectors 0 (vec2mat 0 v)).solveWithTranspose true).solve
          (((SerialDenseSolver.new : SerialDenseSolver D.nDoF K).setMatrix 2).factor
            [s.Ju_, s.Jz_, s.Ju_]).2.1).2.2 ≠ 0
    ∧ (∃ x, applyInverseJacobian_1 false coeff s out v u z = Except.ok (s, x))
    ∧ (∃ x, applyInverseAdjointJacobian_1 false coeff s out v u z = Except.ok (s, x)) := by
  have hn : ¬D.nDoF = 0 := det_ne_one_of_det_eq_zero s.Ju_ h
  have h0 : (0 : Matrix (Fin D.nDoF) (Fin D.nDoF) K).det = 0 :=
    Matrix.det_zero ⟨⟨0, Nat.pos_of_ne_zero hn⟩⟩
  refine ⟨?_, ?_, ⟨_, applyInverseJacobian_1_of_det_eq_zero coeff s out v u z h⟩,
    ⟨_, applyInverseJacobian_1_of_det_eq_zero coeff s out v u z h⟩⟩
  · simp [SerialDenseSolver.factor, SerialDenseSolver.setMatrix, SerialDenseSolver.new,
      MatrixHeap.read, h]
  · simp [SerialDenseSolver.solve, SerialDenseSolver.factor, SerialDenseSolver.setMatrix,
      SerialDenseSolver.setVectors, SerialDenseSolver.solveWithTranspose, SerialDenseSolver.new,
      MatrixHeap.read, MatrixHeap.write, h, hn, h0]

/-- Witness of the amended C4 on the singular block assembled at `u = (0,0)`. -/
theorem singular_block_status_dropped_witness :
    atZeros.Ju_.det = 0
    ∧ (∃ x, applyInverseJacobian_1 false advDiffReact atZeros ![0, 0] ![1, 0] ![0, 0] ![0, 0]
          = Except.ok (atZeros, x)) :=
  ⟨by with_unfolding_all decide,
    (@singular_block_status_dropped ℚ _ _ oneCellP1 advDiffReact atZeros
      ![0, 0] ![1, 0] ![0, 0] ![0, 0] (by with_unfolding_all decide)).2.2.1⟩

/-- On the one-cell problem, `factor()` called on the handle of an array holding
`J_u = [[1, 0], [-1, 2]]` leaves other numbers in that array. -/
theorem factor_changes_array_at_atOnes :
    (((SerialDenseSolver.new : SerialDenseSolver oneCellP1.nDoF ℚ).setMatrix 0).factor
        [atOnes.Ju_]).2.1.read 0 ≠ atOnes.Ju_ := by
  with_unfolding_all decide

end field
end BVPConstraint
end ROL

namespace ROL

section naturality
variable {K : Type} [CommRing K] {S T : Type} [CommRing S] [Algebra K S] [CommRing T] [Algebra K T]

theorem CoefExpr.eval_map {sd : Nat} (φ : S →+* T)
    (hφ : ∀ a, φ (algebraMap K S a) = algebraMap K T a) (x : Fin sd → K) (u z : S)
    (e : CoefExpr K sd) : e.eval x (φ u) (φ z) = φ (e.eval x u z) := by
  induction e with
  | const a => simp [CoefExpr.eval, hφ]
  | coord d => simp [CoefExpr.eval, hφ]
  | state => simp [CoefExpr.eval]
  | control => simp [CoefExpr.eval]
  | add e₁ e₂ ih₁ ih₂ => simp [CoefExpr.eval, ih₁, ih₂]
  | sub e₁ e₂ ih₁ ih₂ => simp [CoefExpr.eval, ih₁, ih₂]
  | mul e₁ e₂ ih₁ ih₂ => simp [CoefExpr.eval, ih₁, ih₂]

theorem BVPConstraint.evaluate_res_map {D : Discretization K} (coeff : Coefficient K D.spaceDim)
    (φ : S →+* T) (hφ : ∀ a, φ (algebraMap K S a) = algebraMap K T a)
    (c u z : FC D S) (c' u' z' : FC D T) (cell : Fin D.numCells)
    (hu : ∀ f, u' cell f = φ (u cell f)) (hz : ∀ f, z' cell f = φ (z cell f))
    (f : Fin D.numFields) :
    BVPConstraint.evaluate_res coeff c' u' z' cell f
      = φ (BVPConstraint.evaluate_res coeff c u z cell f) := by
  simp only [BVPConstraint.evaluate_res, FST.integrate, FST.integrateGrad, FST.evaluate,
    FST.evaluateGrad, FST.scalarMultiplyDataData, FST.dotMultiplyDataData, map_add, map_sum,
    map_mul, hu, hz, hφ, ← CoefExpr.eval_map φ hφ, if_true, map_zero, Bool.false_eq_true,
    if_false]

end naturality
end ROL

namespace ROL
open TrivSqZeroExt

theorem addEntry_apply {K : Type} [CommRing K] {n : Nat} (J : Matrix (Fin n) (Fin n) K)
    (row col : Fin n) (x : K) (i j : Fin n) :
    addEntry J row col x i j = J i j + if row = i ∧ col = j then x else 0 := by
  unfold addEntry
  by_cases hi : i = row
  · subst hi
    by_cases hj : j = col
    · subst hj
      simp
    · have hj' : ¬ col = j := fun h => hj h.symm
      simp [Function.update_noteq hj, hj']
  · have hi' : ¬ row = i := fun h => hi h.symm
    simp [Function.update_noteq hi, hi']

theorem forLoop2_proj_add {σ A : Type} [AddCommMonoid A] (n₁ n₂ : Nat)
    (body : Fin n₁ → Fin n₂ → σ → σ) (proj : σ → A) (h : Fin n₁ → Fin n₂ → A)
    (hb : ∀ a b s, proj (body a b s) = proj s + h a b) (init : σ) :
    proj (forLoop n₁ (fun a s => forLoop n₂ (fun b s => body a b s) s) init)
      = proj init + ∑ a, ∑ b, h a b :=
  forLoop_proj_add n₁ _ proj (fun a => ∑ b, h a b)
    (fun a s => forLoop_proj_add n₂ _ proj (fun b => h a b) (fun b s => hb a b s) s) init

theorem forLoop3_proj_add {σ A : Type} [AddCommMonoid A] (n₁ n₂ n₃ : Nat)
    (body : Fin n₁ → Fin n₂ → Fin n₃ → σ → σ) (proj : σ → A) (h : Fin n₁ → Fin n₂ → Fin n₃ → A)
    (hb : ∀ a b c s, proj (body a b c s) = proj s + h a b c) (init : σ) :
    proj (forLoop n₁ (fun a s => forLoop n₂ (fun b s => forLoop n₃ (fun c s => body a b c s) s) s)
        init)
      = proj init + ∑ a, ∑ b, ∑ c, h a b c :=
  forLoop_proj_add n₁ _ proj (fun a => ∑ b, ∑ c, h a b c)
    (fun a s => forLoop2_proj_add n₂ n₃ _ proj (fun b c => h a b c) (fun b c s => hb a b c s) s)
    init

namespace BVPConstraint

variable {K : Type} [CommRing K] {D : Discretization K}

theorem update_Ju_apply (coeff : Coefficient K D.spaceDim) (s : BVPConstraint D) (u z : Vec D)
    (flag : Bool) (iter : Int) (i j : Fin D.nDoF) :
    (update coeff s u z flag iter).Ju_ i j
      = ∑ cell, ∑ rfield, ∑ cfield,
          if D.dof cell rfield = i ∧ D.dof cell cfield = j then
            DFad.dx (evaluate_res coeff (fun _ _ => 0)
              (fun c f => DFad.indep D.numFields f (u (D.dof c f)))
              (gather (fun _ _ => 0) z) cell rfield) cfield
          else 0 := by
  unfold update
  rw [forLoop3_proj_add _ _ _ _ (fun s : BVPConstraint D => s.Ju_ i j)
    (fun cell rfield cfield => if D.dof cell rfield = i ∧ D.dof cell cfield = j then
        DFad.dx (evaluate_res coeff (fun _ _ => 0)
          (fun c f => DFad.indep D.numFields f (u (D.dof c f)))
          (gather (fun _ _ => 0) z) cell rfield) cfield
      else 0)]
  · simp
  · intro cell rfield cfield s
    simp only [addEntry_apply]

theorem update_Jz_apply (coeff : Coefficient K D.spaceDim) (s : BVPConstraint D) (u z : Vec D)
    (flag : Bool) (iter : Int) (i j : Fin D.nDoF) :
    (update coeff s u z flag iter).Jz_ i j
      = ∑ cell, ∑ rfield, ∑ cfield,
          if D.dof cell rfield = i ∧ D.dof cell cfield = j then
            DFad.dx (evaluate_res coeff (fun _ _ => 0)
              (gather (fun _ _ => 0) u)
              (fun c f => DFad.indep D.numFields f (z (D.dof c f))) cell rfield) cfield
          else 0 := by
  unfold update
  rw [forLoop3_proj_add _ _ _ _ (fun s : BVPConstraint D => s.Jz_ i j)
    (fun cell rfield cfield => if D.dof cell rfield = i ∧ D.dof cell cfield = j then
        DFad.dx (evaluate_res coeff (fun _ _ => 0)
          (gather (fun _ _ => 0) u)
          (fun c f => DFad.indep D.numFields f (z (D.dof c f))) cell rfield) cfield
      else 0)]
  · simp
  · intro cell rfield cfield s
    simp only [addEntry_apply]

theorem scatter_apply (g : Fin D.numCells → Fin D.numFields → K) (init : Vec D)
    (i : Fin D.nDoF) :
    forLoop D.numCells (fun cell c =>
        forLoop D.numFields (fun field (c : Vec D) =>
          Function.update c (D.dof cell field) (c (D.dof cell field) + g cell field)) c) init i
      = init i + ∑ cell, ∑ field, if D.dof cell field = i then g cell field else 0 := by
  rw [forLoop2_proj_add _ _ _ (fun c : Vec D => c i)
    (fun cell field => if D.dof cell field = i then g cell field else 0)]
  intro cell field c
  by_cases h : D.dof cell field = i
  · subst h
    simp
  · have h' : i ≠ D.dof cell field := fun e => h e.symm
    simp [Function.update_noteq h', h]

theorem value_apply (coeff : Coefficient K D.spaceDim) (s : BVPConstraint D) (c u z : Vec D)
    (i : Fin D.nDoF) :
    (value false coeff s c u z).2 i
      = ∑ cell, ∑ field,
          if D.dof cell field = i then
            evaluate_res coeff (fun _ _ => 0) (gather (fun _ _ => 0) u)
              (gather (fun _ _ => 0) z) cell field
          else 0 := by
  unfold value
  simp only [scatter_apply, zero_add]

end BVPConstraint
end ROL

namespace ROL
open TrivSqZeroExt Polynomial

section homLemmas
variable {R R' : Type} [CommRing R] [CommRing R']

theorem DFad.dx_mapHom (φ : R →+* R') (n : Nat) (a : DFad R n) (i : Fin n) :
    DFad.dx (DFad.mapHom φ n a) i = φ (DFad.dx a i) := by
  simp [DFad.mapHom, DFad.dx]

theorem DFad.mapHom_indep (φ : R →+* R') (n : Nat) (i : Fin n) (x : R) :
    DFad.mapHom φ n (DFad.indep n i x) = DFad.indep n i (φ x) := by
  ext j
  · simp [DFad.mapHom, DFad.indep]
  · by_cases h : j = i
    · subst h
      simp [DFad.mapHom, DFad.indep]
    · simp [DFad.mapHom, DFad.indep, Pi.single_eq_of_ne h]

theorem DFad.mapHom_inl (φ : R →+* R') (n : Nat) (x : R) :
    DFad.mapHom φ n (inl x) = inl (φ x) := by
  ext j
  · simp [DFad.mapHom]
  · simp [DFad.mapHom]

theorem DFad.snd_contract {n : Nat} (g : Fin n → R) (a : DFad R n) :
    snd (DFad.contract g a) = ∑ f, g f * DFad.dx a f := by
  simp [DFad.contract, DFad.dx, TrivSqZeroExt.snd_map, LinearMap.sum_apply]

theorem DFad.contract_indep {n : Nat} (g : Fin n → R) (i : Fin n) (x : R) :
    DFad.contract g (DFad.indep n i x) = SFad.withDx x (g i) := by
  ext
  · simp [DFad.contract, DFad.indep, SFad.withDx, TrivSqZeroExt.fst_map]
  · simp [DFad.contract, DFad.indep, SFad.withDx, TrivSqZeroExt.snd_map, LinearMap.sum_apply,
      Pi.single_apply]

theorem DFad.contract_inl {n : Nat} (g : Fin n → R) (x : R) :
    DFad.contract g (inl x : DFad R n) = inl x := by
  simp [DFad.contract]

theorem taylor_fst (a : R) (p : R[X]) :
    fst (eval₂RingHom (inlHom R R) (SFad.withDx a 1) p) = eval a p := by
  have h : (fstHom R R R : SFad R →+* R).comp (eval₂RingHom (inlHom R R) (SFad.withDx a 1))
      = evalRingHom a := by
    apply Polynomial.ringHom_ext
    · intro x; simp
    · simp [SFad.withDx]
  have := congrArg (fun f : R[X] →+* R => f p) h
  simpa using this

theorem taylor_snd (a : R) (p : R[X]) :
    snd (eval₂RingHom (inlHom R R) (SFad.withDx a 1) p) = eval a (derivative p) := by
  rw [coe_eval₂RingHom, eval₂_eq_eval_map, SFad.withDx,
    eval_add_of_sq_eq_zero _ _ _ (by simp [pow_two])]
  have e : ∀ q : R[X], eval₂ (inlHom R R) (inl a) q = inl (eval a q) := fun q =>
    Polynomial.eval₂_hom (inlHom R R) a
  simp [derivative_map, eval_map, e]

end homLemmas
end ROL

namespace ROL
open TrivSqZeroExt Polynomial

namespace BVPConstraint

theorem evaluate_res_hasDerivAt {D : Discretization ℝ} (coeff : Coefficient ℝ D.spaceDim)
    (UX ZX : FC D ℝ[X]) (a : ℝ) (cell : Fin D.numCells) (rf : Fin D.numFields)
    (Ut Zt : ℝ → FC D ℝ) (U1 Z1 : FC D (DFad ℝ D.numFields)) (g : Fin D.numFields → ℝ)
    (hUt : ∀ t f, Ut t cell f = eval t (UX cell f))
    (hZt : ∀ t f, Zt t cell f = eval t (ZX cell f))
    (hU1 : ∀ f, DFad.contract g (U1 cell f)
      = eval₂RingHom (inlHom ℝ ℝ) (SFad.withDx a 1) (UX cell f))
    (hZ1 : ∀ f, DFad.contract g (Z1 cell f)
      = eval₂RingHom (inlHom ℝ ℝ) (SFad.withDx a 1) (ZX cell f)) :
    HasDerivAt (fun t => evaluate_res coeff (fun _ _ => 0) (Ut t) (Zt t) cell rf)
      (∑ f, g f * DFad.dx (evaluate_res coeff (fun _ _ => 0) U1 Z1 cell rf) f) a := by
  have h1 : (fun t => evaluate_res coeff (fun _ _ => 0) (Ut t) (Zt t) cell rf)
      = fun t => eval t (evaluate_res coeff (fun _ _ => 0) UX ZX cell rf) := by
    funext t
    exact evaluate_res_map coeff (evalRingHom t) (fun x => by simp [Polynomial.algebraMap_apply])
      _ UX ZX _ (Ut t) (Zt t) cell (hUt t) (hZt t) rf
  have h2 := evaluate_res_map coeff (eval₂RingHom (inlHom ℝ ℝ) (SFad.withDx a 1))
    (fun x => by simp [Polynomial.algebraMap_apply, TrivSqZeroExt.algebraMap_eq_inl])
    (fun _ _ => 0) UX ZX (fun _ _ => 0)
    (fun c f => eval₂RingHom (inlHom ℝ ℝ) (SFad.withDx a 1) (UX c f))
    (fun c f => eval₂RingHom (inlHom ℝ ℝ) (SFad.withDx a 1) (ZX c f)) cell
    (fun _ => rfl) (fun _ => rfl) rf
  have h3 := evaluate_res_map coeff (DFad.contract g)
    (fun x => by
      rw [TrivSqZeroExt.algebraMap_eq_inl, TrivSqZeroExt.algebraMap_eq_inl, DFad.contract_inl])
    (fun _ _ => 0) U1 Z1 (fun _ _ => 0)
    (fun c f => eval₂RingHom (inlHom ℝ ℝ) (SFad.withDx a 1) (UX c f))
    (fun c f => eval₂RingHom (inlHom ℝ ℝ) (SFad.withDx a 1) (ZX c f)) cell
    (fun f => (hU1 f).symm) (fun f => (hZ1 f).symm) rf
  rw [h1, ← DFad.snd_contract, ← h3, h2, taylor_snd]
  exact Polynomial.hasDerivAt _ a

end BVPConstraint
end ROL

namespace ROL
open TrivSqZeroExt Polynomial

namespace BVPConstraint

/-- C7: after `update(u,z)` the entry `J_u[i][j]` is the partial derivative with respect to `u_j`
of component `i` of the constraint `value(u,z)`, and `J_z[i][j]` the partial derivative with
respect to `z_j`, for all dof indices `i`, `j` (shared dofs included: both sides sum the
contributions of all cells). Real scalars; the coefficients are arithmetic expressions. -/
theorem update_assembles_jacobian (D : Discretization ℝ) (coeff : Coefficient ℝ D.spaceDim)
    (s s' : BVPConstraint D) (c u z : Vec D) (flag : Bool) (iter : Int) (i j : Fin D.nDoF) :
    HasDerivAt (fun t : ℝ => (value false coeff s' c (Function.update u j t) z).2 i)
        ((update coeff s u z flag iter).Ju_ i j) (u j)
    ∧ HasDerivAt (fun t : ℝ => (value false coeff s' c u (Function.update z j t)).2 i)
        ((update coeff s u z flag iter).Jz_ i j) (z j) := by
  constructor
  · have key : ∀ cell rf, HasDerivAt
        (fun t : ℝ => if D.dof cell rf = i then
            evaluate_res coeff (fun _ _ => 0) (gather (fun _ _ => 0) (Function.update u j t))
              (gather (fun _ _ => 0) z) cell rf
          else 0)
        (∑ cf, if D.dof cell rf = i ∧ D.dof cell cf = j then
            DFad.dx (evaluate_res coeff (fun _ _ => 0)
              (fun c f => DFad.indep D.numFields f (u (D.dof c f)))
              (gather (fun _ _ => 0) z) cell rf) cf
          else 0) (u j) := by
      intro cell rf
      by_cases h : D.dof cell rf = i
      · simp only [h, if_true, true_and]
        have := evaluate_res_hasDerivAt coeff
          (fun c f => if D.dof c f = j then X else C (u (D.dof c f)))
          (fun c f => C (z (D.dof c f))) (u j) cell rf
          (fun t => gather (fun _ _ => 0) (Function.update u j t))
          (fun _ => gather (fun _ _ => 0) z)
          (fun c f => DFad.indep D.numFields f (u (D.dof c f)))
          (gather (fun _ _ => 0) z) (fun f => if D.dof cell f = j then 1 else 0)
          (fun t f => by
            by_cases hj : D.dof cell f = j <;> simp [gather, hj, Function.update_apply])
          (fun t f => by simp [gather])
          (fun f => by
            rw [DFad.contract_indep]
            by_cases hj : D.dof cell f = j
            · simp [hj]
            · simp [hj, SFad.withDx])
          (fun f => by
            simp [gather, TrivSqZeroExt.algebraMap_eq_inl, DFad.contract_inl])
        simpa [ite_mul] using this
      · simp only [h, if_false, false_and, Finset.sum_const_zero]
        exact hasDerivAt_const _ _
    have hfun : (fun t : ℝ => (value false coeff s' c (Function.update u j t) z).2 i)
        = fun t => ∑ cell, ∑ rf, if D.dof cell rf = i then
            evaluate_res coeff (fun _ _ => 0) (gather (fun _ _ => 0) (Function.update u j t))
              (gather (fun _ _ => 0) z) cell rf
          else 0 := funext fun t => value_apply coeff s' c _ z i
    rw [hfun, update_Ju_apply]
    exact HasDerivAt.sum fun cell _ => HasDerivAt.sum fun rf _ => key cell rf
  · have key : ∀ cell rf, HasDerivAt
        (fun t : ℝ => if D.dof cell rf = i then
            evaluate_res coeff (fun _ _ => 0) (gather (fun _ _ => 0) u)
              (gather (fun _ _ => 0) (Function.update z j t)) cell rf
          else 0)
        (∑ cf, if D.dof cell rf = i ∧ D.dof cell cf = j then
            DFad.dx (evaluate_res coeff (fun _ _ => 0) (gather (fun _ _ => 0) u)
              (fun c f => DFad.indep D.numFields f (z (D.dof c f))) cell rf) cf
          else 0) (z j) := by
      intro cell rf
      by_cases h : D.dof cell rf = i
      · simp only [h, if_true, true_and]
        have := evaluate_res_hasDerivAt coeff
          (fun c f => C (u (D.dof c f)))
          (fun c f => if D.dof c f = j then X else C (z (D.dof c f))) (z j) cell rf
          (fun _ => gather (fun _ _ => 0) u)
          (fun t => gather (fun _ _ => 0) (Function.update z j t))
          (gather (fun _ _ => 0) u)
          (fun c f => DFad.indep D.numFields f (z (D.dof c f)))
          (fun f => if D.dof cell f = j then 1 else 0)
          (fun t f => by simp [gather])
          (fun t f => by
            by_cases hj : D.dof cell f = j <;> simp [gather, hj, Function.update_apply])
          (fun f => by
            simp [gather, TrivSqZeroExt.algebraMap_eq_inl, DFad.contract_inl])
          (fun f => by
            rw [DFad.contract_indep]
            by_cases hj : D.dof cell f = j
            · simp [hj]
            · simp [hj, SFad.withDx])
        simpa [ite_mul] using this
      · simp only [h, if_false, false_and, Finset.sum_const_zero]
        exact hasDerivAt_const _ _
    have hfun : (fun t : ℝ => (value false coeff s' c u (Function.update z j t)).2 i)
        = fun t => ∑ cell, ∑ rf, if D.dof cell rf = i then
            evaluate_res coeff (fun _ _ => 0) (gather (fun _ _ => 0) u)
              (gather (fun _ _ => 0) (Function.update z j t)) cell rf
          else 0 := funext fun t => value_apply coeff s' c u _ i
    rw [hfun, update_Jz_apply]
    exact HasDerivAt.sum fun cell _ => HasDerivAt.sum fun rf _ => key cell rf

end BVPConstraint
end ROL

namespace ROL
open TrivSqZeroExt Polynomial

namespace BVPConstraint
variable {K : Type} [CommRing K] {D : Discretization K}

theorem wdotc_dx {n m : Nat} (c : Fin m → DSFad K n) (w : Fin m → K) (f : Fin n) :
    SFad.dx (DFad.dx (forLoop m (fun field (wdotc : DSFad K n) =>
        wdotc + c field * algebraMap K (DSFad K n) (w field))
        (inl (algebraMap K (SFad K) 0))) f) 0
      = ∑ rf, SFad.dx (DFad.dx (c rf) f) 0 * w rf := by
  rw [forLoop_proj_add m _ (fun x : DSFad K n => SFad.dx (DFad.dx x f) 0)
    (fun rf => SFad.dx (DFad.dx (c rf) f) 0 * w rf)]
  · simp [SFad.dx, DFad.dx]
  · intro rf x
    simp [SFad.dx, DFad.dx, TrivSqZeroExt.algebraMap_eq_inl']
    ring

theorem applyAdjointHessian_apply (coeff : Coefficient K D.spaceDim) (ahwv w v u z : Vec D)
    (one two : var) (k : Fin D.nDoF) :
    applyAdjointHessian coeff ahwv w v u z one two k
      = ∑ cell, ∑ field, if D.dof cell field = k then
          ∑ rf, SFad.dx (DFad.dx (evaluate_res coeff (fun _ _ => 0)
            (fun c f => DFad.tagged D.numFields (decide (two = var.sim)) f
              (SFad.withDx (u (D.dof c f)) (if one = var.sim then v (D.dof c f) else 0)))
            (fun c f => DFad.tagged D.numFields (decide (two = var.opt)) f
              (SFad.withDx (z (D.dof c f)) (if one = var.opt then v (D.dof c f) else 0)))
            cell rf) field) 0 * w (D.dof cell rf)
        else 0 := by
  unfold applyAdjointHessian
  simp only [scatter_apply, zero_add, wdotc_dx]
  cases one <;> cases two <;>
    simp [DFad.tagged, SFad.withDx, TrivSqZeroExt.algebraMap_eq_inl']

end BVPConstraint
end ROL

namespace ROL
open TrivSqZeroExt Polynomial

theorem SFad.snd_snd_swap {R : Type} [CommRing R] (a : SFad (SFad R)) :
    snd (snd (SFad.swap a)) = snd (snd a) := by
  simp [SFad.swap]

theorem SFad.swap_withDx_inl {R : Type} [CommRing R] (x d : R) :
    SFad.swap (SFad.withDx (SFad.withDx x 0) (inl d)) = inl (SFad.withDx x d) := by
  ext <;> simp [SFad.swap, SFad.withDx]

theorem SFad.swap_inl_withDx {R : Type} [CommRing R] (x d : R) :
    SFad.swap (inl (SFad.withDx x d)) = SFad.withDx (SFad.withDx x 0) (inl d) := by
  ext <;> simp [SFad.swap, SFad.withDx]

theorem DFad.contract_algebraMap {K : Type} [CommRing K] {n : Nat} (g : Fin n → SFad K) (x : K) :
    DFad.contract g (algebraMap K (DSFad K n) x) = algebraMap K (SFad (SFad K)) x :=
  DFad.contract_inl g (inl x)

theorem SFad.swap_algebraMap {K : Type} [CommRing K] (x : K) :
    SFad.swap (algebraMap K (SFad (SFad K)) x) = algebraMap K (SFad (SFad K)) x := by
  show SFad.swap (inl (inl x)) = inl (inl x)
  ext <;> simp [SFad.swap]

namespace BVPConstraint
variable {K : Type} [CommRing K] {D : Discretization K}

theorem hessian_mixed_cell (coeff : Coefficient K D.spaceDim) (v u z : Vec D) (i : Fin D.nDoF)
    (cell : Fin D.numCells) (rf : Fin D.numFields) :
    ∑ field, (if D.dof cell field = i then
        SFad.dx (DFad.dx (evaluate_res coeff (fun _ _ => 0)
          (fun c f => DFad.tagged D.numFields false f
            (SFad.withDx (u (D.dof c f)) (v (D.dof c f))))
          (fun c f => DFad.tagged D.numFields true f (SFad.withDx (z (D.dof c f)) 0))
          cell rf) field) 0 else 0)
      = ∑ field, SFad.dx (DFad.dx (evaluate_res coeff (fun _ _ => 0)
          (fun c f => DFad.tagged D.numFields true f (SFad.withDx (u (D.dof c f)) 0))
          (fun c f => DFad.tagged D.numFields false f
            (SFad.withDx (z (D.dof c f)) ((Pi.single i 1 : Vec D) (D.dof c f))))
          cell rf) field) 0 * v (D.dof cell field) := by
  -- the residual over the doubly dual numbers, state along `ε₁`, control along `ε₂`
  have h12 := evaluate_res_map coeff
    (DFad.contract (fun f => (inl (if D.dof cell f = i then 1 else 0) : SFad K)))
    (fun x => by exact DFad.contract_algebraMap _ x)
    (fun _ _ => 0)
    (fun c f => DFad.tagged D.numFields false f (SFad.withDx (u (D.dof c f)) (v (D.dof c f))))
    (fun c f => DFad.tagged D.numFields true f (SFad.withDx (z (D.dof c f)) 0))
    (fun _ _ => 0)
    (fun c f => inl (SFad.withDx (u (D.dof c f)) (v (D.dof c f))))
    (fun c f => SFad.withDx (SFad.withDx (z (D.dof c f)) 0)
      (inl ((Pi.single i 1 : Vec D) (D.dof c f))))
    cell
    (fun f => by simp [DFad.tagged, DFad.contract_inl])
    (fun f => by simp [DFad.tagged, DFad.contract_indep, Pi.single_apply])
    rf
  have h21 := evaluate_res_map coeff
    (DFad.contract (fun f => (inl (v (D.dof cell f)) : SFad K)))
    (fun x => by exact DFad.contract_algebraMap _ x)
    (fun _ _ => 0)
    (fun c f => DFad.tagged D.numFields true f (SFad.withDx (u (D.dof c f)) 0))
    (fun c f => DFad.tagged D.numFields false f
      (SFad.withDx (z (D.dof c f)) ((Pi.single i 1 : Vec D) (D.dof c f))))
    (fun _ _ => 0)
    (fun c f => SFad.withDx (SFad.withDx (u (D.dof c f)) 0) (inl (v (D.dof c f))))
    (fun c f => inl (SFad.withDx (z (D.dof c f)) ((Pi.single i 1 : Vec D) (D.dof c f))))
    cell
    (fun f => by simp [DFad.tagged, DFad.contract_indep])
    (fun f => by simp [DFad.tagged, DFad.contract_inl])
    rf
  have hsw := evaluate_res_map coeff (SFad.swap : SFad (SFad K) →+* SFad (SFad K))
    (fun x => by exact SFad.swap_algebraMap x)
    (fun _ _ => 0)
    (fun c f => SFad.withDx (SFad.withDx (u (D.dof c f)) 0) (inl (v (D.dof c f))))
    (fun c f => inl (SFad.withDx (z (D.dof c f)) ((Pi.single i 1 : Vec D) (D.dof c f))))
    (fun _ _ => 0)
    (fun c f => inl (SFad.withDx (u (D.dof c f)) (v (D.dof c f))))
    (fun c f => SFad.withDx (SFad.withDx (z (D.dof c f)) 0)
      (inl ((Pi.single i 1 : Vec D) (D.dof c f))))
    cell
    (fun f => (SFad.swap_withDx_inl _ _).symm)
    (fun f => (SFad.swap_inl_withDx _ _).symm)
    rf
  have e := congrArg (fun x : SFad (SFad K) => snd (snd x)) (h12.symm.trans (hsw.trans
    (congrArg SFad.swap h21)))
  simp only [SFad.snd_snd_swap, DFad.snd_contract, TrivSqZeroExt.snd_sum] at e
  simpa [SFad.dx, ite_mul, mul_comm] using e

end BVPConstraint
end ROL

namespace ROL
open TrivSqZeroExt Polynomial

namespace BVPConstraint
variable {K : Type} [CommRing K] {D : Discretization K}

theorem dot_scatter (G : Fin D.numCells → Fin D.numFields → K) (y : Vec D) :
    dot (fun k => ∑ cell, ∑ field, if D.dof cell field = k then G cell field else 0) y
      = ∑ cell, ∑ field, G cell field * y (D.dof cell field) := by
  unfold dot
  simp only [Finset.sum_mul]
  rw [Finset.sum_comm]
  refine Finset.sum_congr rfl fun cell _ => ?_
  rw [Finset.sum_comm]
  refine Finset.sum_congr rfl fun field _ => ?_
  simp [ite_mul]

theorem sum_mul_comm {n m : Nat} (A : Fin m → Fin n → K) (x : Fin m → K) (y : Fin n → K) :
    ∑ field, (∑ rf, A rf field * x rf) * y field = ∑ rf, (∑ field, A rf field * y field) * x rf := by
  simp only [Finset.sum_mul]
  rw [Finset.sum_comm]
  refine Finset.sum_congr rfl fun rf _ => Finset.sum_congr rfl fun field _ => ?_
  ring

/-- C10: mixed-partial symmetry: for all `w`, `v`, `u`, `z` and every unit basis vector `e_i`,
`⟨applyAdjointHessian_12(w,v,u,z), e_i⟩ = ⟨applyAdjointHessian_21(w,e_i,u,z), v⟩`, whatever the
output vectors held before. -/
theorem applyAdjointHessian_mixed_symmetry (coeff : Coefficient K D.spaceDim)
    (s₁ s₂ : BVPConstraint D) (out₁ out₂ w v u z : Vec D) (i : Fin D.nDoF) :
    dot (applyAdjointHessian_12 false coeff s₁ out₁ w v u z).2 (Pi.single i 1)
      = dot (applyAdjointHessian_21 false coeff s₂ out₂ w (Pi.single i 1) u z).2 v := by
  have h12 : (applyAdjointHessian_12 false coeff s₁ out₁ w v u z).2
      = fun k => ∑ cell, ∑ field, if D.dof cell field = k then
          ∑ rf, SFad.dx (DFad.dx (evaluate_res coeff (fun _ _ => 0)
            (fun c f => DFad.tagged D.numFields false f
              (SFad.withDx (u (D.dof c f)) (v (D.dof c f))))
            (fun c f => DFad.tagged D.numFields true f (SFad.withDx (z (D.dof c f)) 0))
            cell rf) field) 0 * w (D.dof cell rf)
        else 0 := by
    funext k
    simp [applyAdjointHessian_12, applyAdjointHessian_apply]
  have h21 : (applyAdjointHessian_21 false coeff s₂ out₂ w (Pi.single i 1) u z).2
      = fun k => ∑ cell, ∑ field, if D.dof cell field = k then
          ∑ rf, SFad.dx (DFad.dx (evaluate_res coeff (fun _ _ => 0)
            (fun c f => DFad.tagged D.numFields true f (SFad.withDx (u (D.dof c f)) 0))
            (fun c f => DFad.tagged D.numFields false f
              (SFad.withDx (z (D.dof c f)) ((Pi.single i 1 : Vec D) (D.dof c f))))
            cell rf) field) 0 * w (D.dof cell rf)
        else 0 := by
    funext k
    simp [applyAdjointHessian_21, applyAdjointHessian_apply]
  rw [h12, h21, dot_scatter, dot_scatter]
  refine Finset.sum_congr rfl fun cell _ => ?_
  refine (sum_mul_comm _ _ _).trans (Eq.trans ?_ (sum_mul_comm _ _ _).symm)
  refine Finset.sum_congr rfl fun rf _ => ?_
  rw [← hessian_mixed_cell coeff v u z i cell rf]
  congr 1
  refine Finset.sum_congr rfl fun field _ => ?_
  by_cases h : D.dof cell field = i <;> simp [h, Pi.single_apply]

end BVPConstraint
end ROL

namespace ROL
open TrivSqZeroExt Polynomial

theorem DFad.mapHom_tagged {R R' : Type} [CommRing R] [CommRing R'] (φ : R →+* R') (n : Nat)
    (b : Bool) (i : Fin n) (x : R) :
    DFad.mapHom φ n (DFad.tagged n b i x) = DFad.tagged n b i (φ x) := by
  cases b
  · simp [DFad.tagged, DFad.mapHom_inl]
  · simp [DFad.tagged, DFad.mapHom_indep]

theorem DFad.mapHom_algebraMap {R' : Type} [CommRing R'] [Algebra ℝ R'] (φ : ℝ[X] →+* R')
    (hφ : ∀ a, φ (C a) = algebraMap ℝ R' a) (n : Nat) (a : ℝ) :
    DFad.mapHom φ n (algebraMap ℝ (DFad ℝ[X] n) a) = algebraMap ℝ (DFad R' n) a := by
  rw [TrivSqZeroExt.algebraMap_eq_inl', TrivSqZeroExt.algebraMap_eq_inl', DFad.mapHom_inl]
  simp [Polynomial.algebraMap_apply, hφ]

namespace BVPConstraint

theorem evaluate_res_mapHom {D : Discretization ℝ} (coeff : Coefficient ℝ D.spaceDim)
    {R' : Type} [CommRing R'] [Algebra ℝ R'] (φ : ℝ[X] →+* R')
    (hφ : ∀ a, φ (C a) = algebraMap ℝ R' a) (bU bZ : Bool) (UX ZX : FC D ℝ[X])
    (cell : Fin D.numCells) (rf : Fin D.numFields) :
    evaluate_res coeff (fun _ _ => 0)
        (fun c f => DFad.tagged D.numFields bU f (φ (UX c f)))
        (fun c f => DFad.tagged D.numFields bZ f (φ (ZX c f))) cell rf
      = DFad.mapHom φ D.numFields (evaluate_res coeff (fun _ _ => 0)
          (fun c f => DFad.tagged D.numFields bU f (UX c f))
          (fun c f => DFad.tagged D.numFields bZ f (ZX c f)) cell rf) :=
  evaluate_res_map coeff (DFad.mapHom φ D.numFields)
    (fun x => by exact DFad.mapHom_algebraMap φ hφ _ x)
    _ _ _ _ _ _ cell
    (fun f => by exact (DFad.mapHom_tagged φ _ bU f _).symm)
    (fun f => by exact (DFad.mapHom_tagged φ _ bZ f _).symm) rf

theorem evaluate_res_dx_hasDerivAt {D : Discretization ℝ} (coeff : Coefficient ℝ D.spaceDim)
    (bU bZ : Bool) (U Z dU dZ : FC D ℝ) (cell : Fin D.numCells) (rf cf : Fin D.numFields) :
    HasDerivAt
      (fun t : ℝ => DFad.dx (evaluate_res coeff (fun _ _ => 0)
        (fun c f => DFad.tagged D.numFields bU f (U c f + t * dU c f))
        (fun c f => DFad.tagged D.numFields bZ f (Z c f + t * dZ c f)) cell rf) cf)
      (SFad.dx (DFad.dx (evaluate_res coeff (fun _ _ => 0)
        (fun c f => DFad.tagged D.numFields bU f (SFad.withDx (U c f) (dU c f)))
        (fun c f => DFad.tagged D.numFields bZ f (SFad.withDx (Z c f) (dZ c f))) cell rf) cf) 0)
      0 := by
  have e1 : ∀ (t x d : ℝ), x + t * d = evalRingHom t (C x + X * C d) := by
    intro t x d
    simp
    ring
  generalize hε : (SFad.withDx 0 1 : SFad ℝ) = ε
  have e2 : ∀ (x d : ℝ), SFad.withDx x d = eval₂RingHom (inlHom ℝ ℝ) ε (C x + X * C d) := by
    intro x d
    subst hε
    ext <;> simp [SFad.withDx]
  have hc : ∀ a : ℝ, eval₂RingHom (inlHom ℝ ℝ) ε (C a) = algebraMap ℝ (SFad ℝ) a := by
    intro a
    simp [TrivSqZeroExt.algebraMap_eq_inl]
  simp only [e1, e2]
  have n1 := fun t : ℝ => evaluate_res_mapHom coeff (evalRingHom t) (fun a => by simp) bU bZ
    (fun c f => C (U c f) + X * C (dU c f)) (fun c f => C (Z c f) + X * C (dZ c f)) cell rf
  have n2 := evaluate_res_mapHom coeff (eval₂RingHom (inlHom ℝ ℝ) ε) hc bU bZ
    (fun c f => C (U c f) + X * C (dU c f)) (fun c f => C (Z c f) + X * C (dZ c f)) cell rf
  simp only [n1, n2, DFad.dx_mapHom, SFad.dx]
  subst hε
  simp only [taylor_snd, coe_evalRingHom]
  exact Polynomial.hasDerivAt _ 0

end BVPConstraint
end ROL

namespace ROL
open TrivSqZeroExt Polynomial

namespace BVPConstraint

theorem transpose_mulVec_assembled {K : Type} [CommRing K] {D : Discretization K}
    (A : Fin D.numCells → Fin D.numFields → Fin D.numFields → K) (w : Vec D) (k : Fin D.nDoF) :
    ∑ i, (∑ cell, ∑ rf, ∑ cf,
        if D.dof cell rf = i ∧ D.dof cell cf = k then A cell rf cf else 0) * w i
      = ∑ cell, ∑ cf, if D.dof cell cf = k then ∑ rf, A cell rf cf * w (D.dof cell rf)
          else 0 := by
  simp only [Finset.sum_mul]
  have step : ∀ F : Fin D.nDoF → Fin D.numFields → Fin D.numFields → K,
      ∑ i, ∑ rf, ∑ cf, F i rf cf = ∑ cf, ∑ rf, ∑ i, F i rf cf := fun F =>
    calc ∑ i, ∑ rf, ∑ cf, F i rf cf
        = ∑ rf, ∑ i, ∑ cf, F i rf cf := Finset.sum_comm
      _ = ∑ rf, ∑ cf, ∑ i, F i rf cf := Finset.sum_congr rfl fun rf _ => Finset.sum_comm
      _ = ∑ cf, ∑ rf, ∑ i, F i rf cf := Finset.sum_comm
  calc ∑ i, ∑ cell, ∑ rf, ∑ cf,
        (if D.dof cell rf = i ∧ D.dof cell cf = k then A cell rf cf else 0) * w i
      = ∑ cell, ∑ i, ∑ rf, ∑ cf,
        (if D.dof cell rf = i ∧ D.dof cell cf = k then A cell rf cf else 0) * w i :=
        Finset.sum_comm
    _ = ∑ cell, ∑ cf, ∑ rf, ∑ i,
        (if D.dof cell rf = i ∧ D.dof cell cf = k then A cell rf cf else 0) * w i :=
        Finset.sum_congr rfl fun cell _ => step _
    _ = _ := by
        refine Finset.sum_congr rfl fun cell _ => Finset.sum_congr rfl fun cf _ => ?_
        by_cases hk : D.dof cell cf = k
        · simp [hk, ite_mul]
        · simp [hk]

theorem assembled_hasDerivAt {D : Discretization ℝ} (coeff : Coefficient ℝ D.spaceDim)
    (bU bZ : Bool) (w : Vec D) (U Z dU dZ : FC D ℝ) (k : Fin D.nDoF) :
    HasDerivAt
      (fun t : ℝ => ∑ i, (∑ cell, ∑ rf, ∑ cf,
        if D.dof cell rf = i ∧ D.dof cell cf = k then
          DFad.dx (evaluate_res coeff (fun _ _ => 0)
            (fun c f => DFad.tagged D.numFields bU f (U c f + t * dU c f))
            (fun c f => DFad.tagged D.numFields bZ f (Z c f + t * dZ c f)) cell rf) cf
        else 0) * w i)
      (∑ cell, ∑ field, if D.dof cell field = k then
          ∑ rf, SFad.dx (DFad.dx (evaluate_res coeff (fun _ _ => 0)
            (fun c f => DFad.tagged D.numFields bU f (SFad.withDx (U c f) (dU c f)))
            (fun c f => DFad.tagged D.numFields bZ f (SFad.withDx (Z c f) (dZ c f)))
            cell rf) field) 0 * w (D.dof cell rf)
        else 0) 0 := by
  simp only [transpose_mulVec_assembled]
  refine HasDerivAt.sum fun cell _ => HasDerivAt.sum fun cf _ => ?_
  by_cases hk : D.dof cell cf = k
  · simp only [hk, if_true]
    exact HasDerivAt.sum fun rf _ =>
      (evaluate_res_dx_hasDerivAt coeff bU bZ U Z dU dZ cell rf cf).mul_const _
  · simp only [hk, if_false]
    exact hasDerivAt_const _ _

end BVPConstraint
end ROL

namespace ROL
open TrivSqZeroExt Polynomial

namespace BVPConstraint

/-- C9: the adjoint-Hessian operations agree with the Jacobian assembled by `update`: for the
four block pairs, `applyAdjointHessian_ab(w,v,u,z)` is the directional derivative, along `v` in
block `a`'s variables, of `(u,z) ↦ (block-b Jacobian assembled by update at (u,z))ᵀ·w`
(component `k`, at step `t = 0` along `u + t·v` resp. `z + t·v`). Real scalars; the coefficients
are arithmetic expressions. -/
theorem applyAdjointHessian_is_derivative (D : Discretization ℝ)
    (coeff : Coefficient ℝ D.spaceDim) (s s' : BVPConstraint D) (out w v u z : Vec D)
    (flag : Bool) (iter : Int) (k : Fin D.nDoF) :
    HasDerivAt (fun t : ℝ => (update coeff s (u + t • v) z flag iter).Ju_.transpose.mulVec w k)
        ((applyAdjointHessian_11 false coeff s' out w v u z).2 k) 0
    ∧ HasDerivAt (fun t : ℝ => (update coeff s (u + t • v) z flag iter).Jz_.transpose.mulVec w k)
        ((applyAdjointHessian_12 false coeff s' out w v u z).2 k) 0
    ∧ HasDerivAt (fun t : ℝ => (update coeff s u (z + t • v) flag iter).Ju_.transpose.mulVec w k)
        ((applyAdjointHessian_21 false coeff s' out w v u z).2 k) 0
    ∧ HasDerivAt (fun t : ℝ => (update coeff s u (z + t • v) flag iter).Jz_.transpose.mulVec w k)
        ((applyAdjointHessian_22 false coeff s' out w v u z).2 k) 0 := by
  have hg : ∀ x : Vec D, (gather (fun _ _ => 0) x : FC D (DFad ℝ D.numFields))
      = fun c f => inl (x (D.dof c f)) := fun x => rfl
  refine ⟨?_, ?_, ?_, ?_⟩
  · have h := assembled_hasDerivAt coeff true false w (fun c f => u (D.dof c f))
      (fun c f => z (D.dof c f)) (fun c f => v (D.dof c f)) (fun _ _ => 0) k
    convert h using 1
    · funext t
      simp [Matrix.mulVec, Matrix.dotProduct, update_Ju_apply, DFad.tagged, hg]
    · simp [applyAdjointHessian_11, applyAdjointHessian_apply]
  · have h := assembled_hasDerivAt coeff false true w (fun c f => u (D.dof c f))
      (fun c f => z (D.dof c f)) (fun c f => v (D.dof c f)) (fun _ _ => 0) k
    convert h using 1
    · funext t
      simp [Matrix.mulVec, Matrix.dotProduct, update_Jz_apply, DFad.tagged, hg]
    · simp [applyAdjointHessian_12, applyAdjointHessian_apply]
  · have h := assembled_hasDerivAt coeff true false w (fun c f => u (D.dof c f))
      (fun c f => z (D.dof c f)) (fun _ _ => 0) (fun c f => v (D.dof c f)) k
    convert h using 1
    · funext t
      simp [Matrix.mulVec, Matrix.dotProduct, update_Ju_apply, DFad.tagged, hg]
    · simp [applyAdjointHessian_21, applyAdjointHessian_apply]
  · have h := assembled_hasDerivAt coeff false true w (fun c f => u (D.dof c f))
      (fun c f => z (D.dof c f)) (fun _ _ => 0) (fun c f => v (D.dof c f)) k
    convert h using 1
    · funext t
      simp [Matrix.mulVec, Matrix.dotProduct, update_Jz_apply, DFad.tagged, hg]
    · simp [applyAdjointHessian_22, applyAdjointHessian_apply]

end BVPConstraint
end ROL

namespace ROL
namespace BVPConstraint

section residual
variable {K : Type} [CommRing K] {D : Discretization K}

theorem value_mode_irrelevant (m : Bool) (coeff : Coefficient K D.spaceDim)
    (s s' : BVPConstraint D) (c c' u z : Vec D) :
    (value m coeff s c u z).2 = (value false coeff s' c' u z).2 := by
  cases m <;> rfl

/-- C11: `BVPConstraint::value` zeroes the caller's vector first and then scatters the
plain-valued residual: the output does not depend on what `c` held before (nor on the cached
blocks or the configuration), and `c[i]` is the sum of the per-cell residual entries
`c_fc(cell, field)` over all `(cell, field)` with `cell*(numFields-1)+field = i`. -/
theorem value_scatters_residual (m m' : Bool) (coeff : Coefficient K D.spaceDim)
    (s s' : BVPConstraint D) (c c' u z : Vec D) :
    (value m coeff s c u z).2 = (value m' coeff s' c' u z).2
    ∧ ∀ i : Fin D.nDoF, (value m coeff s c u z).2 i
        = ∑ cell : Fin D.numCells, ∑ field : Fin D.numFields,
            if cell.val * (D.numFields - 1) + field.val = i.val then
              evaluate_res coeff (fun _ _ => 0) (gather (fun _ _ => 0) u)
                (gather (fun _ _ => 0) z) cell field
            else 0 := by
  refine ⟨(value_mode_irrelevant m coeff s s c c u z).trans
    (value_mode_irrelevant m' coeff s' s c' c u z).symm, fun i => ?_⟩
  rw [value_mode_irrelevant m coeff s s c c u z, value_apply]
  refine Finset.sum_congr rfl fun cell _ => Finset.sum_congr rfl fun field _ => ?_
  have e : (D.dof cell field = i) ↔ cell.val * (D.numFields - 1) + field.val = i.val := by
    rw [Fin.ext_iff]
    rfl
  simp only [e]

/-- C12: if the state and the control are the zero vectors and the reaction coefficient
evaluates to zero at zero state and zero control (at every cubature point), then
`BVPConstraint::value` returns exactly the zero vector, for every discretization. -/
theorem value_zero_at_zero (m : Bool) (coeff : Coefficient K D.spaceDim) (s : BVPConstraint D)
    (c : Vec D)
    (h : ∀ cell p, coeff.reaction.eval (D.physCubPts cell p) (0 : K) 0 = 0) :
    (value m coeff s c (fun _ => 0) (fun _ => 0)).2 = fun _ => 0 := by
  funext i
  rw [value_mode_irrelevant m coeff s s c c, value_apply]
  refine Finset.sum_eq_zero fun cell _ => Finset.sum_eq_zero fun field _ => ?_
  simp [evaluate_res, gather, FST.integrate, FST.integrateGrad, FST.evaluate, FST.evaluateGrad,
    FST.scalarMultiplyDataData, FST.dotMultiplyDataData, h]

/-- Witness of C12 on the one-cell problem, whose reaction `u² - z` vanishes at zero. -/
theorem value_zero_at_zero_witness :
    (∀ cell p, advDiffReact.reaction.eval (oneCellP1.physCubPts cell p) (0 : ℚ) 0 = 0)
    ∧ (value false advDiffReact atOnes ![1, 1] (fun _ => 0) (fun _ => 0)).2 = fun _ => 0 :=
  ⟨fun _ _ => by simp [advDiffReact, CoefExpr.eval],
    @value_zero_at_zero ℚ _ oneCellP1 false advDiffReact atOnes ![1, 1]
      (fun _ _ => by simp [advDiffReact, CoefExpr.eval])⟩

end residual
end BVPConstraint
end ROL

namespace ROL
namespace TrackingObjective

section ring
variable {K : Type} [CommRing K] {D : Discretization K}

theorem applyMass_apply (T : TrackingObjective D) (Mv v : Vec D) (k : Fin D.nDoF) :
    T.applyMass Mv v k = Mv k + ∑ cell, ∑ rfield, ∑ cfield,
      if D.dof cell rfield = k then D.massMatrices cell rfield cfield * v (D.dof cell cfield)
      else 0 := by
  unfold applyMass
  rw [forLoop3_proj_add _ _ _ _ (fun c : Vec D => c k)
    (fun cell rfield cfield => if D.dof cell rfield = k then
      D.massMatrices cell rfield cfield * v (D.dof cell cfield) else 0)]
  intro cell rfield cfield c
  by_cases h : D.dof cell rfield = k
  · subst h
    simp
  · have h' : k ≠ D.dof cell rfield := fun e => h e.symm
    simp [Function.update_noteq h', h]

theorem massOperator_mulVec (v : Vec D) (k : Fin D.nDoF) :
    (massOperator D).mulVec v k = ∑ cell, ∑ rfield, ∑ cfield,
      if D.dof cell rfield = k then D.massMatrices cell rfield cfield * v (D.dof cell cfield)
      else 0 := by
  simp only [Matrix.mulVec, Matrix.dotProduct, massOperator, Finset.sum_mul]
  have step : ∀ F : Fin D.nDoF → Fin D.numCells → Fin D.numFields → Fin D.numFields → K,
      ∑ j, ∑ cell, ∑ rf, ∑ cf, F j cell rf cf = ∑ cell, ∑ rf, ∑ cf, ∑ j, F j cell rf cf :=
    fun F =>
    calc ∑ j, ∑ cell, ∑ rf, ∑ cf, F j cell rf cf
        = ∑ cell, ∑ j, ∑ rf, ∑ cf, F j cell rf cf := Finset.sum_comm
      _ = ∑ cell, ∑ rf, ∑ j, ∑ cf, F j cell rf cf :=
          Finset.sum_congr rfl fun _ _ => Finset.sum_comm
      _ = ∑ cell, ∑ rf, ∑ cf, ∑ j, F j cell rf cf :=
          Finset.sum_congr rfl fun _ _ => Finset.sum_congr rfl fun _ _ => Finset.sum_comm
  rw [step]
  refine Finset.sum_congr rfl fun cell _ => Finset.sum_congr rfl fun rf _ =>
    Finset.sum_congr rfl fun cf _ => ?_
  by_cases h : D.dof cell rf = k
  · simp [h, ite_mul]
  · simp [h]

theorem applyMass_eq (T : TrackingObjective D) (Mv v : Vec D) :
    T.applyMass Mv v = Mv + (massOperator D).mulVec v := by
  funext k
  rw [applyMass_apply, Pi.add_apply, massOperator_mulVec]

theorem gradient_1_eq (T : TrackingObjective D) (g u z : Vec D) :
    T.gradient_1 g u z = g + (massOperator D).mulVec (u - T.target_) := by
  have e : StdVector.axpy (StdVector.set (StdVector.clone u) u) (-1) T.target_
      = u - T.target_ := by
    funext i
    simp [StdVector.axpy, StdVector.set, sub_eq_add_neg]
  show T.applyMass g (StdVector.axpy (StdVector.set (StdVector.clone u) u) (-1) T.target_) = _
  rw [applyMass_eq, e]

theorem gradient_2_eq (T : TrackingObjective D) (g u z : Vec D) :
    T.gradient_2 g u z = T.gamma_ • (g + (massOperator D).mulVec z) := by
  show StdVector.scale (T.applyMass g (StdVector.set (StdVector.clone z) z)) T.gamma_ = _
  rw [applyMass_eq]
  funext i
  simp [StdVector.scale, StdVector.set]

theorem hessVec_11_eq (T : TrackingObjective D) (hv v u z : Vec D) :
    T.hessVec_11 hv v u z = hv + (massOperator D).mulVec v := by
  unfold hessVec_11
  rw [applyMass_eq]
  rfl

theorem hessVec_22_eq (T : TrackingObjective D) (hv v u z : Vec D) :
    T.hessVec_22 hv v u z = T.gamma_ • (hv + (massOperator D).mulVec v) := by
  show StdVector.scale (T.applyMass hv (StdVector.set (StdVector.clone v) v)) T.gamma_ = _
  rw [applyMass_eq]
  funext i
  simp [StdVector.scale, StdVector.set]

/-- C17: `hessVec_12` and `hessVec_21` leave the output vector exactly zero in every component,
for every `v`, `u`, `z` and every prior content of the output vector. -/
theorem hessVec_mixed_zero (T : TrackingObjective D) (hv v u z : Vec D) :
    (∀ i, T.hessVec_12 hv v u z i = 0) ∧ (∀ i, T.hessVec_21 hv v u z i = 0) :=
  ⟨fun _ => rfl, fun _ => rfl⟩

/-- C18: with output vectors zero on entry, for every `u`, `z`, direction `v` and scalar `t`,
`gradient_1` at `(u + t·v, z)` minus `gradient_1` at `(u, z)` equals `t` times `hessVec_11(v)`,
with no remainder. -/
theorem gradient_1_difference (T : TrackingObjective D) (u z v : Vec D) (t : K) :
    T.gradient_1 (fun _ => 0) (u + t • v) z - T.gradient_1 (fun _ => 0) u z
      = t • T.hessVec_11 (fun _ => 0) v u z := by
  rw [gradient_1_eq, gradient_1_eq, hessVec_11_eq]
  have e : u + t • v - T.target_ = (u - T.target_) + t • v := by
    funext i
    simp
    ring
  rw [e, Matrix.mulVec_add, Matrix.mulVec_smul]
  funext i
  simp

end ring
end TrackingObjective
end ROL

namespace ROL

theorem dot_eq_dotProduct {K : Type} [CommRing K] {n : Nat} (x y : Fin n → K) :
    dot x y = Matrix.dotProduct x y := rfl

theorem dot_comm {K : Type} [CommRing K] {n : Nat} (x y : Fin n → K) : dot x y = dot y x := by
  rw [dot_eq_dotProduct, dot_eq_dotProduct, Matrix.dotProduct_comm]

theorem massOperator_transpose {K : Type} [CommRing K] (D : Discretization K)
    (hsym : ∀ cell r c, D.massMatrices cell r c = D.massMatrices cell c r) :
    (massOperator D).transpose = massOperator D := by
  ext i j
  simp only [Matrix.transpose_apply, massOperator]
  refine Finset.sum_congr rfl fun cell _ => ?_
  rw [Finset.sum_comm]
  refine Finset.sum_congr rfl fun rf _ => Finset.sum_congr rfl fun cf _ => ?_
  rw [hsym cell cf rf]
  simp only [and_comm]

theorem dot_mulVec_symm {K : Type} [CommRing K] {n : Nat} (M : Matrix (Fin n) (Fin n) K)
    (hM : M.transpose = M) (a b : Fin n → K) : dot a (M.mulVec b) = dot b (M.mulVec a) := by
  rw [dot_eq_dotProduct, dot_eq_dotProduct, Matrix.dotProduct_mulVec, ← Matrix.mulVec_transpose,
    hM, Matrix.dotProduct_comm]

namespace TrackingObjective

section field
variable {K : Type} [Field K] {D : Discretization K}

theorem value_eq (T : TrackingObjective D) (u z : Vec D) :
    T.value u z = 1 / 2 * (dot ((massOperator D).mulVec (u - T.target_)) (u - T.target_)
      + T.gamma_ * dot ((massOperator D).mulVec z) z) := by
  have e : StdVector.axpy (StdVector.set (StdVector.clone u) u) (-1) T.target_
      = u - T.target_ := by
    funext i
    simp [StdVector.axpy, StdVector.set, sub_eq_add_neg]
  have z0 : ∀ x y : Vec D, StdVector.clone x + (massOperator D).mulVec y
      = (massOperator D).mulVec y := by
    intro x y
    funext i
    simp [StdVector.clone]
  show 1 / 2 * (dot (T.applyMass (StdVector.clone u)
      (StdVector.axpy (StdVector.set (StdVector.clone u) u) (-1) T.target_))
      (StdVector.axpy (StdVector.set (StdVector.clone u) u) (-1) T.target_)
    + T.gamma_ * dot (T.applyMass (StdVector.clone z) (StdVector.set (StdVector.clone z) z))
      (StdVector.set (StdVector.clone z) z)) = _
  rw [e, applyMass_eq, applyMass_eq]
  simp only [StdVector.set]
  rw [z0, z0]

/-- C13: `TrackingObjective::value(u,z) = ½·(u−target)ᵀM(u−target) + ½·γ·zᵀMz` for all `u`,
`z`, `target` and `γ`, with `M` the scattered per-cell mass operator; with `target = 0` and
`z = 0` it equals `½·uᵀMu`, whatever `γ` is. -/
theorem value_quadratic (T : TrackingObjective D) (u z : Vec D) (γ : K) :
    T.value u z = 1 / 2 * dot (u - T.target_) ((massOperator D).mulVec (u - T.target_))
      + 1 / 2 * T.gamma_ * dot z ((massOperator D).mulVec z)
    ∧ value ({ gamma_ := γ, target_ := fun _ => 0 } : TrackingObjective D) u (fun _ => 0)
      = 1 / 2 * dot u ((massOperator D).mulVec u) := by
  constructor
  · rw [value_eq, dot_comm _ (u - T.target_), dot_comm _ z]
    ring
  · rw [value_eq]
    have e : u - (fun _ => 0 : Vec D) = u := by
      funext i
      simp
    simp only [e]
    rw [dot_comm _ u]
    simp [dot]

/-- Witness of C13: one cell, two fields, target `(0,0)`, `γ = 1`, `u = (1,1)`, `z = (0,0)`: the
value is `½·uᵀMu = 1/2`. -/
theorem value_quadratic_witness :
    value ({ gamma_ := 1, target_ := fun _ => 0 } : TrackingObjective oneCellP1) ![1, 1]
        (fun _ => 0)
      = 1 / 2 * dot (show Vec oneCellP1 from ![1, 1])
          ((massOperator oneCellP1).mulVec ![1, 1])
    ∧ value (trackZero 1) ![1, 1] ![0, 0] = 1 / 2 :=
  ⟨(@value_quadratic ℚ _ oneCellP1 (trackZero 1) ![1, 1] ![0, 0] 1).2,
    by with_unfolding_all decide⟩

/-- C19: secant check on `value`: when the per-cell mass matrices are symmetric (and `2 ≠ 0` in
the scalars) and the output vectors are zero on entry, `value(u+v, z) − value(u, z)` equals
`⟨gradient_1(u,z), v⟩ + ½·⟨hessVec_11(v), v⟩`. -/
theorem value_secant (T : TrackingObjective D) (u z v : Vec D)
    (hsym : ∀ cell r c, D.massMatrices cell r c = D.massMatrices cell c r)
    (h2 : (2 : K) ≠ 0) :
    T.value (u + v) z - T.value u z
      = dot (T.gradient_1 (fun _ => 0) u z) v
        + 1 / 2 * dot (T.hessVec_11 (fun _ => 0) v u z) v := by
  have hM := massOperator_transpose D hsym
  have e : u + v - T.target_ = (u - T.target_) + v := by
    funext i
    simp
    ring
  have z0 : ∀ x : Vec D, (fun _ => 0 : Vec D) + x = x := by
    intro x
    funext i
    simp
  rw [value_eq, value_eq, gradient_1_eq, hessVec_11_eq, e, z0, z0]
  generalize u - T.target_ = a
  simp only [Matrix.mulVec_add, dot_eq_dotProduct, Matrix.add_dotProduct, Matrix.dotProduct_add]
  have hs := dot_mulVec_symm (massOperator D) hM a v
  simp only [dot_eq_dotProduct] at hs
  rw [Matrix.dotProduct_comm ((massOperator D).mulVec v) a, hs,
    Matrix.dotProduct_comm v ((massOperator D).mulVec a)]
  field_simp
  ring

/-- Witness of C19 on the one-cell problem, whose mass matrix is symmetric. -/
theorem value_secant_witness :
    (∀ cell r c, oneCellP1.massMatrices cell r c = oneCellP1.massMatrices cell c r)
    ∧ (2 : ℚ) ≠ 0
    ∧ value (trackZero 1) (![1, 1] + ![1, 0]) ![0, 0] - value (trackZero 1) ![1, 1] ![0, 0]
      = dot (gradient_1 (trackZero 1) (fun _ => 0) ![1, 1] ![0, 0]) ![1, 0]
        + 1 / 2 * dot (hessVec_11 (trackZero 1) (fun _ => 0) ![1, 0] ![1, 1] ![0, 0]) ![1, 0] :=
  ⟨by with_unfolding_all decide, by norm_num,
    @value_secant ℚ _ oneCellP1 (trackZero 1) ![1, 1] ![0, 0] ![1, 0]
      (by with_unfolding_all decide) (by norm_num)⟩

end field
end TrackingObjective
end ROL

namespace ROL
namespace TrackingObjective

/-- C14, the code at the failing input: on the one-cell problem with target `(0,0)`, `u = (1,1)`
and the output vector holding `(1,0)` on entry, `gradient_1` leaves `g = (3/2, 1/2)`, the prior
content plus `M(u − target) = (1/2, 1/2)`. -/
theorem gradient_1_accumulates_at_example :
    gradient_1 (trackZero 1) ![1, 0] ![1, 1] ![0, 0] = ![3 / 2, 1 / 2]
    ∧ (massOperator oneCellP1).mulVec (fun i => (![1, 1] : Vec oneCellP1) i
        - (trackZero 1).target_ i) = ![1 / 2, 1 / 2]
    ∧ gradient_1 (trackZero 1) ![0, 0] ![1, 1] ![0, 0] = ![1 / 2, 1 / 2] := by
  refine ⟨?_, ?_, ?_⟩ <;> with_unfolding_all decide

/-- C15, the code at the failing input: on the one-cell problem with `γ = 2`, `z = (1,1)` and
the output vector holding `(1,0)` on entry, `gradient_2` leaves `g = (3, 1)`, that is `γ` times
(the prior content plus `Mz`), while `γ·Mz = (1, 1)`. -/
theorem gradient_2_accumulates_at_example :
    gradient_2 (trackZero 2) ![1, 0] ![0, 0] ![1, 1] = ![3, 1]
    ∧ (fun i => (trackZero 2).gamma_ * (massOperator oneCellP1).mulVec ![1, 1] i)
        = (![1, 1] : Vec oneCellP1)
    ∧ gradient_2 (trackZero 2) ![0, 0] ![0, 0] ![1, 1] = ![1, 1] := by
  refine ⟨?_, ?_, ?_⟩ <;> with_unfolding_all decide

/-- C16, the code at the failing input: on the one-cell problem with `γ = 2`, `v = (1,1)` and
the output vector holding `(1,0)` on entry, `hessVec_11` leaves `(3/2, 1/2)` and `hessVec_22`
leaves `(3, 1)`, while `Mv = (1/2, 1/2)` and `γ·Mv = (1, 1)`. -/
theorem hessVec_accumulates_at_example :
    hessVec_11 (trackZero 2) ![1, 0] ![1, 1] ![0, 0] ![0, 0] = ![3 / 2, 1 / 2]
    ∧ hessVec_22 (trackZero 2) ![1, 0] ![1, 1] ![0, 0] ![0, 0] = ![3, 1]
    ∧ (massOperator oneCellP1).mulVec ![1, 1] = ![1 / 2, 1 / 2]
    ∧ (fun i => (trackZero 2).gamma_ * (massOperator oneCellP1).mulVec ![1, 1] i)
        = (![1, 1] : Vec oneCellP1) := by
  refine ⟨?_, ?_, ?_, ?_⟩ <;> with_unfolding_all decide

end TrackingObjective

namespace Step

variable {K V σ : Type} [CommRing K]

/-- C20: after `Step::initialize(x, obj, algo_state)`, for every `x`, objective and incoming
states: `ngrad = 1`, `nfval = 1`, `snorm` is the sentinel `1e10`, `value` is what the objective's
`value` returns at `x`, `gnorm` is the norm of what the objective's `gradient` wrote at `x`, the
step state's `gradientVec` holds that gradient and `descentVec` is a clone of `x` (the objective
having been updated at `x` first; `iter` and `iterateVec` are untouched). -/
theorem initialise_sets_state (vec : VectorOps K V) (obj : Objective K V σ) (tol : K)
    (state_ : StepState V) (x : V) (o : σ) (algo_state : AlgorithmState K V) :
    (initialise vec obj tol state_ x o algo_state).2.2.ngrad = 1
    ∧ (initialise vec obj tol state_ x o algo_state).2.2.nfval = 1
    ∧ (initialise vec obj tol state_ x o algo_state).2.2.snorm = 10 ^ 10
    ∧ (initialise vec obj tol state_ x o algo_state).2.2.value
        = (obj.value (obj.gradient (obj.update o x true algo_state.iter) (vec.clone x) x tol).1
            x tol).2
    ∧ (initialise vec obj tol state_ x o algo_state).2.2.gnorm
        = vec.norm (obj.gradient (obj.update o x true algo_state.iter) (vec.clone x) x tol).2
    ∧ (initialise vec obj tol state_ x o algo_state).1.gradientVec
        = some (obj.gradient (obj.update o x true algo_state.iter) (vec.clone x) x tol).2
    ∧ (initialise vec obj tol state_ x o algo_state).1.descentVec = some (vec.clone x)
    ∧ (initialise vec obj tol state_ x o algo_state).2.2.iter = algo_state.iter
    ∧ (initialise vec obj tol state_ x o algo_state).2.2.iterateVec = algo_state.iterateVec :=
  ⟨rfl, rfl, rfl, rfl, rfl, rfl, rfl, rfl, rfl⟩

end Step
end ROL

namespace ROL

/-! ### The calls made by `Step::initialize` -/

namespace Step

/-- C21 as stated fails: with the incoming iteration counter `5`, the objective's `update` is
called with iteration number `5`, not `0`. -/
theorem initialise_update_iter_at_five :
    (initialise ratVector squareObjective.logged 0 Step.new 3 ((), []) stateAtFive).2.1.2
      = [ObjectiveCall.update 3 true 5, ObjectiveCall.gradient 3, ObjectiveCall.value 3]
    ∧ (initialise ratVector squareObjective.logged 0 Step.new 3 ((), []) stateAtFive).2.1.2
      ≠ [ObjectiveCall.update 3 true 0, ObjectiveCall.gradient 3, ObjectiveCall.value 3] := by
  constructor <;> with_unfolding_all decide

/-- C21 as amended: `Step::initialize` calls the objective's `update` exactly once, before the
gradient and value evaluations, with the iterate `x`, `accepted = true` and the iteration number
`algo_state.iter` of the incoming algorithm state; the calls made are `update`, `gradient`,
`value`, in this order, each at `x`. -/
theorem initialise_calls {K V σ : Type} [CommRing K] (vec : VectorOps K V)
    (obj : Objective K V σ) (tol : K) (state_ : StepState V) (x : V) (o : σ)
    (log : List (ObjectiveCall V)) (algo_state : AlgorithmState K V) :
    (initialise vec obj.logged tol state_ x (o, log) algo_state).2.1.2
      = log ++ [ObjectiveCall.update x true algo_state.iter, ObjectiveCall.gradient x,
          ObjectiveCall.value x] := by
  simp [initialise, Objective.logged]

end Step

/-! ### Vectors of arbitrary length -/

theorem forLoop_rel {σ τ : Type} (n : Nat) (R : σ → τ → Prop) (f : Fin n → σ → σ)
    (g : Fin n → τ → τ) (h : ∀ i a b, R a b → R (f i a) (g i b)) (a : σ) (b : τ)
    (hab : R a b) : R (forLoop n f a) (forLoop n g b) := by
  unfold forLoop
  generalize List.finRange n = l
  induction l generalizing a b with
  | nil => simpa using hab
  | cons i l ih => exact ih _ _ (h i a b hab)

theorem forLoop_inv {σ : Type} (n : Nat) (P : σ → Prop) (f : Fin n → σ → σ)
    (h : ∀ i a, P a → P (f i a)) (a : σ) (ha : P a) : P (forLoop n f a) :=
  forLoop_rel n (fun s (_ : Unit) => P s) f (fun _ u => u) (fun i a _ hp => h i a hp) a () ha

theorem readAt_of_lt {K : Type} [Zero K] (v : List K) (i : Nat) (h : i < v.length) :
    readAt v i = Outcome.returned (v.getD i 0) := by
  simp [readAt, List.getElem?_eq_getElem h, List.getD_eq_getElem?_getD]

theorem writeAt_of_lt {K : Type} (v : List K) (i : Nat) (x : K) (h : i < v.length) :
    writeAt v i x = Outcome.returned (v.set i x) := by
  simp [writeAt, h]

theorem getD_set_of_lt {K : Type} [Zero K] (v : List K) (i k : Nat) (x : K)
    (h : i < v.length) : (v.set i x).getD k 0 = if k = i then x else v.getD k 0 := by
  simp only [List.getD_eq_getElem?_getD, List.getElem?_set]
  by_cases hk : k = i
  · subst hk
    simp [h]
  · have : ¬ i = k := fun e => hk e.symm
    simp [hk, this]

end ROL

namespace ROL
namespace BVPConstraint

section raw
variable {K : Type} [CommRing K] {D : Discretization K}

theorem set_simulates_update {n : Nat} (out : List K) (f : Fin n → K) (row : Fin n) (x : K)
    (hrow : row.val < out.length) (hval : ∀ k : Fin n, out.getD k.val 0 = f k)
    (hzero : ∀ k, n ≤ k → out.getD k 0 = 0) :
    (∀ k : Fin n, (out.set row.val x).getD k.val 0 = Function.update f row x k)
    ∧ (∀ k, n ≤ k → (out.set row.val x).getD k 0 = 0) := by
  constructor
  · intro k
    rw [getD_set_of_lt _ _ _ _ hrow]
    by_cases h : k = row
    · subst h
      rw [if_pos rfl, Function.update_same]
    · have hne : ¬ k.val = row.val := fun e => h (Fin.ext e)
      rw [if_neg hne, Function.update_noteq h, hval]
  · intro k hk
    rw [getD_set_of_lt _ _ _ _ hrow]
    have hne : ¬ k = row.val := by
      have := row.isLt
      omega
    rw [if_neg hne, hzero k hk]

theorem applyJacRaw_of_le (s : BVPConstraint D) (jv v : List K) (comp : var) (transpose : Bool)
    (hjv : D.nDoF ≤ jv.length) (hv : D.nDoF ≤ v.length) :
    ∃ out, applyJacRaw s jv v comp transpose = Outcome.returned out
      ∧ out.length = jv.length
      ∧ (∀ k : Fin D.nDoF, out.getD k.val 0
          = applyJac s (fun _ => 0) (fun k => v.getD k.val 0) comp transpose k)
      ∧ (∀ k, D.nDoF ≤ k → out.getD k 0 = 0) := by
  unfold applyJacRaw applyJac
  generalize (if comp = var.sim then s.Ju_ else s.Jz_) = J
  refine forLoop_rel D.nDoF
    (fun (st : Outcome (List K)) (f : Vec D) => ∃ out, st = Outcome.returned out
      ∧ out.length = jv.length ∧ (∀ k : Fin D.nDoF, out.getD k.val 0 = f k)
      ∧ (∀ k, D.nDoF ≤ k → out.getD k 0 = 0)) _ _ ?_ _ _ ?_
  · intro row a b hab
    refine forLoop_rel D.nDoF
      (fun (st : Outcome (List K)) (f : Vec D) => ∃ out, st = Outcome.returned out
        ∧ out.length = jv.length ∧ (∀ k : Fin D.nDoF, out.getD k.val 0 = f k)
        ∧ (∀ k, D.nDoF ≤ k → out.getD k 0 = 0)) _ _ ?_ a b hab
    rintro col _ f ⟨out, rfl, hlen, hval, hzero⟩
    have hrow : row.val < out.length := by
      have := row.isLt
      omega
    have hcol : col.val < v.length := by
      have := col.isLt
      omega
    simp only [Outcome.bind, readAt_of_lt out row.val hrow, readAt_of_lt v col.val hcol]
    rw [hval row]
    cases transpose
    · simp only [Bool.false_eq_true, if_false, writeAt_of_lt _ _ _ hrow]
      have h := set_simulates_update out f row (f row + J row col * v.getD col.val 0) hrow hval
        hzero
      exact ⟨_, rfl, by rw [List.length_set, hlen], h.1, h.2⟩
    · simp only [if_true, writeAt_of_lt _ _ _ hrow]
      have h := set_simulates_update out f row (f row + J col row * v.getD col.val 0) hrow hval
        hzero
      exact ⟨_, rfl, by rw [List.length_set, hlen], h.1, h.2⟩
  · refine ⟨_, rfl, by simp, fun k => ?_, fun k _ => ?_⟩
    · simp only [List.getD_eq_getElem?_getD, List.getElem?_replicate]
      split <;> simp
    · simp only [List.getD_eq_getElem?_getD, List.getElem?_replicate]
      split <;> simp

end raw
end BVPConstraint
end ROL

namespace ROL
namespace BVPConstraint

section rawPlain
variable {K : Type} {D : Discretization K}

theorem mat2vecRaw_of_le (v : List K) (m : Matrix (Fin D.nDoF) (Fin 1) K)
    (hv : D.nDoF ≤ v.length) :
    ∃ v', mat2vecRaw v m = Outcome.returned v' ∧ v'.length = v.length := by
  unfold mat2vecRaw
  refine forLoop_inv D.nDoF
    (fun st : Outcome (List K) => ∃ v', st = Outcome.returned v' ∧ v'.length = v.length)
    _ ?_ _ ⟨_, rfl, rfl⟩
  rintro i _ ⟨v', rfl, hlen⟩
  have hi : i.val < v'.length := by
    have := i.isLt
    omega
  simp only [Outcome.bind, writeAt_of_lt _ _ _ hi]
  exact ⟨_, rfl, by rw [List.length_set, hlen]⟩

end rawPlain

section raw
variable {K : Type} [CommRing K] {D : Discretization K}

theorem vec2matRaw_of_le (m : Matrix (Fin D.nDoF) (Fin 1) K) (v : List K)
    (hv : D.nDoF ≤ v.length) : ∃ m', vec2matRaw m v = Outcome.returned m' := by
  unfold vec2matRaw
  refine forLoop_inv D.nDoF
    (fun st : Outcome (Matrix (Fin D.nDoF) (Fin 1) K) => ∃ m', st = Outcome.returned m')
    _ ?_ _ ⟨_, rfl⟩
  rintro i _ ⟨m', rfl⟩
  have hi : i.val < v.length := by
    have := i.isLt
    omega
  simp only [Outcome.bind, readAt_of_lt v i.val hi]
  exact ⟨_, rfl⟩

end raw
end BVPConstraint
end ROL

namespace ROL

theorem index_share (m c f c' f' : Nat) (hm : 1 ≤ m) (hf : f ≤ m) (hf' : f' ≤ m)
    (hne : ¬(c = c' ∧ f = f')) :
    c * m + f = c' * m + f'
      ↔ (c' = c + 1 ∧ f = m ∧ f' = 0) ∨ (c = c' + 1 ∧ f' = m ∧ f = 0) := by
  constructor
  · intro h
    rcases Nat.lt_trichotomy c c' with hlt | heq | hgt
    · left
      obtain ⟨d, rfl⟩ := Nat.exists_eq_add_of_lt hlt
      have e : (c + d + 1) * m = c * m + d * m + m := by ring
      rw [e] at h
      have hd : d * m = 0 := by omega
      have hd0 : d = 0 := by
        rcases Nat.mul_eq_zero.mp hd with h0 | h0
        · exact h0
        · omega
      subst hd0
      omega
    · subst heq
      exact absurd ⟨rfl, by omega⟩ hne
    · right
      obtain ⟨d, rfl⟩ := Nat.exists_eq_add_of_lt hgt
      have e : (c' + d + 1) * m = c' * m + d * m + m := by ring
      rw [e] at h
      have hd : d * m = 0 := by omega
      have hd0 : d = 0 := by
        rcases Nat.mul_eq_zero.mp hd with h0 | h0
        · exact h0
        · omega
      subst hd0
      omega
  · rintro (⟨rfl, rfl, rfl⟩ | ⟨rfl, rfl, rfl⟩) <;> ring

theorem index_onto (nc m i : Nat) (hnc : 1 ≤ nc) (hi : i < nc * m + 1) :
    ∃ c f, c < nc ∧ f < m + 1 ∧ c * m + f = i := by
  rcases Nat.eq_zero_or_pos m with hm | hm
  · subst hm
    exact ⟨0, 0, by omega, by omega, by omega⟩
  · by_cases hlast : i = nc * m
    · refine ⟨nc - 1, m, by omega, by omega, ?_⟩
      obtain ⟨k, rfl⟩ : ∃ k, nc = k + 1 := ⟨nc - 1, by omega⟩
      rw [hlast, Nat.add_sub_cancel]
      ring
    · refine ⟨i / m, i % m, ?_, ?_, ?_⟩
      · rw [Nat.div_lt_iff_lt_mul hm]
        omega
      · have := Nat.mod_lt i hm
        omega
      · rw [Nat.mul_comm]
        exact Nat.div_add_mod i m

end ROL

namespace ROL
namespace Discretization

variable {K : Type}

/-- C23: for a discretization with at least one cell and one field, `nDoF` is
`numCells·(numFields−1)+1`; the gather/scatter index `cell·(numFields−1)+field` is below `nDoF`
for every cell and field; every dof below `nDoF` is the index of some (cell, field); and with at
least two fields two different (cell, field) pairs have the same index exactly when one is the
last field of a cell and the other the first field of the next cell. -/
theorem dof_index (D : Discretization K) (hc : 1 ≤ D.numCells) (hf : 1 ≤ D.numFields) :
    D.nDoF = D.numCells * (D.numFields - 1) + 1
    ∧ (∀ (cell : Fin D.numCells) (field : Fin D.numFields),
        (D.dof cell field).val = cell.val * (D.numFields - 1) + field.val
        ∧ cell.val * (D.numFields - 1) + field.val < D.nDoF)
    ∧ (∀ i : Fin D.nDoF, ∃ cell field, D.dof cell field = i)
    ∧ (2 ≤ D.numFields → ∀ (c c' : Fin D.numCells) (f f' : Fin D.numFields),
        (c, f) ≠ (c', f') →
        (D.dof c f = D.dof c' f'
          ↔ (c'.val = c.val + 1 ∧ f.val = D.numFields - 1 ∧ f'.val = 0)
            ∨ (c.val = c'.val + 1 ∧ f'.val = D.numFields - 1 ∧ f.val = 0))) := by
  have hn : D.nDoF = D.numCells * (D.numFields - 1) + 1 := by
    unfold Discretization.nDoF
    have e : ((D.numCells : Int) * ((D.numFields : Int) - 1) + 1)
        = ((D.numCells * (D.numFields - 1) + 1 : Nat) : Int) := by
      have e2 : D.numFields = (D.numFields - 1) + 1 := by omega
      generalize D.numFields - 1 = b at e2
      rw [e2]
      push_cast
      ring
    rw [e, Int.toNat_ofNat]
  refine ⟨hn, fun cell field => ⟨rfl, (D.dof cell field).isLt⟩, ?_, ?_⟩
  · intro i
    obtain ⟨c, f, hc', hf', e⟩ := index_onto D.numCells (D.numFields - 1) i.val hc
      (by have := i.isLt; omega)
    exact ⟨⟨c, hc'⟩, ⟨f, by omega⟩, Fin.ext e⟩
  · intro h2 c c' f f' hne
    have hne' : ¬(c.val = c'.val ∧ f.val = f'.val) := by
      rintro ⟨e1, e2⟩
      exact hne (Prod.ext (Fin.ext e1) (Fin.ext e2))
    have := index_share (D.numFields - 1) c.val f.val c'.val f'.val (by omega)
      (by have := f.isLt; omega) (by have := f'.isLt; omega) hne'
    rw [← this]
    exact Fin.ext_iff

/-- Witness of C23 on the one-cell problem. -/
theorem dof_index_witness :
    1 ≤ oneCellP1.numCells ∧ 1 ≤ oneCellP1.numFields
    ∧ oneCellP1.nDoF = oneCellP1.numCells * (oneCellP1.numFields - 1) + 1 :=
  ⟨by decide, by decide, (@dof_index ℚ oneCellP1 (by decide) (by decide)).1⟩

end Discretization
end ROL

namespace ROL
namespace BVPConstraint

section shipped
variable {K : Type} [CommRing K] {D : Discretization K}

theorem applyJac_new (jv v : Vec D) (comp : var) (transpose : Bool) :
    applyJac (BVPConstraint.new D) jv v comp transpose = fun _ => 0 := by
  funext k
  rw [applyJac_apply]
  cases transpose <;> cases comp <;> simp [BVPConstraint.new]

/-- C24: in the caller-driven mode `applyJacobian_1`, `applyJacobian_2`,
`applyAdjointJacobian_1` and `applyAdjointJacobian_2` ignore `u` and `z` (and the previous
content of the output): the constraint is left as it was and the result is the same for every
`u`, `z`; on a freshly constructed constraint each of them returns the zero vector for every
`v`. -/
theorem jacobian_ops_ignore_point (coeff : Coefficient K D.spaceDim) (s : BVPConstraint D)
    (jv jv' v u z u' z' : Vec D) :
    (applyJacobian_1 false coeff s jv v u z = applyJacobian_1 false coeff s jv' v u' z'
      ∧ applyJacobian_2 false coeff s jv v u z = applyJacobian_2 false coeff s jv' v u' z'
      ∧ applyAdjointJacobian_1 false coeff s jv v u z
          = applyAdjointJacobian_1 false coeff s jv' v u' z'
      ∧ applyAdjointJacobian_2 false coeff s jv v u z
          = applyAdjointJacobian_2 false coeff s jv' v u' z')
    ∧ ((applyJacobian_1 false coeff s jv v u z).1 = s
      ∧ (applyJacobian_2 false coeff s jv v u z).1 = s
      ∧ (applyAdjointJacobian_1 false coeff s jv v u z).1 = s
      ∧ (applyAdjointJacobian_2 false coeff s jv v u z).1 = s)
    ∧ ((applyJacobian_1 false coeff (BVPConstraint.new D) jv v u z).2 = (fun _ => 0)
      ∧ (applyJacobian_2 false coeff (BVPConstraint.new D) jv v u z).2 = (fun _ => 0)
      ∧ (applyAdjointJacobian_1 false coeff (BVPConstraint.new D) jv v u z).2 = (fun _ => 0)
      ∧ (applyAdjointJacobian_2 false coeff (BVPConstraint.new D) jv v u z).2
          = (fun _ => 0)) :=
  ⟨⟨by simp only [applyJacobian_1, applyJac, Bool.false_eq_true, if_false],
      by simp only [applyJacobian_2, applyJac, Bool.false_eq_true, if_false],
      by simp only [applyAdjointJacobian_1, applyJac, Bool.false_eq_true, if_false],
      by simp only [applyAdjointJacobian_2, applyJac, Bool.false_eq_true, if_false]⟩,
    ⟨rfl, rfl, rfl, rfl⟩,
    ⟨applyJac_new jv v var.sim false, applyJac_new jv v var.opt false,
      applyJac_new jv v var.sim true, applyJac_new jv v var.opt true⟩⟩

/-- C28: in the caller-driven mode the four `applyAdjointHessian` operations leave the cached
blocks as they were, and their result is the same whatever the cached blocks and the previous
content of the output are (in particular before and after any `update` call). -/
theorem adjointHessian_ops_frame (coeff : Coefficient K D.spaceDim) (s s' : BVPConstraint D)
    (ahwv ahwv' w v u z u' z' : Vec D) (flag : Bool) (iter : Int) :
    ((applyAdjointHessian_11 false coeff s ahwv w v u z).1 = s
      ∧ (applyAdjointHessian_12 false coeff s ahwv w v u z).1 = s
      ∧ (applyAdjointHessian_21 false coeff s ahwv w v u z).1 = s
      ∧ (applyAdjointHessian_22 false coeff s ahwv w v u z).1 = s)
    ∧ ((applyAdjointHessian_11 false coeff s ahwv w v u z).2
          = (applyAdjointHessian_11 false coeff s' ahwv' w v u z).2
      ∧ (applyAdjointHessian_12 false coeff s ahwv w v u z).2
          = (applyAdjointHessian_12 false coeff s' ahwv' w v u z).2
      ∧ (applyAdjointHessian_21 false coeff s ahwv w v u z).2
          = (applyAdjointHessian_21 false coeff s' ahwv' w v u z).2
      ∧ (applyAdjointHessian_22 false coeff s ahwv w v u z).2
          = (applyAdjointHessian_22 false coeff s' ahwv' w v u z).2)
    ∧ ((applyAdjointHessian_11 false coeff (update coeff s u' z' flag iter) ahwv w v u z).2
          = (applyAdjointHessian_11 false coeff s ahwv w v u z).2
      ∧ (applyAdjointHessian_12 false coeff (update coeff s u' z' flag iter) ahwv w v u z).2
          = (applyAdjointHessian_12 false coeff s ahwv w v u z).2
      ∧ (applyAdjointHessian_21 false coeff (update coeff s u' z' flag iter) ahwv w v u z).2
          = (applyAdjointHessian_21 false coeff s ahwv w v u z).2
      ∧ (applyAdjointHessian_22 false coeff (update coeff s u' z' flag iter) ahwv w v u z).2
          = (applyAdjointHessian_22 false coeff s ahwv w v u z).2) :=
  ⟨⟨rfl, rfl, rfl, rfl⟩, ⟨rfl, rfl, rfl, rfl⟩, ⟨rfl, rfl, rfl, rfl⟩⟩

end shipped

section inverse
variable {K : Type} [Field K] [DecidableEq K] {D : Discretization K}

/-- C25: with eager re-linearization each of `applyJacobian_1`, `applyJacobian_2`,
`applyAdjointJacobian_1`, `applyAdjointJacobian_2`, `applyInverseJacobian_1` and
`applyInverseAdjointJacobian_1` returns, from any cached state `s`, what the caller-driven mode
returns when `update(u,z)` has been called immediately before (whatever the state `s'`, the flag
and the iteration number of that call). -/
theorem linearization_modes_agree (coeff : Coefficient K D.spaceDim) (s s' : BVPConstraint D)
    (jv v u z : Vec D) (flag : Bool) (iter : Int) :
    applyJacobian_1 true coeff s jv v u z
        = applyJacobian_1 false coeff (update coeff s' u z flag iter) jv v u z
    ∧ applyJacobian_2 true coeff s jv v u z
        = applyJacobian_2 false coeff (update coeff s' u z flag iter) jv v u z
    ∧ applyAdjointJacobian_1 true coeff s jv v u z
        = applyAdjointJacobian_1 false coeff (update coeff s' u z flag iter) jv v u z
    ∧ applyAdjointJacobian_2 true coeff s jv v u z
        = applyAdjointJacobian_2 false coeff (update coeff s' u z flag iter) jv v u z
    ∧ applyInverseJacobian_1 true coeff s jv v u z
        = applyInverseJacobian_1 false coeff (update coeff s' u z flag iter) jv v u z
    ∧ applyInverseAdjointJacobian_1 true coeff s jv v u z
        = applyInverseAdjointJacobian_1 false coeff (update coeff s' u z flag iter) jv v u z :=
  ⟨rfl, rfl, rfl, rfl, rfl, rfl⟩

/-- C26: `applyInverseJacobian_1` and `applyInverseAdjointJacobian_1` are the same function:
for every cached state, right-hand side `v`, output vector and mode they return the same
result. -/
theorem applyInverse_same_function (manual_update : Bool) (coeff : Coefficient K D.spaceDim)
    (s : BVPConstraint D) (out v u z : Vec D) :
    applyInverseJacobian_1 manual_update coeff s out v u z
      = applyInverseAdjointJacobian_1 manual_update coeff s out v u z :=
  rfl

end inverse
end BVPConstraint
end ROL

namespace ROL
open TrivSqZeroExt

theorem DFad.mapHom_contract_algebraMap {K : Type} [CommRing K] {m : Nat} (g : Fin m → K)
    (n : Nat) (a : K) :
    DFad.mapHom (DFad.contract g) n (algebraMap K (DFad (DFad K m) n) a)
      = algebraMap K (DSFad K n) a := by
  show DFad.mapHom (DFad.contract g) n (inl (inl a)) = inl (inl a)
  rw [DFad.mapHom_inl, DFad.contract_inl]

theorem DFad.contract_pair {K : Type} [CommRing K] (g : Fin 2 → K) (x d1 d2 : K) :
    DFad.contract g (inl x + inr ![d1, d2] : DFad K 2)
      = SFad.withDx x (g 0 * d1 + g 1 * d2) := by
  ext
  · simp [DFad.contract, SFad.withDx, TrivSqZeroExt.fst_map]
  · simp [DFad.contract, SFad.withDx, TrivSqZeroExt.snd_map, LinearMap.sum_apply,
      Fin.sum_univ_two]

namespace BVPConstraint
variable {K : Type} [CommRing K] {D : Discretization K}

theorem evaluate_res_dir (coeff : Coefficient K D.spaceDim) (bU bZ : Bool)
    (U Z dU dU1 dU2 dZ dZ1 dZ2 : FC D K) (g : Fin 2 → K)
    (hU : ∀ c f, dU c f = g 0 * dU1 c f + g 1 * dU2 c f)
    (hZ : ∀ c f, dZ c f = g 0 * dZ1 c f + g 1 * dZ2 c f)
    (cell : Fin D.numCells) (rf field : Fin D.numFields) :
    SFad.dx (DFad.dx (evaluate_res coeff (fun _ _ => 0)
        (fun c f => DFad.tagged D.numFields bU f (SFad.withDx (U c f) (dU c f)))
        (fun c f => DFad.tagged D.numFields bZ f (SFad.withDx (Z c f) (dZ c f)))
        cell rf) field) 0
      = g 0 * DFad.dx (DFad.dx (evaluate_res coeff (fun _ _ => 0)
          (fun c f => DFad.tagged D.numFields bU f
            (inl (U c f) + inr ![dU1 c f, dU2 c f] : DFad K 2))
          (fun c f => DFad.tagged D.numFields bZ f
            (inl (Z c f) + inr ![dZ1 c f, dZ2 c f] : DFad K 2))
          cell rf) field) 0
        + g 1 * DFad.dx (DFad.dx (evaluate_res coeff (fun _ _ => 0)
          (fun c f => DFad.tagged D.numFields bU f
            (inl (U c f) + inr ![dU1 c f, dU2 c f] : DFad K 2))
          (fun c f => DFad.tagged D.numFields bZ f
            (inl (Z c f) + inr ![dZ1 c f, dZ2 c f] : DFad K 2))
          cell rf) field) 1 := by
  have h := evaluate_res_map coeff (DFad.mapHom (DFad.contract g) D.numFields)
    (fun x => by exact DFad.mapHom_contract_algebraMap g _ x)
    (fun _ _ => 0)
    (fun c f => DFad.tagged D.numFields bU f
      (inl (U c f) + inr ![dU1 c f, dU2 c f] : DFad K 2))
    (fun c f => DFad.tagged D.numFields bZ f
      (inl (Z c f) + inr ![dZ1 c f, dZ2 c f] : DFad K 2))
    (fun _ _ => 0)
    (fun c f => DFad.tagged D.numFields bU f (SFad.withDx (U c f) (dU c f)))
    (fun c f => DFad.tagged D.numFields bZ f (SFad.withDx (Z c f) (dZ c f)))
    cell
    (fun f => by simp only [DFad.mapHom_tagged, DFad.contract_pair, hU])
    (fun f => by simp only [DFad.mapHom_tagged, DFad.contract_pair, hZ])
    rf
  rw [h, DFad.dx_mapHom]
  show snd (DFad.contract g _) = _
  rw [DFad.snd_contract, Fin.sum_univ_two]

theorem evaluate_res_dir_linear (coeff : Coefficient K D.spaceDim) (bU bZ : Bool)
    (U Z dU dU1 dU2 dZ dZ1 dZ2 : FC D K) (a b : K)
    (hU : ∀ c f, dU c f = a * dU1 c f + b * dU2 c f)
    (hZ : ∀ c f, dZ c f = a * dZ1 c f + b * dZ2 c f)
    (cell : Fin D.numCells) (rf field : Fin D.numFields) :
    SFad.dx (DFad.dx (evaluate_res coeff (fun _ _ => 0)
        (fun c f => DFad.tagged D.numFields bU f (SFad.withDx (U c f) (dU c f)))
        (fun c f => DFad.tagged D.numFields bZ f (SFad.withDx (Z c f) (dZ c f)))
        cell rf) field) 0
      = a * SFad.dx (DFad.dx (evaluate_res coeff (fun _ _ => 0)
          (fun c f => DFad.tagged D.numFields bU f (SFad.withDx (U c f) (dU1 c f)))
          (fun c f => DFad.tagged D.numFields bZ f (SFad.withDx (Z c f) (dZ1 c f)))
          cell rf) field) 0
        + b * SFad.dx (DFad.dx (evaluate_res coeff (fun _ _ => 0)
          (fun c f => DFad.tagged D.numFields bU f (SFad.withDx (U c f) (dU2 c f)))
          (fun c f => DFad.tagged D.numFields bZ f (SFad.withDx (Z c f) (dZ2 c f)))
          cell rf) field) 0 := by
  have h := evaluate_res_dir coeff bU bZ U Z dU dU1 dU2 dZ dZ1 dZ2 ![a, b]
    (fun c f => by simpa using hU c f) (fun c f => by simpa using hZ c f) cell rf field
  have h1 := evaluate_res_dir coeff bU bZ U Z dU1 dU1 dU2 dZ1 dZ1 dZ2 ![1, 0]
    (fun c f => by simp) (fun c f => by simp) cell rf field
  have h2 := evaluate_res_dir coeff bU bZ U Z dU2 dU1 dU2 dZ2 dZ1 dZ2 ![0, 1]
    (fun c f => by simp) (fun c f => by simp) cell rf field
  simp only [Matrix.cons_val_zero, Matrix.cons_val_one, Matrix.head_cons, one_mul, zero_mul,
    add_zero, zero_add] at h h1 h2
  rw [h, h1, h2]

theorem applyAdjointHessian_linear_w (coeff : Coefficient K D.spaceDim)
    (ahwv w1 w2 v u z : Vec D) (one two : var) (a b : K) :
    applyAdjointHessian coeff ahwv (fun i => a * w1 i + b * w2 i) v u z one two
      = fun k => a * applyAdjointHessian coeff ahwv w1 v u z one two k
          + b * applyAdjointHessian coeff ahwv w2 v u z one two k := by
  funext k
  simp only [applyAdjointHessian_apply]
  rw [Finset.mul_sum, Finset.mul_sum, ← Finset.sum_add_distrib]
  refine Finset.sum_congr rfl fun cell _ => ?_
  rw [Finset.mul_sum, Finset.mul_sum, ← Finset.sum_add_distrib]
  refine Finset.sum_congr rfl fun field _ => ?_
  by_cases hk : D.dof cell field = k
  · simp only [hk, if_true]
    rw [Finset.mul_sum, Finset.mul_sum, ← Finset.sum_add_distrib]
    refine Finset.sum_congr rfl fun rf _ => ?_
    ring
  · simp only [if_neg hk, mul_zero, add_zero]

theorem applyAdjointHessian_linear_v (coeff : Coefficient K D.spaceDim)
    (ahwv w v1 v2 u z : Vec D) (one two : var) (a b : K) :
    applyAdjointHessian coeff ahwv w (fun i => a * v1 i + b * v2 i) u z one two
      = fun k => a * applyAdjointHessian coeff ahwv w v1 u z one two k
          + b * applyAdjointHessian coeff ahwv w v2 u z one two k := by
  funext k
  simp only [applyAdjointHessian_apply]
  rw [Finset.mul_sum, Finset.mul_sum, ← Finset.sum_add_distrib]
  refine Finset.sum_congr rfl fun cell _ => ?_
  rw [Finset.mul_sum, Finset.mul_sum, ← Finset.sum_add_distrib]
  refine Finset.sum_congr rfl fun field _ => ?_
  by_cases hk : D.dof cell field = k
  · simp only [hk, if_true]
    rw [Finset.mul_sum, Finset.mul_sum, ← Finset.sum_add_distrib]
    refine Finset.sum_congr rfl fun rf _ => ?_
    rw [evaluate_res_dir_linear coeff (decide (two = var.sim)) (decide (two = var.opt))
      (fun c f => u (D.dof c f)) (fun c f => z (D.dof c f))
      (fun c f => if one = var.sim then a * v1 (D.dof c f) + b * v2 (D.dof c f) else 0)
      (fun c f => if one = var.sim then v1 (D.dof c f) else 0)
      (fun c f => if one = var.sim then v2 (D.dof c f) else 0)
      (fun c f => if one = var.opt then a * v1 (D.dof c f) + b * v2 (D.dof c f) else 0)
      (fun c f => if one = var.opt then v1 (D.dof c f) else 0)
      (fun c f => if one = var.opt then v2 (D.dof c f) else 0) a b
      (fun c f => by cases one <;> simp) (fun c f => by cases one <;> simp) cell rf field]
    ring
  · simp only [if_neg hk, mul_zero, add_zero]

/-- C27: for fixed `u` and `z` each of `applyAdjointHessian_11`, `_12`, `_21`, `_22` is linear
in the multiplier `w` and linear in the direction `v`: the result at `a·w1 + b·w2` is `a` times
the result at `w1` plus `b` times the result at `w2`, likewise in `v`, and the result does not
depend on the previous content `ahwv` of the output vector (in either mode). -/
theorem applyAdjointHessian_bilinear (manual_update : Bool) (coeff : Coefficient K D.spaceDim)
    (s : BVPConstraint D) (ahwv ahwv' w w1 w2 v v1 v2 u z : Vec D) (a b : K) :
    ((applyAdjointHessian_11 manual_update coeff s ahwv (fun i => a * w1 i + b * w2 i) v u z).2
        = (fun k => a * (applyAdjointHessian_11 manual_update coeff s ahwv w1 v u z).2 k
            + b * (applyAdjointHessian_11 manual_update coeff s ahwv w2 v u z).2 k)
      ∧ (applyAdjointHessian_11 manual_update coeff s ahwv w (fun i => a * v1 i + b * v2 i)
          u z).2
        = (fun k => a * (applyAdjointHessian_11 manual_update coeff s ahwv w v1 u z).2 k
            + b * (applyAdjointHessian_11 manual_update coeff s ahwv w v2 u z).2 k)
      ∧ (applyAdjointHessian_11 manual_update coeff s ahwv w v u z).2
        = (applyAdjointHessian_11 manual_update coeff s ahwv' w v u z).2)
    ∧ ((applyAdjointHessian_12 manual_update coeff s ahwv (fun i => a * w1 i + b * w2 i) v u z).2
        = (fun k => a * (applyAdjointHessian_12 manual_update coeff s ahwv w1 v u z).2 k
            + b * (applyAdjointHessian_12 manual_update coeff s ahwv w2 v u z).2 k)
      ∧ (applyAdjointHessian_12 manual_update coeff s ahwv w (fun i => a * v1 i + b * v2 i)
          u z).2
        = (fun k => a * (applyAdjointHessian_12 manual_update coeff s ahwv w v1 u z).2 k
            + b * (applyAdjointHessian_12 manual_update coeff s ahwv w v2 u z).2 k)
      ∧ (applyAdjointHessian_12 manual_update coeff s ahwv w v u z).2
        = (applyAdjointHessian_12 manual_update coeff s ahwv' w v u z).2)
    ∧ ((applyAdjointHessian_21 manual_update coeff s ahwv (fun i => a * w1 i + b * w2 i) v u z).2
        = (fun k => a * (applyAdjointHessian_21 manual_update coeff s ahwv w1 v u z).2 k
            + b * (applyAdjointHessian_21 manual_update coeff s ahwv w2 v u z).2 k)
      ∧ (applyAdjointHessian_21 manual_update coeff s ahwv w (fun i => a * v1 i + b * v2 i)
          u z).2
        = (fun k => a * (applyAdjointHessian_21 manual_update coeff s ahwv w v1 u z).2 k
            + b * (applyAdjointHessian_21 manual_update coeff s ahwv w v2 u z).2 k)
      ∧ (applyAdjointHessian_21 manual_update coeff s ahwv w v u z).2
        = (applyAdjointHessian_21 manual_update coeff s ahwv' w v u z).2)
    ∧ ((applyAdjointHessian_22 manual_update coeff s ahwv (fun i => a * w1 i + b * w2 i) v u z).2
        = (fun k => a * (applyAdjointHessian_22 manual_update coeff s ahwv w1 v u z).2 k
            + b * (applyAdjointHessian_22 manual_update coeff s ahwv w2 v u z).2 k)
      ∧ (applyAdjointHessian_22 manual_update coeff s ahwv w (fun i => a * v1 i + b * v2 i)
          u z).2
        = (fun k => a * (applyAdjointHessian_22 manual_update coeff s ahwv w v1 u z).2 k
            + b * (applyAdjointHessian_22 manual_update coeff s ahwv w v2 u z).2 k)
      ∧ (applyAdjointHessian_22 manual_update coeff s ahwv w v u z).2
        = (applyAdjointHessian_22 manual_update coeff s ahwv' w v u z).2) :=
  ⟨⟨applyAdjointHessian_linear_w coeff ahwv w1 w2 v u z var.sim var.sim a b,
      applyAdjointHessian_linear_v coeff ahwv w v1 v2 u z var.sim var.sim a b, rfl⟩,
    ⟨applyAdjointHessian_linear_w coeff ahwv w1 w2 v u z var.sim var.opt a b,
      applyAdjointHessian_linear_v coeff ahwv w v1 v2 u z var.sim var.opt a b, rfl⟩,
    ⟨applyAdjointHessian_linear_w coeff ahwv w1 w2 v u z var.opt var.sim a b,
      applyAdjointHessian_linear_v coeff ahwv w v1 v2 u z var.opt var.sim a b, rfl⟩,
    ⟨applyAdjointHessian_linear_w coeff ahwv w1 w2 v u z var.opt var.opt a b,
      applyAdjointHessian_linear_v coeff ahwv w v1 v2 u z var.opt var.opt a b, rfl⟩⟩

end BVPConstraint
end ROL

namespace ROL

/-! ### Outcomes of loops over unchecked accesses -/

theorem readAt_of_le {K : Type} (v : List K) (i : Nat) (h : v.length ≤ i) :
    readAt v i = Outcome.undefined := by
  simp [readAt, List.getElem?_eq_none h]

theorem writeAt_of_le {K : Type} (v : List K) (i : Nat) (x : K) (h : v.length ≤ i) :
    writeAt v i x = Outcome.undefined := by
  simp [writeAt, Nat.not_lt.mpr h]

theorem readAt_cases {K : Type} (v : List K) (i : Nat) :
    readAt v i = Outcome.undefined ∨ ∃ x, readAt v i = Outcome.returned x := by
  unfold readAt
  cases v[i]? with
  | none => exact Or.inl rfl
  | some x => exact Or.inr ⟨x, rfl⟩

theorem writeAt_cases {K : Type} (v : List K) (i : Nat) (x : K) :
    writeAt v i x = Outcome.undefined
      ∨ ∃ l, writeAt v i x = Outcome.returned l ∧ l.length = v.length := by
  unfold writeAt
  split
  · exact Or.inr ⟨_, rfl, List.length_set _ _ _⟩
  · exact Or.inl rfl

theorem foldl_inv {ι σ : Type} (l : List ι) (I : σ → Prop) (f : σ → ι → σ)
    (h : ∀ i a, I a → I (f a i)) (a : σ) (ha : I a) : I (l.foldl f a) := by
  induction l generalizing a with
  | nil => exact ha
  | cons i l ih => exact ih _ (h i a ha)

theorem forLoop_undefined_of_hit {α : Type} (n : Nat)
    (body : Fin n → Outcome α → Outcome α) (I : Outcome α → Prop)
    (hI : ∀ i st, I st → I (body i st)) (i0 : Fin n)
    (hbad : ∀ st, I st → body i0 st = Outcome.undefined)
    (hundef : ∀ i, body i Outcome.undefined = Outcome.undefined)
    (st0 : Outcome α) (h0 : I st0) : forLoop n body st0 = Outcome.undefined := by
  unfold forLoop
  obtain ⟨l1, l2, hl⟩ := List.append_of_mem (List.mem_finRange i0)
  rw [hl, List.foldl_append, List.foldl_cons]
  rw [hbad _ (foldl_inv l1 I (fun s i => body i s) (fun i a => hI i a) st0 h0)]
  exact foldl_inv l2 (fun st => st = Outcome.undefined) (fun s i => body i s)
    (fun i a ha => by rw [ha]; exact hundef i) _ rfl

section bindLoops
variable {α : Type}

theorem forLoop_bind_returns (n : Nat) (step : Fin n → α → Outcome α) (P : α → Prop)
    (h : ∀ i a, P a → ∃ b, step i a = Outcome.returned b ∧ P b)
    (st : Outcome α) (hst : ∃ a, st = Outcome.returned a ∧ P a) :
    ∃ b, forLoop n (fun i st => st.bind (step i)) st = Outcome.returned b ∧ P b := by
  refine forLoop_inv n (fun st : Outcome α => ∃ a, st = Outcome.returned a ∧ P a) _ ?_ st hst
  rintro i _ ⟨a, rfl, ha⟩
  exact h i a ha

theorem forLoop_bind_safe (n : Nat) (step : Fin n → α → Outcome α) (P : α → Prop)
    (h : ∀ i a, P a → step i a = Outcome.undefined
      ∨ ∃ b, step i a = Outcome.returned b ∧ P b)
    (st : Outcome α) (hst : st = Outcome.undefined ∨ ∃ a, st = Outcome.returned a ∧ P a) :
    forLoop n (fun i st => st.bind (step i)) st = Outcome.undefined
      ∨ ∃ b, forLoop n (fun i st => st.bind (step i)) st = Outcome.returned b ∧ P b := by
  refine forLoop_inv n (fun st : Outcome α =>
    st = Outcome.undefined ∨ ∃ a, st = Outcome.returned a ∧ P a) _ ?_ st hst
  rintro i _ (rfl | ⟨a, rfl, ha⟩)
  · exact Or.inl rfl
  · exact h i a ha

theorem forLoop_bind_undefined (n : Nat) (step : Fin n → α → Outcome α) (P : α → Prop)
    (h : ∀ i a, P a → step i a = Outcome.undefined
      ∨ ∃ b, step i a = Outcome.returned b ∧ P b)
    (i0 : Fin n) (hbad : ∀ a, P a → step i0 a = Outcome.undefined)
    (st : Outcome α) (hst : st = Outcome.undefined ∨ ∃ a, st = Outcome.returned a ∧ P a) :
    forLoop n (fun i st => st.bind (step i)) st = Outcome.undefined := by
  refine forLoop_undefined_of_hit n _ (fun st : Outcome α =>
    st = Outcome.undefined ∨ ∃ a, st = Outcome.returned a ∧ P a) ?_ i0 ?_ ?_ st hst
  · rintro i _ (rfl | ⟨a, rfl, ha⟩)
    · exact Or.inl rfl
    · exact h i a ha
  · rintro _ (rfl | ⟨a, rfl, ha⟩)
    · rfl
    · exact hbad a ha
  · intro i
    rfl

theorem forLoop2_bind_returns (n m : Nat) (step : Fin n → Fin m → α → Outcome α)
    (P : α → Prop) (h : ∀ i j a, P a → ∃ b, step i j a = Outcome.returned b ∧ P b)
    (st : Outcome α) (hst : ∃ a, st = Outcome.returned a ∧ P a) :
    ∃ b, forLoop n (fun i st => forLoop m (fun j st => st.bind (step i j)) st) st
      = Outcome.returned b ∧ P b := by
  refine forLoop_inv n (fun st : Outcome α => ∃ a, st = Outcome.returned a ∧ P a) _ ?_ st hst
  intro i st hst
  exact forLoop_bind_returns m (step i) P (h i) st hst

theorem forLoop2_bind_safe (n m : Nat) (step : Fin n → Fin m → α → Outcome α)
    (P : α → Prop) (h : ∀ i j a, P a → step i j a = Outcome.undefined
      ∨ ∃ b, step i j a = Outcome.returned b ∧ P b)
    (st : Outcome α) (hst : st = Outcome.undefined ∨ ∃ a, st = Outcome.returned a ∧ P a) :
    forLoop n (fun i st => forLoop m (fun j st => st.bind (step i j)) st) st
        = Outcome.undefined
      ∨ ∃ b, forLoop n (fun i st => forLoop m (fun j st => st.bind (step i j)) st) st
        = Outcome.returned b ∧ P b := by
  refine forLoop_inv n (fun st : Outcome α =>
    st = Outcome.undefined ∨ ∃ a, st = Outcome.returned a ∧ P a) _ ?_ st hst
  intro i st hst
  exact forLoop_bind_safe m (step i) P (h i) st hst

theorem forLoop2_bind_undefined (n m : Nat) (step : Fin n → Fin m → α → Outcome α)
    (P : α → Prop) (h : ∀ i j a, P a → step i j a = Outcome.undefined
      ∨ ∃ b, step i j a = Outcome.returned b ∧ P b)
    (i0 : Fin n) (j0 : Fin m) (hbad : ∀ a, P a → step i0 j0 a = Outcome.undefined)
    (st : Outcome α) (hst : st = Outcome.undefined ∨ ∃ a, st = Outcome.returned a ∧ P a) :
    forLoop n (fun i st => forLoop m (fun j st => st.bind (step i j)) st) st
      = Outcome.undefined := by
  refine forLoop_undefined_of_hit n _ (fun st : Outcome α =>
    st = Outcome.undefined ∨ ∃ a, st = Outcome.returned a ∧ P a) ?_ i0 ?_ ?_ st hst
  · intro i st hst
    exact forLoop_bind_safe m (step i) P (h i) st hst
  · intro st hst
    exact forLoop_bind_undefined m (step i0) P (h i0) j0 hbad st hst
  · intro i
    exact forLoop_inv m (fun st : Outcome α => st = Outcome.undefined) _
      (fun j st hst => by rw [hst]; rfl) _ rfl

theorem not_reported_of_safe {β : Type} (x : Outcome β)
    (h : x = Outcome.undefined ∨ ∃ b, x = Outcome.returned b) (what : String) :
    x ≠ Outcome.reported what := by
  rcases h with rfl | ⟨b, rfl⟩ <;> simp

end bindLoops

theorem Discretization.dof_hits {K : Type} (D : Discretization K) (hc : 1 ≤ D.numCells)
    (i : Nat) (hi : i < D.nDoF) : ∃ cell field, (D.dof cell field).val = i := by
  rcases Nat.eq_zero_or_pos D.numFields with hf | hf
  · exfalso
    unfold Discretization.nDoF at hi
    rw [hf] at hi
    have : ((D.numCells : Int) * (((0 : Nat) : Int) - 1) + 1).toNat = 0 := by
      apply Int.toNat_eq_zero.mpr
      have : (1 : Int) ≤ D.numCells := by exact_mod_cast hc
      push_cast
      linarith
    omega
  · have hn : D.nDoF = D.numCells * (D.numFields - 1) + 1 := by
      unfold Discretization.nDoF
      have e : ((D.numCells : Int) * ((D.numFields : Int) - 1) + 1)
          = ((D.numCells * (D.numFields - 1) + 1 : Nat) : Int) := by
        have e2 : D.numFields = (D.numFields - 1) + 1 := by omega
        generalize D.numFields - 1 = b at e2
        rw [e2]
        push_cast
        ring
      rw [e, Int.toNat_ofNat]
    obtain ⟨c, f, hc', hf', e⟩ := index_onto D.numCells (D.numFields - 1) i hc
      (by omega)
    exact ⟨⟨c, hc'⟩, ⟨f, by omega⟩, e⟩

end ROL

namespace ROL

section accessLoops
variable {K : Type}

theorem accum_safe [Add K] (l : List K) (i : Nat) (x : K) :
    ((readAt l i).bind fun a => writeAt l i (a + x)) = Outcome.undefined
      ∨ ∃ l', ((readAt l i).bind fun a => writeAt l i (a + x)) = Outcome.returned l'
          ∧ l'.length = l.length := by
  rcases readAt_cases l i with h | ⟨a, h⟩
  · simp [Outcome.bind, h]
  · simp only [Outcome.bind, h]
    exact writeAt_cases l i (a + x)

theorem accum_of_le [Add K] (l : List K) (i : Nat) (x : K) (h : l.length ≤ i) :
    ((readAt l i).bind fun a => writeAt l i (a + x)) = Outcome.undefined := by
  simp [Outcome.bind, readAt_of_le l i h]

theorem accum_of_lt [Add K] (l : List K) (i : Nat) (x : K) (h : i < l.length) :
    ∃ l', ((readAt l i).bind fun a => writeAt l i (a + x)) = Outcome.returned l'
      ∧ l'.length = l.length := by
  rcases accum_safe l i x with h1 | h1
  · rcases readAt_cases l i with h2 | ⟨a, h2⟩
    · simp [readAt, List.getElem?_eq_getElem h] at h2
    · simp [Outcome.bind, h2, writeAt, h] at h1
  · exact h1

theorem readLoop_safe {β : Type} (m : Nat) (w : List K) (idx : Fin m → Nat)
    (k : Fin m → β → K → β) (st : Outcome β)
    (hst : st = Outcome.undefined ∨ ∃ a, st = Outcome.returned a) :
    forLoop m (fun j st => st.bind fun acc => (readAt w (idx j)).bind fun x =>
        Outcome.returned (k j acc x)) st = Outcome.undefined
      ∨ ∃ b, forLoop m (fun j st => st.bind fun acc => (readAt w (idx j)).bind fun x =>
        Outcome.returned (k j acc x)) st = Outcome.returned b := by
  rcases forLoop_bind_safe m
    (fun j acc => (readAt w (idx j)).bind fun x => Outcome.returned (k j acc x))
    (fun _ => True)
    (fun j acc _ => by rcases readAt_cases w (idx j) with h | ⟨x, h⟩ <;> simp [Outcome.bind, h])
    st (by
      rcases hst with h | ⟨a, h⟩
      · exact Or.inl h
      · exact Or.inr ⟨a, h, trivial⟩) with h | ⟨b, h, _⟩
  · exact Or.inl h
  · exact Or.inr ⟨b, h⟩

theorem readLoop_of_lt {β : Type} (m : Nat) (w : List K) (idx : Fin m → Nat)
    (k : Fin m → β → K → β) (a0 : β) (hw : ∀ j, idx j < w.length) :
    ∃ b, forLoop m (fun j st => st.bind fun acc => (readAt w (idx j)).bind fun x =>
        Outcome.returned (k j acc x)) (Outcome.returned a0) = Outcome.returned b := by
  obtain ⟨b, h, _⟩ := forLoop_bind_returns m
    (fun j acc => (readAt w (idx j)).bind fun x => Outcome.returned (k j acc x))
    (fun _ => True)
    (fun j acc _ => by
      rcases readAt_cases w (idx j) with h | ⟨x, h⟩
      · simp [readAt, List.getElem?_eq_getElem (hw j)] at h
      · simp [Outcome.bind, h])
    (Outcome.returned a0) ⟨a0, rfl, trivial⟩
  exact ⟨b, h⟩

theorem readLoop_of_le {β : Type} (m : Nat) (w : List K) (idx : Fin m → Nat)
    (k : Fin m → β → K → β) (j0 : Fin m) (hw : w.length ≤ idx j0) (st : Outcome β)
    (hst : st = Outcome.undefined ∨ ∃ a, st = Outcome.returned a) :
    forLoop m (fun j st => st.bind fun acc => (readAt w (idx j)).bind fun x =>
        Outcome.returned (k j acc x)) st = Outcome.undefined :=
  forLoop_bind_undefined m
    (fun j acc => (readAt w (idx j)).bind fun x => Outcome.returned (k j acc x))
    (fun _ => True)
    (fun j acc _ => by rcases readAt_cases w (idx j) with h | ⟨x, h⟩ <;> simp [Outcome.bind, h])
    j0 (fun acc _ => by simp [Outcome.bind, readAt_of_le w _ hw])
    st (by
      rcases hst with h | ⟨a, h⟩
      · exact Or.inl h
      · exact Or.inr ⟨a, h, trivial⟩)

theorem accumLoop_safe [Add K] (m : Nat) (idx : Fin m → Nat) (g : Fin m → K) (len : Nat)
    (st : Outcome (List K))
    (hst : st = Outcome.undefined ∨ ∃ l, st = Outcome.returned l ∧ l.length = len) :
    forLoop m (fun j st => st.bind fun l => (readAt l (idx j)).bind fun a =>
        writeAt l (idx j) (a + g j)) st = Outcome.undefined
      ∨ ∃ l', forLoop m (fun j st => st.bind fun l => (readAt l (idx j)).bind fun a =>
        writeAt l (idx j) (a + g j)) st = Outcome.returned l' ∧ l'.length = len :=
  forLoop_bind_safe m (fun j l => (readAt l (idx j)).bind fun a => writeAt l (idx j) (a + g j))
    (fun l => l.length = len)
    (fun j l hl => by
      rcases accum_safe l (idx j) (g j) with h | ⟨l', h, hl'⟩
      · exact Or.inl h
      · exact Or.inr ⟨l', h, hl'.trans hl⟩)
    st hst

theorem accumLoop_of_lt [Add K] (m : Nat) (idx : Fin m → Nat) (g : Fin m → K) (len : Nat)
    (hidx : ∀ j, idx j < len) (st : Outcome (List K))
    (hst : ∃ l, st = Outcome.returned l ∧ l.length = len) :
    ∃ l', forLoop m (fun j st => st.bind fun l => (readAt l (idx j)).bind fun a =>
        writeAt l (idx j) (a + g j)) st = Outcome.returned l' ∧ l'.length = len :=
  forLoop_bind_returns m
    (fun j l => (readAt l (idx j)).bind fun a => writeAt l (idx j) (a + g j))
    (fun l => l.length = len)
    (fun j l hl => by
      obtain ⟨l', h, hl'⟩ := accum_of_lt l (idx j) (g j) (hl ▸ hidx j)
      exact ⟨l', h, hl'.trans hl⟩)
    st hst

theorem accumLoop_of_le [Add K] (m : Nat) (idx : Fin m → Nat) (g : Fin m → K) (len : Nat)
    (j0 : Fin m) (hidx : len ≤ idx j0) (st : Outcome (List K))
    (hst : st = Outcome.undefined ∨ ∃ l, st = Outcome.returned l ∧ l.length = len) :
    forLoop m (fun j st => st.bind fun l => (readAt l (idx j)).bind fun a =>
        writeAt l (idx j) (a + g j)) st = Outcome.undefined :=
  forLoop_bind_undefined m
    (fun j l => (readAt l (idx j)).bind fun a => writeAt l (idx j) (a + g j))
    (fun l => l.length = len)
    (fun j l hl => by
      rcases accum_safe l (idx j) (g j) with h | ⟨l', h, hl'⟩
      · exact Or.inl h
      · exact Or.inr ⟨l', h, hl'.trans hl⟩)
    j0 (fun l hl => accum_of_le l _ _ (hl ▸ hidx)) st hst

theorem accumLoop2_safe [Add K] (n m : Nat) (idx : Fin n → Fin m → Nat)
    (g : Fin n → Fin m → K) (len : Nat) (st : Outcome (List K))
    (hst : st = Outcome.undefined ∨ ∃ l, st = Outcome.returned l ∧ l.length = len) :
    forLoop n (fun i st => forLoop m (fun j st => st.bind fun l =>
        (readAt l (idx i j)).bind fun a => writeAt l (idx i j) (a + g i j)) st) st
        = Outcome.undefined
      ∨ ∃ l', forLoop n (fun i st => forLoop m (fun j st => st.bind fun l =>
        (readAt l (idx i j)).bind fun a => writeAt l (idx i j) (a + g i j)) st) st
        = Outcome.returned l' ∧ l'.length = len :=
  forLoop_inv n (fun st : Outcome (List K) =>
      st = Outcome.undefined ∨ ∃ l, st = Outcome.returned l ∧ l.length = len) _
    (fun i st hst => accumLoop_safe m (idx i) (g i) len st hst) st hst

theorem accumLoop2_of_lt [Add K] (n m : Nat) (idx : Fin n → Fin m → Nat)
    (g : Fin n → Fin m → K) (len : Nat) (hidx : ∀ i j, idx i j < len)
    (st : Outcome (List K)) (hst : ∃ l, st = Outcome.returned l ∧ l.length = len) :
    ∃ l', forLoop n (fun i st => forLoop m (fun j st => st.bind fun l =>
        (readAt l (idx i j)).bind fun a => writeAt l (idx i j) (a + g i j)) st) st
        = Outcome.returned l' ∧ l'.length = len :=
  forLoop_inv n (fun st : Outcome (List K) => ∃ l, st = Outcome.returned l ∧ l.length = len) _
    (fun i st hst => accumLoop_of_lt m (idx i) (g i) len (hidx i) st hst) st hst

theorem accumLoop2_of_le [Add K] (n m : Nat) (idx : Fin n → Fin m → Nat)
    (g : Fin n → Fin m → K) (len : Nat) (i0 : Fin n) (j0 : Fin m) (hidx : len ≤ idx i0 j0)
    (st : Outcome (List K))
    (hst : st = Outcome.undefined ∨ ∃ l, st = Outcome.returned l ∧ l.length = len) :
    forLoop n (fun i st => forLoop m (fun j st => st.bind fun l =>
        (readAt l (idx i j)).bind fun a => writeAt l (idx i j) (a + g i j)) st) st
        = Outcome.undefined :=
  forLoop_undefined_of_hit n _ (fun st : Outcome (List K) =>
      st = Outcome.undefined ∨ ∃ l, st = Outcome.returned l ∧ l.length = len)
    (fun i st hst => accumLoop_safe m (idx i) (g i) len st hst) i0
    (fun st hst => accumLoop_of_le m (idx i0) (g i0) len j0 hidx st hst)
    (fun i => forLoop_inv m (fun st : Outcome (List K) => st = Outcome.undefined) _
      (fun j st hst => by rw [hst]; rfl) _ rfl)
    st hst

theorem read3_safe {β : Type} (l1 l2 l3 : List K) (i : Nat) (k : K → K → K → β) :
    ((readAt l1 i).bind fun a => (readAt l2 i).bind fun b => (readAt l3 i).bind fun c =>
        Outcome.returned (k a b c)) = Outcome.undefined
      ∨ ∃ x, ((readAt l1 i).bind fun a => (readAt l2 i).bind fun b =>
        (readAt l3 i).bind fun c => Outcome.returned (k a b c)) = Outcome.returned x := by
  rcases readAt_cases l1 i with h1 | ⟨a, h1⟩ <;> rcases readAt_cases l2 i with h2 | ⟨b, h2⟩ <;>
    rcases readAt_cases l3 i with h3 | ⟨c, h3⟩ <;> simp [Outcome.bind, h1, h2, h3]

theorem read3_of_lt {β : Type} (l1 l2 l3 : List K) (i : Nat) (k : K → K → K → β)
    (h1 : i < l1.length) (h2 : i < l2.length) (h3 : i < l3.length) :
    ∃ x, ((readAt l1 i).bind fun a => (readAt l2 i).bind fun b =>
        (readAt l3 i).bind fun c => Outcome.returned (k a b c)) = Outcome.returned x := by
  simp [readAt, List.getElem?_eq_getElem h1, List.getElem?_eq_getElem h2,
    List.getElem?_eq_getElem h3, Outcome.bind]

theorem read3_of_le {β : Type} (l1 l2 l3 : List K) (i : Nat) (k : K → K → K → β)
    (h : l1.length ≤ i ∨ l2.length ≤ i ∨ l3.length ≤ i) :
    ((readAt l1 i).bind fun a => (readAt l2 i).bind fun b => (readAt l3 i).bind fun c =>
        Outcome.returned (k a b c)) = Outcome.undefined := by
  rcases readAt_cases l1 i with h1 | ⟨a, h1⟩
  · simp [Outcome.bind, h1]
  rcases readAt_cases l2 i with h2 | ⟨b, h2⟩
  · simp [Outcome.bind, h1, h2]
  rcases readAt_cases l3 i with h3 | ⟨c, h3⟩
  · simp [Outcome.bind, h1, h2, h3]
  exfalso
  rcases h with h | h | h
  · rw [readAt_of_le _ _ h] at h1
    cases h1
  · rw [readAt_of_le _ _ h] at h2
    cases h2
  · rw [readAt_of_le _ _ h] at h3
    cases h3

theorem read3Loop2_safe {β : Type} (n m : Nat) (l1 l2 l3 : List K) (idx : Fin n → Fin m → Nat)
    (k : Fin n → Fin m → β → K → K → K → β) (b0 : β) :
    forLoop n (fun i st => forLoop m (fun j st => st.bind fun fc =>
        (readAt l1 (idx i j)).bind fun a => (readAt l2 (idx i j)).bind fun b =>
        (readAt l3 (idx i j)).bind fun c => Outcome.returned (k i j fc a b c)) st)
        (Outcome.returned b0) = Outcome.undefined
      ∨ ∃ x, forLoop n (fun i st => forLoop m (fun j st => st.bind fun fc =>
        (readAt l1 (idx i j)).bind fun a => (readAt l2 (idx i j)).bind fun b =>
        (readAt l3 (idx i j)).bind fun c => Outcome.returned (k i j fc a b c)) st)
        (Outcome.returned b0) = Outcome.returned x := by
  rcases forLoop2_bind_safe n m
    (fun i j fc => (readAt l1 (idx i j)).bind fun a => (readAt l2 (idx i j)).bind fun b =>
        (readAt l3 (idx i j)).bind fun c => Outcome.returned (k i j fc a b c))
    (fun _ => True)
    (fun i j fc _ => by
      rcases read3_safe l1 l2 l3 (idx i j) (k i j fc) with h | ⟨x, h⟩
      · exact Or.inl h
      · exact Or.inr ⟨x, h, trivial⟩)
    (Outcome.returned b0) (Or.inr ⟨b0, rfl, trivial⟩) with h | ⟨x, h, _⟩
  · exact Or.inl h
  · exact Or.inr ⟨x, h⟩

theorem read3Loop2_of_lt {β : Type} (n m : Nat) (l1 l2 l3 : List K)
    (idx : Fin n → Fin m → Nat) (k : Fin n → Fin m → β → K → K → K → β) (b0 : β)
    (h1 : ∀ i j, idx i j < l1.length) (h2 : ∀ i j, idx i j < l2.length)
    (h3 : ∀ i j, idx i j < l3.length) :
    ∃ x, forLoop n (fun i st => forLoop m (fun j st => st.bind fun fc =>
        (readAt l1 (idx i j)).bind fun a => (readAt l2 (idx i j)).bind fun b =>
        (readAt l3 (idx i j)).bind fun c => Outcome.returned (k i j fc a b c)) st)
        (Outcome.returned b0) = Outcome.returned x := by
  obtain ⟨x, h, _⟩ := forLoop2_bind_returns n m
    (fun i j fc => (readAt l1 (idx i j)).bind fun a => (readAt l2 (idx i j)).bind fun b =>
        (readAt l3 (idx i j)).bind fun c => Outcome.returned (k i j fc a b c))
    (fun _ => True)
    (fun i j fc _ => by
      obtain ⟨x, h⟩ := read3_of_lt l1 l2 l3 (idx i j) (k i j fc) (h1 i j) (h2 i j) (h3 i j)
      exact ⟨x, h, trivial⟩)
    (Outcome.returned b0) ⟨b0, rfl, trivial⟩
  exact ⟨x, h⟩

theorem read3Loop2_of_le {β : Type} (n m : Nat) (l1 l2 l3 : List K)
    (idx : Fin n → Fin m → Nat) (k : Fin n → Fin m → β → K → K → K → β) (b0 : β)
    (i0 : Fin n) (j0 : Fin m)
    (h : l1.length ≤ idx i0 j0 ∨ l2.length ≤ idx i0 j0 ∨ l3.length ≤ idx i0 j0) :
    forLoop n (fun i st => forLoop m (fun j st => st.bind fun fc =>
        (readAt l1 (idx i j)).bind fun a => (readAt l2 (idx i j)).bind fun b =>
        (readAt l3 (idx i j)).bind fun c => Outcome.returned (k i j fc a b c)) st)
        (Outcome.returned b0) = Outcome.undefined :=
  forLoop2_bind_undefined n m
    (fun i j fc => (readAt l1 (idx i j)).bind fun a => (readAt l2 (idx i j)).bind fun b =>
        (readAt l3 (idx i j)).bind fun c => Outcome.returned (k i j fc a b c))
    (fun _ => True)
    (fun i j fc _ => by
      rcases read3_safe l1 l2 l3 (idx i j) (k i j fc) with h | ⟨x, h⟩
      · exact Or.inl h
      · exact Or.inr ⟨x, h, trivial⟩)
    i0 j0 (fun fc _ => read3_of_le l1 l2 l3 (idx i0 j0) (k i0 j0 fc) h)
    (Outcome.returned b0) (Or.inr ⟨b0, rfl, trivial⟩)

theorem bind_returned {α β : Type} (a : α) (f : α → Outcome β) :
    (Outcome.returned a).bind f = f a := rfl

theorem bind_undefined {α β : Type} (f : α → Outcome β) :
    (Outcome.undefined : Outcome α).bind f = Outcome.undefined := rfl

theorem bind_pair_safe {σ : Type} (Y : Outcome (List K)) (s : σ) (len : Nat)
    (hY : Y = Outcome.undefined ∨ ∃ out, Y = Outcome.returned out ∧ out.length = len) :
    (Y.bind fun out => Outcome.returned (s, out)) = Outcome.undefined
      ∨ ∃ r, (Y.bind fun out => Outcome.returned (s, out)) = Outcome.returned r
          ∧ r.2.length = len := by
  rcases hY with rfl | ⟨out, rfl, hl⟩
  · exact Or.inl rfl
  · exact Or.inr ⟨_, rfl, hl⟩

theorem bind_pair_of_le {σ : Type} (Y : Outcome (List K)) (s : σ) (len : Nat)
    (hY : ∃ out, Y = Outcome.returned out ∧ out.length = len) :
    ∃ r, (Y.bind fun out => Outcome.returned (s, out)) = Outcome.returned r
      ∧ r.2.length = len := by
  obtain ⟨out, rfl, hl⟩ := hY
  exact ⟨_, rfl, hl⟩

theorem bind_pair_of_lt {σ : Type} (Y : Outcome (List K)) (s : σ)
    (hY : Y = Outcome.undefined) :
    (Y.bind fun out => Outcome.returned (s, out)) = Outcome.undefined := by
  rw [hY, bind_undefined]

end accessLoops
end ROL

namespace ROL
namespace BVPConstraint

section rawLoopsPlain
variable {K : Type} {D : Discretization K}

theorem mat2vecRaw_of_lt (v : List K) (m : Matrix (Fin D.nDoF) (Fin 1) K)
    (hv : v.length < D.nDoF) : mat2vecRaw v m = Outcome.undefined :=
  forLoop_bind_undefined D.nDoF
    (fun i (l : List K) => writeAt l i.val (m i 0))
    (fun l => l.length = v.length)
    (fun i l hl => by
      rcases writeAt_cases l i.val (m i 0) with h | ⟨l', h, hl'⟩
      · exact Or.inl h
      · exact Or.inr ⟨l', h, hl'.trans hl⟩)
    ⟨v.length, hv⟩
    (fun l hl => writeAt_of_le l _ _ (le_of_eq hl))
    (Outcome.returned v) (Or.inr ⟨v, rfl, rfl⟩)

theorem mat2vecRaw_safe (v : List K) (m : Matrix (Fin D.nDoF) (Fin 1) K) :
    mat2vecRaw v m = Outcome.undefined
      ∨ ∃ v', mat2vecRaw v m = Outcome.returned v' ∧ v'.length = v.length := by
  rcases Nat.lt_or_ge v.length D.nDoF with h | h
  · exact Or.inl (mat2vecRaw_of_lt v m h)
  · exact Or.inr (mat2vecRaw_of_le v m h)

end rawLoopsPlain

section rawLoops
variable {K : Type} [CommRing K] {D : Discretization K}

theorem gatherRaw_safe {S : Type} [CommRing S] [Algebra K S] (fc : FC D S) (v : List K) :
    gatherRaw fc v = Outcome.undefined ∨ ∃ fc', gatherRaw fc v = Outcome.returned fc' := by
  rcases forLoop2_bind_safe D.numCells D.numFields
    (fun cell field (fc : FC D S) => (readAt v (D.dof cell field).val).bind fun x =>
      Outcome.returned
        (Function.update fc cell (Function.update (fc cell) field (algebraMap K S x))))
    (fun _ => True)
    (fun cell field fc _ => by
      rcases readAt_cases v (D.dof cell field).val with h | ⟨x, h⟩ <;> simp [Outcome.bind, h])
    (Outcome.returned fc) (Or.inr ⟨fc, rfl, trivial⟩) with h | ⟨b, h, _⟩
  · exact Or.inl h
  · exact Or.inr ⟨b, h⟩

theorem gatherRaw_returns {S : Type} [CommRing S] [Algebra K S] (fc : FC D S) (v : List K)
    (hv : D.nDoF ≤ v.length) : ∃ fc', gatherRaw fc v = Outcome.returned fc' := by
  obtain ⟨b, h, _⟩ := forLoop2_bind_returns D.numCells D.numFields
    (fun cell field (fc : FC D S) => (readAt v (D.dof cell field).val).bind fun x =>
      Outcome.returned
        (Function.update fc cell (Function.update (fc cell) field (algebraMap K S x))))
    (fun _ => True)
    (fun cell field fc _ => by
      have h1 := readAt_of_lt v (D.dof cell field).val
        (lt_of_lt_of_le (D.dof cell field).isLt hv)
      simp [Outcome.bind, h1])
    (Outcome.returned fc) ⟨fc, rfl, trivial⟩
  exact ⟨b, h⟩

theorem gatherRaw_of_lt {S : Type} [CommRing S] [Algebra K S] (fc : FC D S) (v : List K)
    (hc : 1 ≤ D.numCells) (hv : v.length < D.nDoF) : gatherRaw fc v = Outcome.undefined := by
  obtain ⟨cell0, field0, h0⟩ := D.dof_hits hc v.length hv
  exact forLoop2_bind_undefined D.numCells D.numFields
    (fun cell field (fc : FC D S) => (readAt v (D.dof cell field).val).bind fun x =>
      Outcome.returned
        (Function.update fc cell (Function.update (fc cell) field (algebraMap K S x))))
    (fun _ => True)
    (fun cell field fc _ => by
      rcases readAt_cases v (D.dof cell field).val with h | ⟨x, h⟩ <;> simp [Outcome.bind, h])
    cell0 field0
    (fun fc _ => by simp [Outcome.bind, readAt_of_le v _ (le_of_eq h0.symm)])
    (Outcome.returned fc) (Or.inr ⟨fc, rfl, trivial⟩)

theorem vec2matRaw_of_lt (m : Matrix (Fin D.nDoF) (Fin 1) K) (v : List K)
    (hv : v.length < D.nDoF) : vec2matRaw m v = Outcome.undefined :=
  forLoop_bind_undefined D.nDoF
    (fun i (m : Matrix (Fin D.nDoF) (Fin 1) K) => (readAt v i.val).bind fun x =>
      Outcome.returned (Function.update m i (Function.update (m i) 0 x)))
    (fun _ => True)
    (fun i m _ => by
      rcases readAt_cases v i.val with h | ⟨x, h⟩ <;> simp [Outcome.bind, h])
    ⟨v.length, hv⟩
    (fun m _ => by simp [Outcome.bind, readAt_of_le v _ (le_refl _)])
    (Outcome.returned m) (Or.inr ⟨m, rfl, trivial⟩)

theorem vec2matRaw_safe (m : Matrix (Fin D.nDoF) (Fin 1) K) (v : List K) :
    vec2matRaw m v = Outcome.undefined ∨ ∃ m', vec2matRaw m v = Outcome.returned m' := by
  rcases Nat.lt_or_ge v.length D.nDoF with h | h
  · exact Or.inl (vec2matRaw_of_lt m v h)
  · exact Or.inr (vec2matRaw_of_le m v h)

theorem applyJacRaw_of_lt (s : BVPConstraint D) (jv v : List K) (comp : var)
    (transpose : Bool) (h : jv.length < D.nDoF ∨ v.length < D.nDoF) :
    applyJacRaw s jv v comp transpose = Outcome.undefined := by
  have hsafe : ∀ (row col : Fin D.nDoF) (l : List K), l.length = jv.length →
      ((readAt l row.val).bind fun a => (readAt v col.val).bind fun b =>
          if transpose then
            writeAt l row.val (a + (if comp = var.sim then s.Ju_ else s.Jz_) col row * b)
          else writeAt l row.val (a + (if comp = var.sim then s.Ju_ else s.Jz_) row col * b))
        = Outcome.undefined
      ∨ ∃ l', ((readAt l row.val).bind fun a => (readAt v col.val).bind fun b =>
          if transpose then
            writeAt l row.val (a + (if comp = var.sim then s.Ju_ else s.Jz_) col row * b)
          else writeAt l row.val (a + (if comp = var.sim then s.Ju_ else s.Jz_) row col * b))
        = Outcome.returned l' ∧ l'.length = jv.length := by
    intro row col l hl
    rcases readAt_cases l row.val with h1 | ⟨a, h1⟩
    · simp [Outcome.bind, h1]
    rcases readAt_cases v col.val with h2 | ⟨b, h2⟩
    · simp [Outcome.bind, h1, h2]
    simp only [Outcome.bind, h1, h2]
    cases transpose
    · rcases writeAt_cases l row.val (a + (if comp = var.sim then s.Ju_ else s.Jz_) row col * b)
        with h3 | ⟨l', h3, hl'⟩
      · exact Or.inl (by simpa using h3)
      · exact Or.inr ⟨l', by simpa using h3, hl'.trans hl⟩
    · rcases writeAt_cases l row.val (a + (if comp = var.sim then s.Ju_ else s.Jz_) col row * b)
        with h3 | ⟨l', h3, hl'⟩
      · exact Or.inl (by simpa using h3)
      · exact Or.inr ⟨l', by simpa using h3, hl'.trans hl⟩
  have hpos : 0 < D.nDoF := by omega
  unfold applyJacRaw
  rcases h with h | h
  · exact forLoop2_bind_undefined D.nDoF D.nDoF _ (fun l : List K => l.length = jv.length)
      hsafe ⟨jv.length, h⟩ ⟨0, hpos⟩
      (fun l hl => by simp [Outcome.bind, readAt_of_le l _ (le_of_eq hl)])
      _ (Or.inr ⟨_, rfl, by simp⟩)
  · exact forLoop2_bind_undefined D.nDoF D.nDoF _ (fun l : List K => l.length = jv.length)
      hsafe ⟨0, hpos⟩ ⟨v.length, h⟩
      (fun l hl => by
        rcases readAt_cases l 0 with h1 | ⟨a, h1⟩ <;>
          simp [Outcome.bind, h1, readAt_of_le v _ (le_refl _)])
      _ (Or.inr ⟨_, rfl, by simp⟩)

theorem applyJacRaw_safe (s : BVPConstraint D) (jv v : List K) (comp : var)
    (transpose : Bool) :
    applyJacRaw s jv v comp transpose = Outcome.undefined
      ∨ ∃ out, applyJacRaw s jv v comp transpose = Outcome.returned out
          ∧ out.length = jv.length := by
  by_cases h : jv.length < D.nDoF ∨ v.length < D.nDoF
  · exact Or.inl (applyJacRaw_of_lt s jv v comp transpose h)
  · obtain ⟨out, h1, h2, _⟩ := applyJacRaw_of_le s jv v comp transpose (by omega) (by omega)
    exact Or.inr ⟨out, h1, h2⟩

end rawLoops
end BVPConstraint
end ROL

namespace ROL
namespace BVPConstraint

section rawOpsPlain
variable {K : Type}

theorem dof_hits3 (D : Discretization K) (hcells : 1 ≤ D.numCells) (l1 l2 l3 : List K)
    (h : l1.length < D.nDoF ∨ l2.length < D.nDoF ∨ l3.length < D.nDoF) :
    ∃ cell field, l1.length ≤ (D.dof cell field).val ∨ l2.length ≤ (D.dof cell field).val
      ∨ l3.length ≤ (D.dof cell field).val := by
  rcases h with h | h | h
  · obtain ⟨c, f, e⟩ := D.dof_hits hcells _ h
    exact ⟨c, f, Or.inl (le_of_eq e.symm)⟩
  · obtain ⟨c, f, e⟩ := D.dof_hits hcells _ h
    exact ⟨c, f, Or.inr (Or.inl (le_of_eq e.symm))⟩
  · obtain ⟨c, f, e⟩ := D.dof_hits hcells _ h
    exact ⟨c, f, Or.inr (Or.inr (le_of_eq e.symm))⟩

end rawOpsPlain

section rawOps
variable {K : Type} [CommRing K] {D : Discretization K}

theorem updateRaw_safe (coeff : Coefficient K D.spaceDim) (s : BVPConstraint D) (u z : List K)
    (flag : Bool) (iter : Int) :
    updateRaw coeff s u z flag iter = Outcome.undefined
      ∨ ∃ s', updateRaw coeff s u z flag iter = Outcome.returned s' := by
  unfold updateRaw
  rcases gatherRaw_safe (fun _ _ => (0 : DFad K D.numFields)) z with h | ⟨z_fc1, h⟩
  · rw [h, bind_undefined]
    exact Or.inl rfl
  rcases gatherRaw_safe (fun _ _ => (0 : DFad K D.numFields)) u with h' | ⟨u_fc2, h'⟩
  · rw [h, bind_returned, h', bind_undefined]
    exact Or.inl rfl
  rw [h, bind_returned, h', bind_returned]
  generalize hX : forLoop D.numCells _ _ = X
  have key : X = Outcome.undefined ∨ ∃ b, X = Outcome.returned b ∧ True := by
    rw [← hX]
    exact forLoop2_bind_safe D.numCells D.numFields _ (fun _ => True)
      (fun cell field fc _ => by
        rcases readAt_cases u (D.dof cell field).val with h1 | ⟨a, h1⟩ <;>
          rcases readAt_cases z (D.dof cell field).val with h2 | ⟨b, h2⟩ <;>
            simp [Outcome.bind, h1, h2])
      _ (Or.inr ⟨_, rfl, trivial⟩)
  rcases key with rfl | ⟨b, rfl, _⟩
  · exact Or.inl rfl
  · exact Or.inr ⟨_, rfl⟩

theorem updateRaw_of_le (coeff : Coefficient K D.spaceDim) (s : BVPConstraint D) (u z : List K)
    (flag : Bool) (iter : Int) (hu : D.nDoF ≤ u.length) (hz : D.nDoF ≤ z.length) :
    ∃ s', updateRaw coeff s u z flag iter = Outcome.returned s' := by
  unfold updateRaw
  obtain ⟨z_fc1, h⟩ := gatherRaw_returns (fun _ _ => (0 : DFad K D.numFields)) z hz
  obtain ⟨u_fc2, h'⟩ := gatherRaw_returns (fun _ _ => (0 : DFad K D.numFields)) u hu
  rw [h, bind_returned, h', bind_returned]
  generalize hX : forLoop D.numCells _ _ = X
  have key : ∃ b, X = Outcome.returned b ∧ True := by
    rw [← hX]
    exact forLoop2_bind_returns D.numCells D.numFields _ (fun _ => True)
      (fun cell field fc _ => by
        have h1 := readAt_of_lt u (D.dof cell field).val
          (lt_of_lt_of_le (D.dof cell field).isLt hu)
        have h2 := readAt_of_lt z (D.dof cell field).val
          (lt_of_lt_of_le (D.dof cell field).isLt hz)
        simp [Outcome.bind, h1, h2])
      _ ⟨_, rfl, trivial⟩
  obtain ⟨b, rfl, _⟩ := key
  exact ⟨_, rfl⟩

theorem prelude_safe (m : Bool) (coeff : Coefficient K D.spaceDim) (s : BVPConstraint D)
    (u z : List K) :
    (if m then updateRaw coeff s u z true (-1) else Outcome.returned s) = Outcome.undefined
      ∨ ∃ s', (if m then updateRaw coeff s u z true (-1) else Outcome.returned s)
          = Outcome.returned s' := by
  cases m
  · exact Or.inr ⟨s, rfl⟩
  · exact updateRaw_safe coeff s u z true (-1)

theorem prelude_of_le (m : Bool) (coeff : Coefficient K D.spaceDim) (s : BVPConstraint D)
    (u z : List K) (hu : D.nDoF ≤ u.length) (hz : D.nDoF ≤ z.length) :
    ∃ s', (if m then updateRaw coeff s u z true (-1) else Outcome.returned s)
      = Outcome.returned s' := by
  cases m
  · exact ⟨s, rfl⟩
  · exact updateRaw_of_le coeff s u z true (-1) hu hz

theorem valueRaw_safe (m : Bool) (coeff : Coefficient K D.spaceDim) (s : BVPConstraint D)
    (c u z : List K) :
    valueRaw m coeff s c u z = Outcome.undefined
      ∨ ∃ r, valueRaw m coeff s c u z = Outcome.returned r ∧ r.2.length = c.length := by
  unfold valueRaw
  rcases prelude_safe m coeff s u z with hp | ⟨s', hp⟩
  · left
    simp only [hp, bind_undefined]
  rcases gatherRaw_safe ((fun _ _ => 0) : FC D K) u with hu | ⟨u_fc, hu⟩
  · left
    simp only [hp, bind_returned, hu, bind_undefined]
  rcases gatherRaw_safe ((fun _ _ => 0) : FC D K) z with hz | ⟨z_fc, hz⟩
  · left
    simp only [hp, bind_returned, hu, hz, bind_undefined]
  simp only [hp, bind_returned, hu, hz]
  generalize hX : forLoop D.numCells _ _ = X
  have key : X = Outcome.undefined ∨ ∃ l, X = Outcome.returned l ∧ l.length = c.length := by
    rw [← hX]
    exact accumLoop2_safe D.numCells D.numFields _ _ c.length _ (Or.inr ⟨_, rfl, by simp⟩)
  rcases key with rfl | ⟨l, rfl, hl⟩
  · exact Or.inl rfl
  · exact Or.inr ⟨_, rfl, hl⟩

theorem valueRaw_of_le (m : Bool) (coeff : Coefficient K D.spaceDim) (s : BVPConstraint D)
    (c u z : List K) (hc : D.nDoF ≤ c.length) (hu : D.nDoF ≤ u.length)
    (hz : D.nDoF ≤ z.length) :
    ∃ r, valueRaw m coeff s c u z = Outcome.returned r ∧ r.2.length = c.length := by
  unfold valueRaw
  obtain ⟨s', hp⟩ := prelude_of_le m coeff s u z hu hz
  obtain ⟨u_fc, hu'⟩ := gatherRaw_returns ((fun _ _ => 0) : FC D K) u hu
  obtain ⟨z_fc, hz'⟩ := gatherRaw_returns ((fun _ _ => 0) : FC D K) z hz
  simp only [hp, bind_returned, hu', hz']
  generalize hX : forLoop D.numCells _ _ = X
  have key : ∃ l, X = Outcome.returned l ∧ l.length = c.length := by
    rw [← hX]
    exact accumLoop2_of_lt D.numCells D.numFields _ _ c.length
      (fun cell field => lt_of_lt_of_le (D.dof cell field).isLt hc) _ ⟨_, rfl, by simp⟩
  obtain ⟨l, rfl, hl⟩ := key
  exact ⟨_, rfl, hl⟩

theorem valueRaw_of_lt (coeff : Coefficient K D.spaceDim) (s : BVPConstraint D)
    (c u z : List K) (hcells : 1 ≤ D.numCells)
    (h : c.length < D.nDoF ∨ u.length < D.nDoF ∨ z.length < D.nDoF) :
    valueRaw false coeff s c u z = Outcome.undefined := by
  unfold valueRaw
  simp only [Bool.false_eq_true, if_false, bind_returned]
  rcases Nat.lt_or_ge u.length D.nDoF with hu | hu
  · simp only [gatherRaw_of_lt _ u hcells hu, bind_undefined]
  obtain ⟨u_fc, hu'⟩ := gatherRaw_returns ((fun _ _ => 0) : FC D K) u hu
  rcases Nat.lt_or_ge z.length D.nDoF with hz | hz
  · simp only [hu', bind_returned, gatherRaw_of_lt _ z hcells hz, bind_undefined]
  obtain ⟨z_fc, hz'⟩ := gatherRaw_returns ((fun _ _ => 0) : FC D K) z hz
  have hc : c.length < D.nDoF := by omega
  obtain ⟨cell0, field0, h0⟩ := D.dof_hits hcells c.length hc
  simp only [hu', hz', bind_returned]
  generalize hX : forLoop D.numCells _ _ = X
  have key : X = Outcome.undefined := by
    rw [← hX]
    exact accumLoop2_of_le D.numCells D.numFields _ _ c.length cell0 field0
      (le_of_eq h0.symm) _ (Or.inr ⟨_, rfl, by simp⟩)
  rw [key, bind_undefined]

theorem prelude_bind_safe (m : Bool) (coeff : Coefficient K D.spaceDim) (s : BVPConstraint D)
    (u z : List K) (X : BVPConstraint D → Outcome (BVPConstraint D × List K)) (len : Nat)
    (hX : ∀ s', X s' = Outcome.undefined
      ∨ ∃ r, X s' = Outcome.returned r ∧ r.2.length = len) :
    (if m then updateRaw coeff s u z true (-1) else Outcome.returned s).bind X
        = Outcome.undefined
      ∨ ∃ r, (if m then updateRaw coeff s u z true (-1) else Outcome.returned s).bind X
        = Outcome.returned r ∧ r.2.length = len := by
  rcases prelude_safe m coeff s u z with hp | ⟨s', hp⟩
  · left
    rw [hp, bind_undefined]
  · rw [hp, bind_returned]
    exact hX s'

theorem prelude_bind_of_le (m : Bool) (coeff : Coefficient K D.spaceDim) (s : BVPConstraint D)
    (u z : List K) (X : BVPConstraint D → Outcome (BVPConstraint D × List K)) (len : Nat)
    (hu : D.nDoF ≤ u.length) (hz : D.nDoF ≤ z.length)
    (hX : ∀ s', ∃ r, X s' = Outcome.returned r ∧ r.2.length = len) :
    ∃ r, (if m then updateRaw coeff s u z true (-1) else Outcome.returned s).bind X
      = Outcome.returned r ∧ r.2.length = len := by
  obtain ⟨s', hp⟩ := prelude_of_le m coeff s u z hu hz
  rw [hp, bind_returned]
  exact hX s'

theorem prelude_bind_of_lt (coeff : Coefficient K D.spaceDim) (s : BVPConstraint D)
    (u z : List K) (X : BVPConstraint D → Outcome (BVPConstraint D × List K))
    (hX : X s = Outcome.undefined) :
    (if false then updateRaw coeff s u z true (-1) else Outcome.returned s).bind X
      = Outcome.undefined := by
  simp only [Bool.false_eq_true, if_false, bind_returned, hX]

theorem hessScatter_outcome (c_fc : FC D (DSFad K D.numFields)) (w l0 : List K)
    (X : Outcome (List K))
    (hX : X = forLoop D.numCells (fun cell st =>
      st.bind fun ahwv =>
        (forLoop D.numFields (fun field st =>
          st.bind fun wdotc => (readAt w (D.dof cell field).val).bind fun wi =>
            Outcome.returned (wdotc + c_fc cell field * algebraMap K (DSFad K D.numFields) wi))
          (Outcome.returned
            (TrivSqZeroExt.inl (algebraMap K (SFad K) 0) : DSFad K D.numFields))).bind
          fun wdotc =>
        forLoop D.numFields (fun field st =>
          st.bind fun ahwv => (readAt ahwv (D.dof cell field).val).bind fun a =>
            writeAt ahwv (D.dof cell field).val (a + SFad.dx (DFad.dx wdotc field) 0))
          (Outcome.returned ahwv)) (Outcome.returned l0)) :
    (X = Outcome.undefined ∨ ∃ out, X = Outcome.returned out ∧ out.length = l0.length)
    ∧ (D.nDoF ≤ w.length → D.nDoF ≤ l0.length →
        ∃ out, X = Outcome.returned out ∧ out.length = l0.length)
    ∧ (1 ≤ D.numCells → (w.length < D.nDoF ∨ l0.length < D.nDoF) →
        X = Outcome.undefined) := by
  have hsafe : ∀ (cell : Fin D.numCells) (l : List K), l.length = l0.length →
      ((forLoop D.numFields (fun field st =>
          st.bind fun wdotc => (readAt w (D.dof cell field).val).bind fun wi =>
            Outcome.returned (wdotc + c_fc cell field * algebraMap K (DSFad K D.numFields) wi))
          (Outcome.returned
            (TrivSqZeroExt.inl (algebraMap K (SFad K) 0) : DSFad K D.numFields))).bind
          fun wdotc =>
        forLoop D.numFields (fun field st =>
          st.bind fun ahwv => (readAt ahwv (D.dof cell field).val).bind fun a =>
            writeAt ahwv (D.dof cell field).val (a + SFad.dx (DFad.dx wdotc field) 0))
          (Outcome.returned l)) = Outcome.undefined
      ∨ ∃ l', ((forLoop D.numFields (fun field st =>
          st.bind fun wdotc => (readAt w (D.dof cell field).val).bind fun wi =>
            Outcome.returned (wdotc + c_fc cell field * algebraMap K (DSFad K D.numFields) wi))
          (Outcome.returned
            (TrivSqZeroExt.inl (algebraMap K (SFad K) 0) : DSFad K D.numFields))).bind
          fun wdotc =>
        forLoop D.numFields (fun field st =>
          st.bind fun ahwv => (readAt ahwv (D.dof cell field).val).bind fun a =>
            writeAt ahwv (D.dof cell field).val (a + SFad.dx (DFad.dx wdotc field) 0))
          (Outcome.returned l)) = Outcome.returned l' ∧ l'.length = l0.length := by
    intro cell l hl
    rcases readLoop_safe D.numFields w (fun field => (D.dof cell field).val)
      (fun field wdotc wi =>
        wdotc + c_fc cell field * algebraMap K (DSFad K D.numFields) wi)
      (Outcome.returned
        (TrivSqZeroExt.inl (algebraMap K (SFad K) 0) : DSFad K D.numFields))
      (Or.inr ⟨_, rfl⟩) with hW | ⟨wd, hW⟩
    · left
      rw [hW, bind_undefined]
    · rw [hW, bind_returned]
      exact accumLoop_safe D.numFields _ _ l0.length _ (Or.inr ⟨l, rfl, hl⟩)
  subst hX
  refine ⟨?_, ?_, ?_⟩
  · exact forLoop_bind_safe D.numCells _ (fun l => l.length = l0.length) hsafe _
      (Or.inr ⟨l0, rfl, rfl⟩)
  · intro hw hl0
    refine forLoop_bind_returns D.numCells _ (fun l => l.length = l0.length) ?_ _
      ⟨l0, rfl, rfl⟩
    intro cell l hl
    obtain ⟨wd, hW⟩ := readLoop_of_lt D.numFields w (fun field => (D.dof cell field).val)
      (fun field wdotc wi =>
        wdotc + c_fc cell field * algebraMap K (DSFad K D.numFields) wi)
      (TrivSqZeroExt.inl (algebraMap K (SFad K) 0) : DSFad K D.numFields)
      (fun field => lt_of_lt_of_le (D.dof cell field).isLt hw)
    rw [hW, bind_returned]
    exact accumLoop_of_lt D.numFields _ _ l0.length
      (fun field => lt_of_lt_of_le (D.dof cell field).isLt hl0) _ ⟨l, rfl, hl⟩
  · intro hcells h
    rcases Nat.lt_or_ge w.length D.nDoF with hw | hw
    · obtain ⟨cell0, field0, h0⟩ := D.dof_hits hcells w.length hw
      refine forLoop_bind_undefined D.numCells _ (fun l => l.length = l0.length) hsafe cell0
        ?_ _ (Or.inr ⟨l0, rfl, rfl⟩)
      intro l hl
      rw [readLoop_of_le D.numFields w (fun field => (D.dof cell0 field).val)
        (fun field wdotc wi =>
          wdotc + c_fc cell0 field * algebraMap K (DSFad K D.numFields) wi)
        field0 (le_of_eq h0.symm) _ (Or.inr ⟨_, rfl⟩), bind_undefined]
    · have hl0 : l0.length < D.nDoF := by omega
      obtain ⟨cell0, field0, h0⟩ := D.dof_hits hcells l0.length hl0
      refine forLoop_bind_undefined D.numCells _ (fun l => l.length = l0.length) hsafe cell0
        ?_ _ (Or.inr ⟨l0, rfl, rfl⟩)
      intro l hl
      obtain ⟨wd, hW⟩ := readLoop_of_lt D.numFields w (fun field => (D.dof cell0 field).val)
        (fun field wdotc wi =>
          wdotc + c_fc cell0 field * algebraMap K (DSFad K D.numFields) wi)
        (TrivSqZeroExt.inl (algebraMap K (SFad K) 0) : DSFad K D.numFields)
        (fun field => lt_of_lt_of_le (D.dof cell0 field).isLt hw)
      rw [hW, bind_returned]
      exact accumLoop_of_le D.numFields _ _ l0.length field0 (le_of_eq h0.symm) _
        (Or.inr ⟨l, rfl, hl⟩)

theorem hessian_assemble (coeff : Coefficient K D.spaceDim) (ahwv w v u z : List K)
    (B : Outcome (FC D (DSFad K D.numFields) × FC D (DSFad K D.numFields)))
    (hsafe : B = Outcome.undefined ∨ ∃ fc, B = Outcome.returned fc)
    (hle : D.nDoF ≤ v.length → D.nDoF ≤ u.length → D.nDoF ≤ z.length →
      ∃ fc, B = Outcome.returned fc)
    (hlt : 1 ≤ D.numCells →
      (v.length < D.nDoF ∨ u.length < D.nDoF ∨ z.length < D.nDoF) → B = Outcome.undefined)
    (R : Outcome (List K))
    (hR : R = B.bind fun fc =>
      forLoop D.numCells (fun cell st =>
        st.bind fun ahwv =>
          (forLoop D.numFields (fun field st =>
            st.bind fun wdotc => (readAt w (D.dof cell field).val).bind fun wi =>
              Outcome.returned (wdotc + evaluate_res coeff (fun _ _ => 0) fc.1 fc.2 cell field
                * algebraMap K (DSFad K D.numFields) wi))
            (Outcome.returned
              (TrivSqZeroExt.inl (algebraMap K (SFad K) 0) : DSFad K D.numFields))).bind
            fun wdotc =>
          forLoop D.numFields (fun field st =>
            st.bind fun ahwv => (readAt ahwv (D.dof cell field).val).bind fun a =>
              writeAt ahwv (D.dof cell field).val (a + SFad.dx (DFad.dx wdotc field) 0))
            (Outcome.returned ahwv)) (Outcome.returned (List.replicate ahwv.length 0))) :
    (R = Outcome.undefined ∨ ∃ out, R = Outcome.returned out ∧ out.length = ahwv.length)
    ∧ (D.nDoF ≤ ahwv.length → D.nDoF ≤ w.length → D.nDoF ≤ v.length → D.nDoF ≤ u.length →
        D.nDoF ≤ z.length → ∃ out, R = Outcome.returned out ∧ out.length = ahwv.length)
    ∧ (1 ≤ D.numCells →
        (ahwv.length < D.nDoF ∨ w.length < D.nDoF ∨ v.length < D.nDoF ∨ u.length < D.nDoF
          ∨ z.length < D.nDoF) → R = Outcome.undefined) := by
  subst hR
  have hlen : (List.replicate ahwv.length (0 : K)).length = ahwv.length := by simp
  have key := fun fc : FC D (DSFad K D.numFields) × FC D (DSFad K D.numFields) =>
    hessScatter_outcome (evaluate_res coeff (fun _ _ => 0) fc.1 fc.2) w
      (List.replicate ahwv.length 0) _ rfl
  simp only [hlen] at key
  refine ⟨?_, ?_, ?_⟩
  · rcases hsafe with rfl | ⟨fc, rfl⟩
    · exact Or.inl rfl
    · rw [bind_returned]
      exact (key fc).1
  · intro ha hw hv hu hz
    obtain ⟨fc, rfl⟩ := hle hv hu hz
    rw [bind_returned]
    exact (key fc).2.1 hw ha
  · intro hcells h
    by_cases h3 : v.length < D.nDoF ∨ u.length < D.nDoF ∨ z.length < D.nDoF
    · rw [hlt hcells h3, bind_undefined]
    · obtain ⟨fc, rfl⟩ := hle (by omega) (by omega) (by omega)
      rw [bind_returned]
      exact (key fc).2.2 hcells (by omega)

theorem applyAdjointHessianRaw_outcome_11 (coeff : Coefficient K D.spaceDim)
    (ahwv w v u z : List K) :
    (applyAdjointHessianRaw coeff ahwv w v u z var.sim var.sim = Outcome.undefined
      ∨ ∃ out, applyAdjointHessianRaw coeff ahwv w v u z var.sim var.sim = Outcome.returned out
          ∧ out.length = ahwv.length)
    ∧ (D.nDoF ≤ ahwv.length → D.nDoF ≤ w.length → D.nDoF ≤ v.length → D.nDoF ≤ u.length →
        D.nDoF ≤ z.length →
        ∃ out, applyAdjointHessianRaw coeff ahwv w v u z var.sim var.sim = Outcome.returned out
          ∧ out.length = ahwv.length)
    ∧ (1 ≤ D.numCells →
        (ahwv.length < D.nDoF ∨ w.length < D.nDoF ∨ v.length < D.nDoF ∨ u.length < D.nDoF
          ∨ z.length < D.nDoF) →
        applyAdjointHessianRaw coeff ahwv w v u z var.sim var.sim = Outcome.undefined) := by
  unfold applyAdjointHessianRaw
  simp only []
  generalize hB : forLoop D.numCells _ _ = B
  exact hessian_assemble coeff ahwv w v u z B
    (by rw [← hB]; exact read3Loop2_safe _ _ u v z _ _ _)
    (fun hv hu hz => by
      rw [← hB]
      exact read3Loop2_of_lt _ _ u v z _ _ _
        (fun c f => lt_of_lt_of_le (D.dof c f).isLt hu)
        (fun c f => lt_of_lt_of_le (D.dof c f).isLt hv)
        (fun c f => lt_of_lt_of_le (D.dof c f).isLt hz))
    (fun hcells h => by
      obtain ⟨c, f, hcf⟩ := dof_hits3 D hcells v u z h
      rw [← hB]
      exact read3Loop2_of_le _ _ u v z _ _ _ c f (by omega))
    _ rfl

theorem applyAdjointHessianRaw_outcome_12 (coeff : Coefficient K D.spaceDim)
    (ahwv w v u z : List K) :
    (applyAdjointHessianRaw coeff ahwv w v u z var.sim var.opt = Outcome.undefined
      ∨ ∃ out, applyAdjointHessianRaw coeff ahwv w v u z var.sim var.opt = Outcome.returned out
          ∧ out.length = ahwv.length)
    ∧ (D.nDoF ≤ ahwv.length → D.nDoF ≤ w.length → D.nDoF ≤ v.length → D.nDoF ≤ u.length →
        D.nDoF ≤ z.length →
        ∃ out, applyAdjointHessianRaw coeff ahwv w v u z var.sim var.opt = Outcome.returned out
          ∧ out.length = ahwv.length)
    ∧ (1 ≤ D.numCells →
        (ahwv.length < D.nDoF ∨ w.length < D.nDoF ∨ v.length < D.nDoF ∨ u.length < D.nDoF
          ∨ z.length < D.nDoF) →
        applyAdjointHessianRaw coeff ahwv w v u z var.sim var.opt = Outcome.undefined) := by
  unfold applyAdjointHessianRaw
  simp only []
  generalize hB : forLoop D.numCells _ _ = B
  exact hessian_assemble coeff ahwv w v u z B
    (by rw [← hB]; exact read3Loop2_safe _ _ u v z _ _ _)
    (fun hv hu hz => by
      rw [← hB]
      exact read3Loop2_of_lt _ _ u v z _ _ _
        (fun c f => lt_of_lt_of_le (D.dof c f).isLt hu)
        (fun c f => lt_of_lt_of_le (D.dof c f).isLt hv)
        (fun c f => lt_of_lt_of_le (D.dof c f).isLt hz))
    (fun hcells h => by
      obtain ⟨c, f, hcf⟩ := dof_hits3 D hcells v u z h
      rw [← hB]
      exact read3Loop2_of_le _ _ u v z _ _ _ c f (by omega))
    _ rfl

theorem applyAdjointHessianRaw_outcome_21 (coeff : Coefficient K D.spaceDim)
    (ahwv w v u z : List K) :
    (applyAdjointHessianRaw coeff ahwv w v u z var.opt var.sim = Outcome.undefined
      ∨ ∃ out, applyAdjointHessianRaw coeff ahwv w v u z var.opt var.sim = Outcome.returned out
          ∧ out.length = ahwv.length)
    ∧ (D.nDoF ≤ ahwv.length → D.nDoF ≤ w.length → D.nDoF ≤ v.length → D.nDoF ≤ u.length →
        D.nDoF ≤ z.length →
        ∃ out, applyAdjointHessianRaw coeff ahwv w v u z var.opt var.sim = Outcome.returned out
          ∧ out.length = ahwv.length)
    ∧ (1 ≤ D.numCells →
        (ahwv.length < D.nDoF ∨ w.length < D.nDoF ∨ v.length < D.nDoF ∨ u.length < D.nDoF
          ∨ z.length < D.nDoF) →
        applyAdjointHessianRaw coeff ahwv w v u z var.opt var.sim = Outcome.undefined) := by
  unfold applyAdjointHessianRaw
  simp only []
  generalize hB : forLoop D.numCells _ _ = B
  exact hessian_assemble coeff ahwv w v u z B
    (by rw [← hB]; exact read3Loop2_safe _ _ z v u _ _ _)
    (fun hv hu hz => by
      rw [← hB]
      exact read3Loop2_of_lt _ _ z v u _ _ _
        (fun c f => lt_of_lt_of_le (D.dof c f).isLt hz)
        (fun c f => lt_of_lt_of_le (D.dof c f).isLt hv)
        (fun c f => lt_of_lt_of_le (D.dof c f).isLt hu))
    (fun hcells h => by
      obtain ⟨c, f, hcf⟩ := dof_hits3 D hcells v u z h
      rw [← hB]
      exact read3Loop2_of_le _ _ z v u _ _ _ c f (by omega))
    _ rfl

theorem applyAdjointHessianRaw_outcome_22 (coeff : Coefficient K D.spaceDim)
    (ahwv w v u z : List K) :
    (applyAdjointHessianRaw coeff ahwv w v u z var.opt var.opt = Outcome.undefined
      ∨ ∃ out, applyAdjointHessianRaw coeff ahwv w v u z var.opt var.opt = Outcome.returned out
          ∧ out.length = ahwv.length)
    ∧ (D.nDoF ≤ ahwv.length → D.nDoF ≤ w.length → D.nDoF ≤ v.length → D.nDoF ≤ u.length →
        D.nDoF ≤ z.length →
        ∃ out, applyAdjointHessianRaw coeff ahwv w v u z var.opt var.opt = Outcome.returned out
          ∧ out.length = ahwv.length)
    ∧ (1 ≤ D.numCells →
        (ahwv.length < D.nDoF ∨ w.length < D.nDoF ∨ v.length < D.nDoF ∨ u.length < D.nDoF
          ∨ z.length < D.nDoF) →
        applyAdjointHessianRaw coeff ahwv w v u z var.opt var.opt = Outcome.undefined) := by
  unfold applyAdjointHessianRaw
  simp only []
  generalize hB : forLoop D.numCells _ _ = B
  exact hessian_assemble coeff ahwv w v u z B
    (by rw [← hB]; exact read3Loop2_safe _ _ z v u _ _ _)
    (fun hv hu hz => by
      rw [← hB]
      exact read3Loop2_of_lt _ _ z v u _ _ _
        (fun c f => lt_of_lt_of_le (D.dof c f).isLt hz)
        (fun c f => lt_of_lt_of_le (D.dof c f).isLt hv)
        (fun c f => lt_of_lt_of_le (D.dof c f).isLt hu))
    (fun hcells h => by
      obtain ⟨c, f, hcf⟩ := dof_hits3 D hcells v u z h
      rw [← hB]
      exact read3Loop2_of_le _ _ z v u _ _ _ c f (by omega))
    _ rfl

theorem applyAdjointHessianRaw_outcome (coeff : Coefficient K D.spaceDim)
    (ahwv w v u z : List K) (one two : var) :
    (applyAdjointHessianRaw coeff ahwv w v u z one two = Outcome.undefined
      ∨ ∃ out, applyAdjointHessianRaw coeff ahwv w v u z one two = Outcome.returned out
          ∧ out.length = ahwv.length)
    ∧ (D.nDoF ≤ ahwv.length → D.nDoF ≤ w.length → D.nDoF ≤ v.length → D.nDoF ≤ u.length →
        D.nDoF ≤ z.length →
        ∃ out, applyAdjointHessianRaw coeff ahwv w v u z one two = Outcome.returned out
          ∧ out.length = ahwv.length)
    ∧ (1 ≤ D.numCells →
        (ahwv.length < D.nDoF ∨ w.length < D.nDoF ∨ v.length < D.nDoF ∨ u.length < D.nDoF
          ∨ z.length < D.nDoF) →
        applyAdjointHessianRaw coeff ahwv w v u z one two = Outcome.undefined) := by
  cases one <;> cases two
  · exact applyAdjointHessianRaw_outcome_11 coeff ahwv w v u z
  · exact applyAdjointHessianRaw_outcome_12 coeff ahwv w v u z
  · exact applyAdjointHessianRaw_outcome_21 coeff ahwv w v u z
  · exact applyAdjointHessianRaw_outcome_22 coeff ahwv w v u z

end rawOps
end BVPConstraint
end ROL

namespace ROL
namespace BVPConstraint

section rawInverse
variable {K : Type} [Field K] [DecidableEq K] {D : Discretization K}

theorem applyInverseJacobian_1Raw_outcome (m : Bool) (coeff : Coefficient K D.spaceDim)
    (s : BVPConstraint D) (ijv v u z : List K) :
    (applyInverseJacobian_1Raw m coeff s ijv v u z = Outcome.undefined
      ∨ ∃ r, applyInverseJacobian_1Raw m coeff s ijv v u z = Outcome.returned r
          ∧ r.2.length = ijv.length)
    ∧ (D.nDoF ≤ ijv.length → D.nDoF ≤ v.length → D.nDoF ≤ u.length → D.nDoF ≤ z.length →
        ∃ r, applyInverseJacobian_1Raw m coeff s ijv v u z = Outcome.returned r
          ∧ r.2.length = ijv.length)
    ∧ ((ijv.length < D.nDoF ∨ v.length < D.nDoF) →
        applyInverseJacobian_1Raw false coeff s ijv v u z = Outcome.undefined) := by
  unfold applyInverseJacobian_1Raw
  refine ⟨?_, ?_, ?_⟩
  · refine prelude_bind_safe m coeff s u z _ ijv.length fun s' => ?_
    rcases vec2matRaw_safe (0 : Matrix (Fin D.nDoF) (Fin 1) K) v with h | ⟨rhs, h⟩
    · left
      simp only [h, bind_undefined]
    · simp only [h, bind_returned]
      exact bind_pair_safe _ _ _ (mat2vecRaw_safe ijv _)
  · intro hijv hv hu hz
    refine prelude_bind_of_le m coeff s u z _ ijv.length hu hz fun s' => ?_
    obtain ⟨rhs, h⟩ := vec2matRaw_of_le (0 : Matrix (Fin D.nDoF) (Fin 1) K) v hv
    simp only [h, bind_returned]
    exact bind_pair_of_le _ _ _ (mat2vecRaw_of_le ijv _ hijv)
  · intro hshort
    refine prelude_bind_of_lt coeff s u z _ ?_
    rcases Nat.lt_or_ge v.length D.nDoF with hv | hv
    · simp only [vec2matRaw_of_lt _ v hv, bind_undefined]
    · obtain ⟨rhs, h⟩ := vec2matRaw_of_le (0 : Matrix (Fin D.nDoF) (Fin 1) K) v hv
      simp only [h, bind_returned]
      exact bind_pair_of_lt _ _ (mat2vecRaw_of_lt ijv _ (by omega))

end rawInverse
end BVPConstraint
end ROL

namespace ROL

theorem not_reported_of_outcome {β : Type} (P : β → Prop) (x : Outcome β)
    (h : x = Outcome.undefined ∨ ∃ b, x = Outcome.returned b ∧ P b) (what : String) :
    x ≠ Outcome.reported what := by
  rcases h with rfl | ⟨b, rfl, _⟩ <;> simp

namespace BVPConstraint

section rawFamilies
variable {K : Type} [CommRing K] {D : Discretization K}

theorem jacobianRaw_outcome (m : Bool) (coeff : Coefficient K D.spaceDim)
    (s : BVPConstraint D) (jv v u z : List K) (comp : var) (transpose : Bool)
    (op : Bool → Outcome (BVPConstraint D × List K))
    (hop : ∀ m, op m
      = (if m then updateRaw coeff s u z true (-1) else Outcome.returned s).bind fun s =>
          (applyJacRaw s jv v comp transpose).bind fun jv => Outcome.returned (s, jv)) :
    (∀ what, op m ≠ Outcome.reported what)
    ∧ (D.nDoF ≤ jv.length → D.nDoF ≤ v.length → D.nDoF ≤ u.length → D.nDoF ≤ z.length →
        ∃ r, op m = Outcome.returned r ∧ r.2.length = jv.length)
    ∧ ((jv.length < D.nDoF ∨ v.length < D.nDoF) → op false = Outcome.undefined) := by
  refine ⟨?_, ?_, ?_⟩
  · rw [hop m]
    exact not_reported_of_outcome _ _ (prelude_bind_safe m coeff s u z _ jv.length
      fun s' => bind_pair_safe _ _ _ (applyJacRaw_safe s' jv v comp transpose))
  · intro hjv hv hu hz
    rw [hop m]
    refine prelude_bind_of_le m coeff s u z _ jv.length hu hz fun s' => ?_
    obtain ⟨out, h1, h2, _⟩ := applyJacRaw_of_le s' jv v comp transpose hjv hv
    exact bind_pair_of_le _ _ _ ⟨out, h1, h2⟩
  · intro h
    rw [hop false]
    exact prelude_bind_of_lt coeff s u z _
      (bind_pair_of_lt _ _ (applyJacRaw_of_lt s jv v comp transpose h))

theorem hessianRaw_outcome (m : Bool) (coeff : Coefficient K D.spaceDim)
    (s : BVPConstraint D) (ahwv w v u z : List K) (one two : var)
    (op : Bool → Outcome (BVPConstraint D × List K))
    (hop : ∀ m, op m
      = (if m then updateRaw coeff s u z true (-1) else Outcome.returned s).bind fun s =>
          (applyAdjointHessianRaw coeff ahwv w v u z one two).bind fun ahwv =>
            Outcome.returned (s, ahwv)) :
    (∀ what, op m ≠ Outcome.reported what)
    ∧ (D.nDoF ≤ ahwv.length → D.nDoF ≤ w.length → D.nDoF ≤ v.length → D.nDoF ≤ u.length →
        D.nDoF ≤ z.length → ∃ r, op m = Outcome.returned r ∧ r.2.length = ahwv.length)
    ∧ (1 ≤ D.numCells →
        (ahwv.length < D.nDoF ∨ w.length < D.nDoF ∨ v.length < D.nDoF ∨ u.length < D.nDoF
          ∨ z.length < D.nDoF) → op false = Outcome.undefined) := by
  have h := applyAdjointHessianRaw_outcome coeff ahwv w v u z one two
  refine ⟨?_, ?_, ?_⟩
  · rw [hop m]
    exact not_reported_of_outcome _ _ (prelude_bind_safe m coeff s u z _ ahwv.length
      fun s' => bind_pair_safe _ _ _ h.1)
  · intro ha hw hv hu hz
    rw [hop m]
    exact prelude_bind_of_le m coeff s u z _ ahwv.length hu hz
      fun s' => bind_pair_of_le _ _ _ (h.2.1 ha hw hv hu hz)
  · intro hcells hshort
    rw [hop false]
    exact prelude_bind_of_lt coeff s u z _ (bind_pair_of_lt _ _ (h.2.2 hcells hshort))

end rawFamilies

section rawClaim
variable {K : Type} [Field K] [DecidableEq K] {D : Discretization K}

/-- C22 as stated fails: on the one-cell problem (`nDoF = 2`) `applyJacobian_1` with an output
and an input of length 3 returns a result, computed from the first two entries of the input, and
reports nothing; with an input of length 1 it indexes past the end, again without a report. -/
theorem length_mismatch_not_reported :
    oneCellP1.nDoF = 2
    ∧ applyJacobian_1Raw false advDiffReact atOnes [5, 5, 9] [1, 0, 7] [1, 1] [0, 0]
        = Outcome.returned (atOnes, [1, -1, 0])
    ∧ applyJacobian_1Raw false advDiffReact atOnes [5, 5] [1] [1, 1] [0, 0]
        = Outcome.undefined := by
  have h1 : applyJacRaw atOnes [5, 5, 9] [1, 0, 7] var.sim false
      = Outcome.returned [1, -1, 0] := by with_unfolding_all decide
  have h2 : applyJacRaw atOnes [5, 5] [1] var.sim false = Outcome.undefined := by
    with_unfolding_all decide
  refine ⟨by decide, ?_, ?_⟩
  · simp only [applyJacobian_1Raw, Bool.false_eq_true, if_false, bind_returned, h1]
  · simp only [applyJacobian_1Raw, Bool.false_eq_true, if_false, bind_returned, h2,
      bind_undefined]

/-- C22 as amended: no constraint operation checks the length of a vector or reports a
mismatch (first part of each group, in either configuration). When every vector argument has
at least `nDoF` entries the operation returns normally, the output keeping its length (second
part). In the shipped configuration, when a vector the operation indexes is shorter than `nDoF`
an element past its end is accessed (third part): the output or `v` for the four Jacobian
products and the two inverse solves; any argument for `value` and the four
`applyAdjointHessian` operations, on a discretization with at least one cell. The last part
says what `applyJac` computes on long vectors: the whole output is zero-filled and its first
`nDoF` entries receive the product formed from the first `nDoF` entries of the input. -/
theorem length_mismatch_unchecked (coeff : Coefficient K D.spaceDim) (s : BVPConstraint D)
    (m : Bool) (out w v u z : List K) :
    ((∀ what, valueRaw m coeff s out u z ≠ Outcome.reported what)
      ∧ (D.nDoF ≤ out.length → D.nDoF ≤ u.length → D.nDoF ≤ z.length →
          ∃ r, valueRaw m coeff s out u z = Outcome.returned r ∧ r.2.length = out.length)
      ∧ (1 ≤ D.numCells →
          (out.length < D.nDoF ∨ u.length < D.nDoF ∨ z.length < D.nDoF) →
          valueRaw false coeff s out u z = Outcome.undefined))
    ∧ (∀ op ∈ ([applyJacobian_1Raw, applyJacobian_2Raw, applyAdjointJacobian_1Raw,
          applyAdjointJacobian_2Raw, applyInverseJacobian_1Raw,
          applyInverseAdjointJacobian_1Raw] :
          List (Bool → Coefficient K D.spaceDim → BVPConstraint D → List K → List K →
            List K → List K → Outcome (BVPConstraint D × List K))),
        (∀ what, op m coeff s out v u z ≠ Outcome.reported what)
        ∧ (D.nDoF ≤ out.length → D.nDoF ≤ v.length → D.nDoF ≤ u.length →
            D.nDoF ≤ z.length →
            ∃ r, op m coeff s out v u z = Outcome.returned r ∧ r.2.length = out.length)
        ∧ ((out.length < D.nDoF ∨ v.length < D.nDoF) →
            op false coeff s out v u z = Outcome.undefined))
    ∧ (∀ op ∈ ([applyAdjointHessian_11Raw, applyAdjointHessian_12Raw,
          applyAdjointHessian_21Raw, applyAdjointHessian_22Raw] :
          List (Bool → Coefficient K D.spaceDim → BVPConstraint D → List K → List K →
            List K → List K → List K → Outcome (BVPConstraint D × List K))),
        (∀ what, op m coeff s out w v u z ≠ Outcome.reported what)
        ∧ (D.nDoF ≤ out.length → D.nDoF ≤ w.length → D.nDoF ≤ v.length →
            D.nDoF ≤ u.length → D.nDoF ≤ z.length →
            ∃ r, op m coeff s out w v u z = Outcome.returned r ∧ r.2.length = out.length)
        ∧ (1 ≤ D.numCells →
            (out.length < D.nDoF ∨ w.length < D.nDoF ∨ v.length < D.nDoF
              ∨ u.length < D.nDoF ∨ z.length < D.nDoF) →
            op false coeff s out w v u z = Outcome.undefined))
    ∧ (∀ (comp : var) (transpose : Bool), D.nDoF ≤ out.length → D.nDoF ≤ v.length →
        ∃ r, applyJacRaw s out v comp transpose = Outcome.returned r
          ∧ r.length = out.length
          ∧ (∀ k : Fin D.nDoF, r.getD k.val 0
              = applyJac s (fun _ => 0) (fun k => v.getD k.val 0) comp transpose k)
          ∧ (∀ k, D.nDoF ≤ k → r.getD k 0 = 0)) := by
  refine ⟨⟨fun what => not_reported_of_outcome _ _ (valueRaw_safe m coeff s out u z) what,
      valueRaw_of_le m coeff s out u z, valueRaw_of_lt coeff s out u z⟩, ?_, ?_,
    fun comp transpose hout hv => applyJacRaw_of_le s out v comp transpose hout hv⟩
  · intro op hop
    simp only [List.mem_cons, List.mem_singleton, List.not_mem_nil, or_false] at hop
    rcases hop with rfl | rfl | rfl | rfl | rfl | rfl
    · exact jacobianRaw_outcome m coeff s out v u z var.sim false
        (fun m => applyJacobian_1Raw m coeff s out v u z) (fun _ => rfl)
    · exact jacobianRaw_outcome m coeff s out v u z var.opt false
        (fun m => applyJacobian_2Raw m coeff s out v u z) (fun _ => rfl)
    · exact jacobianRaw_outcome m coeff s out v u z var.sim true
        (fun m => applyAdjointJacobian_1Raw m coeff s out v u z) (fun _ => rfl)
    · exact jacobianRaw_outcome m coeff s out v u z var.opt true
        (fun m => applyAdjointJacobian_2Raw m coeff s out v u z) (fun _ => rfl)
    · have h := applyInverseJacobian_1Raw_outcome m coeff s out v u z
      exact ⟨fun what => not_reported_of_outcome _ _ h.1 what, h.2.1, h.2.2⟩
    · have h := applyInverseJacobian_1Raw_outcome m coeff s out v u z
      exact ⟨fun what => not_reported_of_outcome _ _ h.1 what, h.2.1, h.2.2⟩
  · intro op hop
    simp only [List.mem_cons, List.mem_singleton, List.not_mem_nil, or_false] at hop
    rcases hop with rfl | rfl | rfl | rfl
    · exact hessianRaw_outcome m coeff s out w v u z var.sim var.sim
        (fun m => applyAdjointHessian_11Raw m coeff s out w v u z) (fun _ => rfl)
    · exact hessianRaw_outcome m coeff s out w v u z var.sim var.opt
        (fun m => applyAdjointHessian_12Raw m coeff s out w v u z) (fun _ => rfl)
    · exact hessianRaw_outcome m coeff s out w v u z var.opt var.sim
        (fun m => applyAdjointHessian_21Raw m coeff s out w v u z) (fun _ => rfl)
    · exact hessianRaw_outcome m coeff s out w v u z var.opt var.opt
        (fun m => applyAdjointHessian_22Raw m coeff s out w v u z) (fun _ => rfl)

/-- Witness of the amended C22 on the one-cell problem: `applyJacobian_1` with vectors of
length 3 returns normally. -/
theorem length_mismatch_unchecked_witness :
    oneCellP1.nDoF ≤ ([5, 5, 9] : List ℚ).length
    ∧ ∃ r, applyJacobian_1Raw false advDiffReact atOnes [5, 5, 9] [1, 0, 7] [1, 1, 8] [0, 0, 8]
        = Outcome.returned r ∧ r.2.length = ([5, 5, 9] : List ℚ).length :=
  ⟨by decide,
    ((@length_mismatch_unchecked ℚ _ _ oneCellP1 advDiffReact atOnes false [5, 5, 9] []
      [1, 0, 7] [1, 1, 8] [0, 0, 8]).2.1 applyJacobian_1Raw (by simp)).2.1
      (by decide) (by decide) (by decide) (by decide)⟩

end rawClaim
end BVPConstraint
end ROL
